import Mathlib

/-!
# koth-agent: authorization and command pipeline

A shallow embedding of `src/main.go`.  Go strings are byte sequences, so a
string is a list of byte values; the standard-library functions the program
calls (`strings`, `net`, `os/exec`, `syscall`, `encoding/json`, `net/http`)
are embedded after their Go definitions, next to the functions of the program.
-/

namespace Koth

/-! ## Go strings -/

/-- A Go string: a sequence of bytes (each element is a byte value below 256). -/
abbrev GoString := List Nat

/-- The bytes of an ASCII literal. -/
def str (s : String) : GoString := s.toList.map Char.toNat

/-- The space byte. -/
def spaceByte : Nat := 0x20

/-- Go `strings.IndexByte`: position of the first occurrence of `c`, `none` for `-1`. -/
def IndexByte : GoString → Nat → Option Nat
  | [], _ => none
  | b :: rest, c => if b = c then some 0 else (IndexByte rest c).map (· + 1)

/-- Go `strings.Contains(s, sep)` for a one-byte separator. -/
def Contains (s : GoString) (sep : Nat) : Bool := (IndexByte s sep).isSome

/-- Go `strings.SplitN(s, sep, n)` for a one-byte separator and `n ≥ 0`: at most
`n` pieces, the last one holding the unsplit remainder. -/
def SplitN (s : GoString) (sep : Nat) : Nat → List GoString
  | 0 => []
  | 1 => [s]
  | n + 2 =>
    match IndexByte s sep with
    | none => [s]
    | some m => s.take m :: SplitN (s.drop (m + 1)) sep (n + 1)

/-! ## Requests -/

/-- The parts of `*http.Request` the handlers read: the peer address and the
value `req.Header.Get("Authorization")` returns (empty when the header is
missing). -/
structure Request where
  RemoteAddr : GoString
  Authorization : GoString

/-! ## Token check -/

/-- Embedding of `authorizeRequestKey` (main.go 105-125); the global
`AuthenticationToken` is the first argument. -/
def authorizeRequestKey (AuthenticationToken : GoString) (req : Request) : Bool :=
  if AuthenticationToken.length > 0 then
    let header := req.Authorization
    if Contains header spaceByte then
      let auth := SplitN header spaceByte 2
      if auth.length != 2 || auth.getD 0 [] != str "Token" then
        false
      else if auth.getD 1 [] != AuthenticationToken then
        false
      else
        true
    else
      let auth := header
      if auth != AuthenticationToken then
        false
      else
        true
  else
    true

/-! ## net: addresses, masks and networks -/

/-- Go `net.IP`: a byte slice; `nil` is the empty list. -/
abbrev IP := List Nat

/-- Go `net.IPMask`. -/
abbrev IPMask := List Nat

/-- Go `net.IPNet`. -/
structure IPNet where
  IP : Koth.IP
  Mask : IPMask

def IPv4len : Nat := 4

def IPv6len : Nat := 16

/-- Go `net.isZeros`. -/
def isZeros (p : IP) : Bool := p.all (· == 0)

/-- Go `net.IP.To4`: the 4-byte form of an IPv4 address (also of an
IPv4-mapped 16-byte one), `nil` otherwise. -/
def To4 (ip : IP) : IP :=
  if ip.length = IPv4len then ip
  else if ip.length = IPv6len && isZeros (ip.take 10) && ip.getD 10 0 == 0xff
      && ip.getD 11 0 == 0xff then
    (ip.drop 12).take 4
  else []

/-- Go `net.networkNumberAndMask`; `([], [])` stands for `nil, nil`. -/
def networkNumberAndMask (n : IPNet) : IP × IPMask :=
  let ip4 := To4 n.IP
  if ip4 = [] ∧ n.IP.length ≠ IPv6len then ([], [])
  else
    let ip := if ip4 = [] then n.IP else ip4
    if n.Mask.length = IPv4len then
      if ip.length ≠ IPv4len then ([], []) else (ip, n.Mask)
    else if n.Mask.length = IPv6len then
      if ip.length = IPv4len then (ip, n.Mask.drop 12) else (ip, n.Mask)
    else ([], [])

/-- Go `(*net.IPNet).Contains`. -/
def IPNet.Contains (n : IPNet) (ip : Koth.IP) : Bool :=
  let (nn, m) := networkNumberAndMask n
  let x := To4 ip
  let ip := if x ≠ [] then x else ip
  let l := ip.length
  if l ≠ nn.length then false
  else (List.range l).all fun i => nn.getD i 0 &&& m.getD i 0 == ip.getD i 0 &&& m.getD i 0

/-- One byte of `net.CIDRMask`: `n` is the number of one bits still to place. -/
def cidrMaskByte (n : Nat) : Nat := if n ≥ 8 then 0xff else 0xff - (0xff >>> n)

/-- Go `net.CIDRMask(ones, bits)` for `0 ≤ ones`; `[]` stands for `nil`. -/
def CIDRMask (ones bits : Nat) : IPMask :=
  if bits ≠ 8 * IPv4len ∧ bits ≠ 8 * IPv6len then []
  else if ones > bits then []
  else (List.range (bits / 8)).map fun i => cidrMaskByte (ones - 8 * i)

/-- Go `net.allFF`. -/
def allFF (b : List Nat) : Bool := b.all (· == 0xff)

/-- Go `net.v4InV6Prefix`. -/
def v4InV6Prefix : List Nat := [0, 0, 0, 0, 0, 0, 0, 0, 0, 0, 0xff, 0xff]

/-- Go `net.IP.Mask`: the address with the mask applied byte by byte; `[]` for
`nil` when the lengths do not fit. -/
def ipMask (ip : IP) (mask : IPMask) : IP :=
  let mask := if mask.length = IPv6len ∧ ip.length = IPv4len ∧ allFF (mask.take 12) = true
    then mask.drop 12 else mask
  let ip := if mask.length = IPv4len ∧ ip.length = IPv6len ∧ ip.take 12 = v4InV6Prefix
    then ip.drop 12 else ip
  let n := ip.length
  if n ≠ mask.length then []
  else (List.range n).map fun i => ip.getD i 0 &&& mask.getD i 0

/-- The `*IPNet` that `net.ParseCIDR` returns for the text of an address
`addr` (4 bytes for IPv4, 16 for IPv6) and a prefix length `ones`:
`&IPNet{IP: ip.Mask(m), Mask: m}` with `m = CIDRMask(ones, 8*len)`. -/
def parseCIDRNet (addr : IP) (ones : Nat) : IPNet :=
  let m := CIDRMask ones (8 * addr.length)
  { IP := ipMask addr m, Mask := m }

/-- The parts of the Go standard library that are parameters of the
embedding.  `SplitHostPort` returns the host (the empty string on error) and
`ParseIP` returns `nil` (`[]`) for text that is no IP address.
`rawReplacement` tells how `encoding/json` writes a byte that is not valid
UTF-8, which depends on the release: `false` for the six characters of the
escape of U+FFFD (the classic encoder), `true` for the three bytes `EF BF BD`
of U+FFFD itself (the encoder built on `encoding/json/v2`). -/
structure StdLib where
  SplitHostPort : GoString → GoString
  ParseIP : GoString → IP
  rawReplacement : Bool

/-! ## IP check -/

/-- Embedding of `authorizeRequestIP` (main.go 127-137); the global
`AllowedOrigins` is an argument.  The loop assigns `valid = true` at every
range that contains the address and never resets it. -/
def authorizeRequestIP (lib : StdLib) (AllowedOrigins : List IPNet) (req : Request) : Bool :=
  let host := lib.SplitHostPort req.RemoteAddr
  let ip := lib.ParseIP host
  AllowedOrigins.foldl (fun valid origin => if origin.Contains ip == true then true else valid) false

/-! ## syscall.WaitStatus and os/exec -/

/-- Go `syscall.WaitStatus` (linux): the raw status word of `wait4`. -/
abbrev WaitStatus := Nat

/-- Go `WaitStatus.Exited`: `w&mask == exited` with `mask = 0x7F`, `exited = 0`. -/
def Exited (w : WaitStatus) : Bool := w &&& 0x7F == 0x00

/-- Go `WaitStatus.Signaled`: `w&mask != stopped && w&mask != exited`. -/
def Signaled (w : WaitStatus) : Bool := w &&& 0x7F != 0x7F && w &&& 0x7F != 0x00

/-- Go `WaitStatus.ExitStatus`: `-1` unless the process exited, else bits 8-15. -/
def ExitStatus (w : WaitStatus) : Int :=
  if !Exited w then -1 else (((w >>> 8) &&& 0xFF : Nat) : Int)

/-- What the operating system did with `sh -c name`. -/
inductive ProcessOutcome
  /-- `cmd.Start` failed, no process ran; the text is `err.Error()`. -/
  | startFailed (msg : GoString)
  /-- The process ran and was waited for with status word `ws`; `ioErr` is the
  error, if any, of waiting or of copying the output streams. -/
  | waited (ws : WaitStatus) (ioErr : Option GoString)

/-- The observable result of `cmd.Run()`. -/
inductive RunResult
  /-- `err == nil`; `cmd.ProcessState` holds the status. -/
  | ok (state : WaitStatus)
  /-- `err` is an `*exec.ExitError`, which carries the process state. -/
  | exitError (state : WaitStatus)
  /-- Any other error, with its `Error()` text. -/
  | otherError (msg : GoString)

/-- Go `(*exec.Cmd).Run`: an `*ExitError` when the process ran without
succeeding (`ProcessState.Success()` is `ExitStatus() == 0`), otherwise the
I/O error if there is one. -/
def cmdRun : ProcessOutcome → RunResult
  | .startFailed msg => .otherError msg
  | .waited ws ioErr =>
    if ExitStatus ws ≠ 0 then .exitError ws
    else match ioErr with
      | some msg => .otherError msg
      | none => .ok ws

/-- One execution of a command: the bytes it wrote to the two buffers and how
the process ended. -/
structure Execution where
  outbuf : GoString
  errbuf : GoString
  outcome : ProcessOutcome

/-- Embedding of `runCommand` (main.go 75-103) on one execution. -/
def runCommandOn (x : Execution) : GoString × GoString × Int :=
  let stdout := x.outbuf
  let stderr := x.errbuf
  match cmdRun x.outcome with
  | .exitError state => (stdout, stderr, ExitStatus state)
  | .otherError msg => (stdout, if stderr = [] then msg else stderr, 1)
  | .ok state => (stdout, stderr, ExitStatus state)

/-! ## unicode/utf8 -/

/-- Go `utf8.RuneError`, U+FFFD. -/
def RuneError : Nat := 0xFFFD

/-- Go `utf8.first`: information about the first byte of a UTF-8 sequence
(`0xF0` ASCII, `0xF1` invalid, otherwise accept-range index and size). -/
def first (b : Nat) : Nat :=
  if b < 0x80 then 0xF0
  else if b < 0xC2 then 0xF1
  else if b < 0xE0 then 0x02
  else if b = 0xE0 then 0x13
  else if b < 0xED then 0x03
  else if b = 0xED then 0x23
  else if b < 0xF0 then 0x03
  else if b = 0xF0 then 0x34
  else if b < 0xF4 then 0x04
  else if b = 0xF4 then 0x44
  else 0xF1

/-- Go `utf8.acceptRanges`: the allowed interval of the second byte. -/
def acceptRanges (i : Nat) : Nat × Nat :=
  match i with
  | 0 => (0x80, 0xBF)
  | 1 => (0xA0, 0xBF)
  | 2 => (0x80, 0x9F)
  | 3 => (0x90, 0xBF)
  | 4 => (0x80, 0x8F)
  | _ => (0, 0)

/-- Go `utf8.DecodeRuneInString`: the first rune of `s` and its width in bytes;
`(RuneError, 1)` for an invalid encoding, `(RuneError, 0)` for the empty string. -/
def DecodeRune (s : GoString) : Nat × Nat :=
  match s with
  | [] => (RuneError, 0)
  | s0 :: _ =>
    let x := first s0
    if x ≥ 0xF0 then
      (if x = 0xF0 then s0 else RuneError, 1)
    else
      let sz := x &&& 7
      let accept := acceptRanges (x >>> 4)
      if s.length < sz then (RuneError, 1)
      else
        let s1 := s.getD 1 0
        if s1 < accept.1 ∨ accept.2 < s1 then (RuneError, 1)
        else if sz ≤ 2 then ((s0 &&& 0x1F) <<< 6 ||| (s1 &&& 0x3F), 2)
        else
          let s2 := s.getD 2 0
          if s2 < 0x80 ∨ 0xBF < s2 then (RuneError, 1)
          else if sz ≤ 3 then
            ((s0 &&& 0x0F) <<< 12 ||| (s1 &&& 0x3F) <<< 6 ||| (s2 &&& 0x3F), 3)
          else
            let s3 := s.getD 3 0
            if s3 < 0x80 ∨ 0xBF < s3 then (RuneError, 1)
            else
              ((s0 &&& 0x07) <<< 18 ||| (s1 &&& 0x3F) <<< 12 ||| (s2 &&& 0x3F) <<< 6
                ||| (s3 &&& 0x3F), 4)

/-- Go `utf8.AppendRune`: the UTF-8 encoding of a rune; surrogates and values
above U+10FFFF give the encoding of U+FFFD. -/
def EncodeRune (r : Nat) : GoString :=
  if r ≤ 0x7F then [r]
  else if r ≤ 0x7FF then [0xC0 ||| r >>> 6, 0x80 ||| r &&& 0x3F]
  else if r > 0x10FFFF ∨ (0xD800 ≤ r ∧ r ≤ 0xDFFF) then [0xEF, 0xBF, 0xBD]
  else if r ≤ 0xFFFF then
    [0xE0 ||| r >>> 12, 0x80 ||| (r >>> 6) &&& 0x3F, 0x80 ||| r &&& 0x3F]
  else
    [0xF0 ||| r >>> 18, 0x80 ||| (r >>> 12) &&& 0x3F, 0x80 ||| (r >>> 6) &&& 0x3F,
      0x80 ||| r &&& 0x3F]

/-- Go `utf8.ValidString`: every position decodes to something other than the
error of width 1. -/
def ValidString : Nat → GoString → Bool
  | 0, s => s.isEmpty
  | _ + 1, [] => true
  | fuel + 1, b :: rest =>
    let (c, size) := DecodeRune (b :: rest)
    if c = RuneError ∧ size = 1 then false
    else ValidString fuel ((b :: rest).drop size)

/-- A string is valid UTF-8. -/
def ValidUTF8 (s : GoString) : Prop := ValidString s.length s = true

instance (s : GoString) : Decidable (ValidUTF8 s) := by
  unfold ValidUTF8; infer_instance

/-! ## strconv and encoding/json (encoder) -/

/-- The decimal digits of `n`, least significant first, as ASCII bytes. -/
def digitsRev : Nat → Nat → GoString
  | 0, _ => []
  | fuel + 1, n => (48 + n % 10) :: (if n / 10 = 0 then [] else digitsRev fuel (n / 10))

/-- Go `strconv.AppendInt(nil, i, 10)`. -/
def formatInt (i : Int) : GoString :=
  if i < 0 then 0x2d :: (digitsRev (i.natAbs + 1) i.natAbs).reverse
  else (digitsRev (i.natAbs + 1) i.natAbs).reverse

/-- The digit of the `encoding/json` table `hex = "0123456789abcdef"` at index `n`. -/
def hexDigit (n : Nat) : Nat := if n < 10 then 48 + n else 87 + n

/-- Go `htmlSafeSet[b]` for `b < 0x80`: printable ASCII other than
`"`, `&`, `<`, `>` and `\`. -/
def htmlSafe (b : Nat) : Bool :=
  decide (0x20 ≤ b) && b != 0x22 && b != 0x26 && b != 0x3c && b != 0x3e && b != 0x5c

/-- The escape `appendString` writes for an ASCII byte outside `htmlSafeSet`. -/
def escapeByte (b : Nat) : GoString :=
  if b = 0x5c ∨ b = 0x22 then [0x5c, b]
  else if b = 0x08 then [0x5c, 0x62]
  else if b = 0x0c then [0x5c, 0x66]
  else if b = 0x0a then [0x5c, 0x6e]
  else if b = 0x0d then [0x5c, 0x72]
  else if b = 0x09 then [0x5c, 0x74]
  else [0x5c, 0x75, 0x30, 0x30, hexDigit (b >>> 4), hexDigit (b &&& 0xF)]

/-- What `appendString` writes for a byte that is not valid UTF-8: the bytes
of U+FFFD, or the escape of U+FFFD. -/
def invalidByteText (raw : Bool) : GoString :=
  if raw then [0xEF, 0xBF, 0xBD] else [0x5c, 0x75, 0x66, 0x66, 0x66, 0x64]

/-- The loop of `appendString` in `encoding/json` (with `escapeHTML` set, as
`json.Marshal` does), from position `i` on: safe ASCII bytes and well-formed
multi-byte runes are copied, unsafe ASCII bytes are escaped, an invalid byte
becomes U+FFFD (written as `invalidByteText raw` says), U+2028 and U+2029 are
written as escapes. -/
def quoteBody (raw : Bool) : Nat → GoString → GoString
  | 0, _ => []
  | _ + 1, [] => []
  | fuel + 1, b :: rest =>
    if b < 0x80 then
      (if htmlSafe b then [b] else escapeByte b) ++ quoteBody raw fuel rest
    else
      let (c, size) := DecodeRune (b :: rest)
      if c = RuneError ∧ size = 1 then
        invalidByteText raw ++ quoteBody raw fuel rest
      else if c = 0x2028 ∨ c = 0x2029 then
        [0x5c, 0x75, 0x32, 0x30, 0x32, hexDigit (c &&& 0xF)]
          ++ quoteBody raw fuel ((b :: rest).drop size)
      else
        (b :: rest).take size ++ quoteBody raw fuel ((b :: rest).drop size)

/-- Go `appendString` of `encoding/json`: a quoted JSON string. -/
def appendString (raw : Bool) (s : GoString) : GoString :=
  0x22 :: quoteBody raw s.length s ++ [0x22]

/-- Go `StatusCheckData` (main.go 23-25). -/
structure StatusCheckData where
  Identifier : GoString
  deriving DecidableEq

/-- Go `StatusCheckResponse` (main.go 28-31). -/
structure StatusCheckResponse where
  Success : Bool
  Data : StatusCheckData
  deriving DecidableEq

/-- Go `HealthCheckData` (main.go 34-38). -/
structure HealthCheckData where
  Stdout : GoString
  Stderr : GoString
  Status : Int
  deriving DecidableEq

/-- Go `HealthCheckResponse` (main.go 41-44). -/
structure HealthCheckResponse where
  Success : Bool
  Data : HealthCheckData
  deriving DecidableEq

/-- The JSON text of a Go `bool`. -/
def marshalBool (b : Bool) : GoString := if b then str "true" else str "false"

/-- The struct encoder of `encoding/json` on a `StatusCheckData`: the fields in
declaration order under their `json` tags. -/
def marshalStatusData (raw : Bool) (d : StatusCheckData) : GoString :=
  str "\x7b\"identifier\":" ++ appendString raw d.Identifier ++ str "\x7d"

/-- Go `json.Marshal` on a `StatusCheckResponse`. -/
def marshalStatus (raw : Bool) (r : StatusCheckResponse) : GoString :=
  str "\x7b\"success\":" ++ marshalBool r.Success ++ str ",\"data\":"
    ++ marshalStatusData raw r.Data ++ str "\x7d"

/-- The struct encoder of `encoding/json` on a `HealthCheckData`. -/
def marshalHealthData (raw : Bool) (d : HealthCheckData) : GoString :=
  str "\x7b\"stdout\":" ++ appendString raw d.Stdout ++ str ",\"stderr\":"
    ++ appendString raw d.Stderr ++ str ",\"status\":" ++ formatInt d.Status ++ str "\x7d"

/-- Go `json.Marshal` on a `HealthCheckResponse`. -/
def marshalHealth (raw : Bool) (r : HealthCheckResponse) : GoString :=
  str "\x7b\"success\":" ++ marshalBool r.Success ++ str ",\"data\":"
    ++ marshalHealthData raw r.Data ++ str "\x7d"

/-! ## unicode and strings.TrimSpace -/

/-- Go `unicode.IsSpace`: the Latin-1 white space and the other code points
with the `White_Space` property. -/
def IsSpace (r : Nat) : Bool :=
  if r ≤ 0xFF then
    r == 0x09 || r == 0x0a || r == 0x0b || r == 0x0c || r == 0x0d || r == 0x20
      || r == 0x85 || r == 0xA0
  else
    r == 0x1680 || (decide (0x2000 ≤ r) && decide (r ≤ 0x200a)) || r == 0x2028 || r == 0x2029
      || r == 0x202f || r == 0x205f || r == 0x3000

/-- Go `strings.asciiSpace[c] == 1`. -/
def asciiSpace (c : Nat) : Bool :=
  c == 0x09 || c == 0x0a || c == 0x0b || c == 0x0c || c == 0x0d || c == 0x20

/-- Go `utf8.RuneStart`. -/
def RuneStart (b : Nat) : Bool := b &&& 0xC0 != 0x80

/-- The backward scan of `utf8.DecodeLastRuneInString`: from `start` down to
`lim`, stop at the first byte that starts a rune; the result is one more than
the final value of `start` (so `0` stands for `-1`). -/
def scanStart (s : GoString) (lim : Nat) : Nat → Nat
  | 0 => 0
  | start + 1 =>
    if start < lim then start + 1
    else if RuneStart (s.getD start 0) then start + 1
    else scanStart s lim start

/-- Go `utf8.DecodeLastRuneInString`. -/
def DecodeLastRune (s : GoString) : Nat × Nat :=
  let e := s.length
  if e = 0 then (RuneError, 0)
  else
    let r := s.getD (e - 1) 0
    if r < 0x80 then (r, 1)
    else
      let lim := e - 4
      let start := scanStart s lim (e - 1) - 1
      let (r, size) := DecodeRune (s.drop start)
      if start + size ≠ e then (RuneError, 1) else (r, size)

/-- Go `strings.indexFunc(s, f, truth)`, as an offset to the position `i` of
the remaining text; `none` for `-1`. -/
def indexFuncFrom (f : Nat → Bool) (truth : Bool) : Nat → GoString → Nat → Option Nat
  | 0, _, _ => none
  | _ + 1, [], _ => none
  | fuel + 1, b :: rest, i =>
    let (r, size) := DecodeRune (b :: rest)
    if f r == truth then some i
    else indexFuncFrom f truth fuel ((b :: rest).drop size) (i + size)

/-- Go `strings.TrimLeftFunc`. -/
def TrimLeftFunc (s : GoString) (f : Nat → Bool) : GoString :=
  match indexFuncFrom f false s.length s 0 with
  | none => []
  | some i => s.drop i

/-- Go `strings.lastIndexFunc(s, f, truth)` from position `i` down; `none` for `-1`. -/
def lastIndexFuncFrom (f : Nat → Bool) (truth : Bool) (s : GoString) : Nat → Nat → Option Nat
  | 0, _ => none
  | fuel + 1, i =>
    if i > 0 then
      let (r, size) := DecodeLastRune (s.take i)
      let i := i - size
      if f r == truth then some i else lastIndexFuncFrom f truth s fuel i
    else none

/-- Go `strings.TrimRightFunc`. -/
def TrimRightFunc (s : GoString) (f : Nat → Bool) : GoString :=
  match lastIndexFuncFrom f false s s.length s.length with
  | some i =>
    if s.getD i 0 ≥ 0x80 then s.take (i + (DecodeRune (s.drop i)).2) else s.take (i + 1)
  | none => []

/-- Go `strings.TrimFunc`. -/
def TrimFunc (s : GoString) (f : Nat → Bool) : GoString := TrimRightFunc (TrimLeftFunc s f) f

/-- The second loop of `strings.TrimSpace` on `t = s[start:]`, with `stop`
counted from the start of `t`. -/
def trimSpaceStop (t : GoString) : Nat → GoString
  | 0 => []
  | stop + 1 =>
    let c := t.getD stop 0
    if c ≥ 0x80 then TrimRightFunc (t.take (stop + 1)) IsSpace
    else if asciiSpace c == false then t.take (stop + 1)
    else trimSpaceStop t stop

/-- Go `strings.TrimSpace`: an ASCII fast path from both ends, falling back on
the rune-by-rune functions at the first byte outside ASCII. -/
def TrimSpace : GoString → GoString
  | [] => []
  | c :: rest =>
    if c ≥ 0x80 then TrimFunc (c :: rest) IsSpace
    else if asciiSpace c == false then trimSpaceStop (c :: rest) (c :: rest).length
    else TrimSpace rest

/-! ## net/http -/

/-- The state of an `http.ResponseWriter`: the header map, whether
`WriteHeader` ran, and then the status line, the headers sent with it, and the
body written so far. -/
structure ResponseWriter where
  header : List (String × String)
  wroteHeader : Bool
  status : Nat
  sentHeader : List (String × String)
  body : GoString
  deriving DecidableEq

/-- A fresh response: nothing set and nothing written. -/
def ResponseWriter.fresh : ResponseWriter :=
  { header := [], wroteHeader := false, status := 0, sentHeader := [], body := [] }

/-- Go `w.Header().Set(key, value)`. -/
def ResponseWriter.HeaderSet (w : ResponseWriter) (key value : String) : ResponseWriter :=
  { w with header := (key, value) :: w.header.filter (fun kv => kv.1 != key) }

/-- Go `w.WriteHeader(code)`: the first call sends the status line with the
headers set so far; later calls are ignored. -/
def ResponseWriter.WriteHeader (w : ResponseWriter) (code : Nat) : ResponseWriter :=
  if w.wroteHeader then w
  else { w with wroteHeader := true, status := code, sentHeader := w.header }

/-- Go `w.Write(b)`: sends `200` first when no status was written. -/
def ResponseWriter.Write (w : ResponseWriter) (b : GoString) : ResponseWriter :=
  let w := if w.wroteHeader then w else w.WriteHeader 200
  { w with body := w.body ++ b }

/-- Go `http.Error(w, error, code)`: a plain-text reply, the message followed
by a newline. -/
def httpError (w : ResponseWriter) (error : String) (code : Nat) : ResponseWriter :=
  let w := w.HeaderSet "Content-Type" "text/plain; charset=utf-8"
  let w := w.HeaderSet "X-Content-Type-Options" "nosniff"
  let w := w.WriteHeader code
  w.Write (str error ++ [0x0a])

def StatusUnauthorized : Nat := 401

def StatusForbidden : Nat := 403

/-! ## Handlers -/

/-- The globals the handlers read (main.go 48-61). -/
structure Config where
  AllowedOrigins : List IPNet
  AuthenticationToken : GoString
  TargetFile : GoString
  HealthCheckCommand : GoString
  OwnerCommand : GoString

/-- The outside world a handler interacts with: what executing `sh -c name`
does, and what `ioutil.ReadFile` returns (the contents, or an error text). -/
structure World where
  sh : GoString → Execution
  ReadFile : GoString → Except GoString GoString

/-- An interaction with the outside world. -/
inductive Effect
  | ranCommand (name : GoString)
  | readFile (path : GoString)
  deriving DecidableEq

/-- Where a handler call ends: the response writer, the effects performed in
order, and the text of `log.Fatal` when the process was terminated. -/
structure HandlerResult where
  w : ResponseWriter
  effects : List Effect
  fatal : Option GoString
  deriving DecidableEq

/-- Embedding of `runCommand` (main.go 75-103): runs `sh -c name` in the world. -/
def runCommand (world : World) (name : GoString) : GoString × GoString × Int :=
  runCommandOn (world.sh name)

/-- Embedding of `status` (main.go 149-187). -/
def status (lib : StdLib) (cfg : Config) (world : World) (w : ResponseWriter)
    (req : Request) : HandlerResult :=
  let validIP := authorizeRequestIP lib cfg.AllowedOrigins req
  let validKey := authorizeRequestKey cfg.AuthenticationToken req
  if validKey == false then
    { w := httpError w "Unauthorized" StatusUnauthorized, effects := [], fatal := none }
  else if validIP == false then
    { w := httpError w "Forbidden" StatusForbidden, effects := [], fatal := none }
  else if cfg.OwnerCommand ≠ [] then
    let (stdout, stderr, exitCode) := runCommand world cfg.OwnerCommand
    let success := stderr.length == 0 && exitCode == 0
    if success == false then
      let resp : StatusCheckResponse := { Success := false, Data := { Identifier := [] } }
      let j := marshalStatus lib.rawReplacement resp
      let w := w.WriteHeader 500
      let w := w.HeaderSet "Content-Type" "application/json"
      let w := w.Write j
      { w := w, effects := [.ranCommand cfg.OwnerCommand], fatal := none }
    else
      let ident := stdout
      let resp : StatusCheckResponse := { Success := true, Data := { Identifier := ident } }
      let j := marshalStatus lib.rawReplacement resp
      let w := w.HeaderSet "Content-Type" "application/json"
      let w := w.Write j
      { w := w, effects := [.ranCommand cfg.OwnerCommand], fatal := none }
  else
    match world.ReadFile cfg.TargetFile with
    | .error err => { w := w, effects := [.readFile cfg.TargetFile], fatal := some err }
    | .ok f =>
      let ident := TrimSpace f
      let resp : StatusCheckResponse := { Success := true, Data := { Identifier := ident } }
      let j := marshalStatus lib.rawReplacement resp
      let w := w.HeaderSet "Content-Type" "application/json"
      let w := w.Write j
      { w := w, effects := [.readFile cfg.TargetFile], fatal := none }

/-- Embedding of `healthcheck` (main.go 199-229). -/
def healthcheck (lib : StdLib) (cfg : Config) (world : World) (w : ResponseWriter)
    (req : Request) : HandlerResult :=
  let validIP := authorizeRequestIP lib cfg.AllowedOrigins req
  let validKey := authorizeRequestKey cfg.AuthenticationToken req
  if validKey == false then
    { w := httpError w "Unauthorized" StatusUnauthorized, effects := [], fatal := none }
  else if validIP == false then
    { w := httpError w "Forbidden" StatusForbidden, effects := [], fatal := none }
  else
    let (stdout, stderr, exitCode) := runCommand world cfg.HealthCheckCommand
    let success := stderr.length == 0 && exitCode == 0
    if success == false then
      let resp : HealthCheckResponse :=
        { Success := false, Data := { Stdout := stdout, Stderr := stderr, Status := exitCode } }
      let j := marshalHealth lib.rawReplacement resp
      let w := w.WriteHeader 500
      let w := w.HeaderSet "Content-Type" "application/json"
      let w := w.Write j
      { w := w, effects := [.ranCommand cfg.HealthCheckCommand], fatal := none }
    else
      let resp : HealthCheckResponse :=
        { Success := success, Data := { Stdout := stdout, Stderr := stderr, Status := exitCode } }
      let j := marshalHealth lib.rawReplacement resp
      let w := w.HeaderSet "Content-Type" "application/json"
      let w := w.Write j
      { w := w, effects := [.ranCommand cfg.HealthCheckCommand], fatal := none }

/-! ## A JSON decoder

The agent only writes JSON.  To state what a client reads back, this is a
decoder for JSON texts (RFC 8259) over bytes, with integers for numbers: the
fragment the agent emits.  Bytes of a string that are not part of an escape
are taken as they are; a `\uXXXX` escape yields the UTF-8 encoding of its
code point, surrogate pairs being combined. -/

/-- A decoded JSON value. -/
inductive JSON where
  | null
  | bool (b : Bool)
  | num (i : Int)
  | str (s : GoString)
  | arr (xs : List JSON)
  | obj (kvs : List (GoString × JSON))

/-- Drops leading JSON white space (space, tab, line feed, carriage return). -/
def skipWS : GoString → GoString
  | [] => []
  | c :: rest => if c = 0x20 ∨ c = 0x09 ∨ c = 0x0a ∨ c = 0x0d then skipWS rest else c :: rest

/-- The value of a hexadecimal digit. -/
def hexVal (b : Nat) : Option Nat :=
  if 48 ≤ b ∧ b ≤ 57 then some (b - 48)
  else if 97 ≤ b ∧ b ≤ 102 then some (b - 87)
  else if 65 ≤ b ∧ b ≤ 70 then some (b - 55)
  else none

/-- Four hexadecimal digits, as a number. -/
def parseHex4 : GoString → Option (Nat × GoString)
  | a :: b :: c :: d :: rest =>
    match hexVal a, hexVal b, hexVal c, hexVal d with
    | some a, some b, some c, some d => some (((a * 16 + b) * 16 + c) * 16 + d, rest)
    | _, _, _, _ => none
  | _ => none

/-- The byte a two-character escape stands for. -/
def unescape (e : Nat) : Option Nat :=
  if e = 0x22 then some 0x22
  else if e = 0x5c then some 0x5c
  else if e = 0x2f then some 0x2f
  else if e = 0x62 then some 0x08
  else if e = 0x66 then some 0x0c
  else if e = 0x6e then some 0x0a
  else if e = 0x72 then some 0x0d
  else if e = 0x74 then some 0x09
  else none

/-- A `\uXXXX` escape holding a low surrogate, at the head of the text. -/
def lowSurrogate : GoString → Option (Nat × GoString)
  | a :: b :: rest =>
    if a = 0x5c ∧ b = 0x75 then
      match parseHex4 rest with
      | some (lo, rest2) => if 0xDC00 ≤ lo ∧ lo ≤ 0xDFFF then some (lo, rest2) else none
      | none => none
    else none
  | _ => none

/-- Puts bytes in front of a decoded string. -/
def prepend (bs : GoString) (r : Option (GoString × GoString)) : Option (GoString × GoString) :=
  r.map fun p => (bs ++ p.1, p.2)

/-- Decodes the inside of a JSON string up to its closing quote: the decoded
bytes and the text after the quote.  Control characters are refused. -/
def parseStringBody : Nat → GoString → Option (GoString × GoString)
  | 0, _ => none
  | _ + 1, [] => none
  | fuel + 1, c :: rest =>
    if c = 0x22 then some ([], rest)
    else if c = 0x5c then
      match rest with
      | [] => none
      | e :: rest1 =>
        if e = 0x75 then
          match parseHex4 rest1 with
          | none => none
          | some (u, rest2) =>
            if 0xD800 ≤ u ∧ u < 0xDC00 then
              match lowSurrogate rest2 with
              | some (lo, rest3) =>
                prepend (EncodeRune (0x10000 + (u - 0xD800) * 0x400 + (lo - 0xDC00)))
                  (parseStringBody fuel rest3)
              | none => prepend (EncodeRune RuneError) (parseStringBody fuel rest2)
            else prepend (EncodeRune u) (parseStringBody fuel rest2)
        else
          match unescape e with
          | none => none
          | some b => prepend [b] (parseStringBody fuel rest1)
    else if c < 0x20 then none
    else prepend [c] (parseStringBody fuel rest)

/-- A JSON string after its opening quote. -/
def parseString (s : GoString) : Option (GoString × GoString) := parseStringBody s.length s

/-- The leading decimal digits of a text and what follows them. -/
def spanDigits : GoString → GoString × GoString
  | [] => ([], [])
  | c :: rest =>
    if 48 ≤ c ∧ c ≤ 57 then ((spanDigits rest).1.cons c, (spanDigits rest).2) else ([], c :: rest)

/-- The number written by decimal digits. -/
def digitsVal (ds : GoString) : Nat := ds.foldl (fun acc d => acc * 10 + (d - 48)) 0

/-- An unsigned JSON integer: digits without a leading zero, not followed by a
fraction or an exponent. -/
def parseNat (s : GoString) : Option (Nat × GoString) :=
  let ds := (spanDigits s).1
  let rest := (spanDigits s).2
  if ds = [] then none
  else if ds.head? = some 48 ∧ ds.length > 1 then none
  else if rest.head? = some 0x2e ∨ rest.head? = some 0x65 ∨ rest.head? = some 0x45 then none
  else some (digitsVal ds, rest)

/-- A JSON integer. -/
def parseNumber : GoString → Option (Int × GoString)
  | [] => none
  | c :: rest =>
    if c = 0x2d then (parseNat rest).map fun p => (-(p.1 : Int), p.2)
    else (parseNat (c :: rest)).map fun p => ((p.1 : Int), p.2)

/-- Removes a literal from the head of a text. -/
def stripLiteral (lit s : GoString) : Option GoString :=
  if s.take lit.length = lit then some (s.drop lit.length) else none

mutual

/-- Decodes one JSON value at the head of a text and returns the text after
it; the fuel bounds the nesting and the number of members. -/
def parseValue : Nat → GoString → Option (JSON × GoString)
  | 0, _ => none
  | fuel + 1, s =>
    match skipWS s with
    | [] => none
    | c :: rest =>
      if c = 0x7b then
        if (skipWS rest).head? = some 0x7d then some (.obj [], (skipWS rest).tail)
        else (parseMembers fuel rest).map fun p => (.obj p.1, p.2)
      else if c = 0x5b then
        if (skipWS rest).head? = some 0x5d then some (.arr [], (skipWS rest).tail)
        else (parseElements fuel rest).map fun p => (.arr p.1, p.2)
      else if c = 0x22 then (parseString rest).map fun p => (.str p.1, p.2)
      else if c = 0x74 then (stripLiteral (str "true") (c :: rest)).map fun r => (.bool true, r)
      else if c = 0x66 then (stripLiteral (str "false") (c :: rest)).map fun r => (.bool false, r)
      else if c = 0x6e then (stripLiteral (str "null") (c :: rest)).map fun r => (.null, r)
      else (parseNumber (c :: rest)).map fun p => (.num p.1, p.2)

/-- Decodes the members of an object after its opening brace, up to the
closing brace. -/
def parseMembers : Nat → GoString → Option (List (GoString × JSON) × GoString)
  | 0, _ => none
  | fuel + 1, s =>
    match skipWS s with
    | [] => none
    | q :: r =>
      if q = 0x22 then
        match parseString r with
        | none => none
        | some (k, r1) =>
          match skipWS r1 with
          | [] => none
          | colon :: r2 =>
            if colon = 0x3a then
              match parseValue fuel r2 with
              | none => none
              | some (v, r3) =>
                match skipWS r3 with
                | [] => none
                | sep :: r4 =>
                  if sep = 0x2c then (parseMembers fuel r4).map fun p => ((k, v) :: p.1, p.2)
                  else if sep = 0x7d then some ([(k, v)], r4)
                  else none
            else none
      else none

/-- Decodes the elements of an array after its opening bracket, up to the
closing bracket. -/
def parseElements : Nat → GoString → Option (List JSON × GoString)
  | 0, _ => none
  | fuel + 1, s =>
    match parseValue fuel s with
    | none => none
    | some (v, r) =>
      match skipWS r with
      | [] => none
      | sep :: r1 =>
        if sep = 0x2c then (parseElements fuel r1).map fun p => (v :: p.1, p.2)
        else if sep = 0x5d then some ([v], r1)
        else none

end

/-- Decodes a complete JSON text: one value with nothing but white space
around it. -/
def parseJSON (s : GoString) : Option JSON :=
  match parseValue (s.length + 1) s with
  | none => none
  | some (v, rest) => if skipWS rest = [] then some v else none

/-- The value of member `key` of an object. -/
def JSON.field (v : JSON) (key : GoString) : Option JSON :=
  match v with
  | .obj kvs => (kvs.find? fun kv => kv.1 == key).map (·.2)
  | _ => none

/-- The JSON text carries a boolean `success` member. -/
def HasSuccessFlag (body : GoString) : Prop :=
  ∃ v b, parseJSON body = some v ∧ v.field (str "success") = some (.bool b)

/-- What the encoder makes of a string: an invalid byte becomes the encoding
of U+FFFD, everything else stays. -/
def coerceUTF8 : Nat → GoString → GoString
  | 0, _ => []
  | _ + 1, [] => []
  | fuel + 1, b :: rest =>
    if b < 0x80 then b :: coerceUTF8 fuel rest
    else
      let (c, size) := DecodeRune (b :: rest)
      if c = RuneError ∧ size = 1 then [0xEF, 0xBF, 0xBD] ++ coerceUTF8 fuel rest
      else (b :: rest).take size ++ coerceUTF8 fuel ((b :: rest).drop size)

/-- A member key the encoder writes as it is: plain ASCII, nothing to escape. -/
def PlainKey (k : GoString) : Prop :=
  quoteBody false k.length k = k ∧ coerceUTF8 k.length k = k

/-- The JSON value of a `/status` envelope. -/
def statusJSON (r : StatusCheckResponse) : JSON :=
  .obj [(str "success", .bool r.Success),
    (str "data", .obj [(str "identifier", .str r.Data.Identifier)])]

/-- The JSON value of a `/healthcheck` envelope. -/
def healthJSON (r : HealthCheckResponse) : JSON :=
  .obj [(str "success", .bool r.Success),
    (str "data", .obj [(str "stdout", .str r.Data.Stdout), (str "stderr", .str r.Data.Stderr),
      (str "status", .num r.Data.Status)])]

/-! ## Sample data -/

/-- A sample of the library parameters, for evaluating the embedding on
concrete requests: it knows the peer `192.168.1.1:40000`, whose address
`net.ParseIP` returns in 16-byte form, and parses nothing else; invalid bytes
are written as the bytes of U+FFFD. -/
def sampleLib : StdLib where
  SplitHostPort := fun addr => if addr = str "192.168.1.1:40000" then str "192.168.1.1" else []
  ParseIP := fun host =>
    if host = str "192.168.1.1" then [0, 0, 0, 0, 0, 0, 0, 0, 0, 0, 0xff, 0xff, 192, 168, 1, 1]
    else []
  rawReplacement := true

/-- The same sample with the classic encoder, which writes an invalid byte as
the escape of U+FFFD. -/
def sampleLibClassic : StdLib := { sampleLib with rawReplacement := false }

/-- A sample world: `echo owner1` prints its argument, `exit 3` exits with
status 3, `echo oops >&2` writes to standard error and exits with 0,
`printf \\377` prints the single byte `0xff` and `printf \\377 >&2` writes it
to standard error, every other command does nothing; the file `owner.txt`
holds `  team7` and a newline, the file `binary.txt` holds the bytes
`20 ff 0a`, and there is no other file. -/
def sampleWorld : World where
  sh := fun name =>
    if name = str "echo owner1" then
      { outbuf := str "owner1\n", errbuf := [], outcome := .waited 0 none }
    else if name = str "exit 3" then
      { outbuf := [], errbuf := [], outcome := .waited 0x300 none }
    else if name = str "echo oops >&2" then
      { outbuf := [], errbuf := str "oops\n", outcome := .waited 0 none }
    else if name = str "printf \\\\377" then
      { outbuf := [0xff], errbuf := [], outcome := .waited 0 none }
    else if name = str "printf \\\\377 >&2" then
      { outbuf := [], errbuf := [0xff], outcome := .waited 0 none }
    else { outbuf := [], errbuf := [], outcome := .waited 0 none }
  ReadFile := fun path =>
    if path = str "owner.txt" then .ok (str "  team7\n")
    else if path = str "binary.txt" then .ok [0x20, 0xff, 0x0a]
    else .error (str "no such file")

/-- The range `0.0.0.0/0`. -/
def anyIPv4 : IPNet := parseCIDRNet [0, 0, 0, 0] 0

/-- The range `10.0.0.0/8`. -/
def tenSlashEight : IPNet := parseCIDRNet [10, 0, 0, 0] 8

/-- A request from the sample peer with the given `Authorization` value. -/
def sampleRequest (auth : GoString) : Request :=
  { RemoteAddr := str "192.168.1.1:40000", Authorization := auth }

/-! ## White space removal, stated on runes -/

/-- The runes of a string in order, each with the bytes that encode it, as
`for _, r := range s` visits them. -/
def runeChunks : Nat → GoString → List (Nat × GoString)
  | 0, _ => []
  | _ + 1, [] => []
  | fuel + 1, b :: rest =>
    ((DecodeRune (b :: rest)).1, (b :: rest).take (DecodeRune (b :: rest)).2)
      :: runeChunks fuel ((b :: rest).drop (DecodeRune (b :: rest)).2)

/-- The bytes of a sequence of runes. -/
def joinChunks : List (Nat × GoString) → GoString
  | [] => []
  | c :: cs => c.2 ++ joinChunks cs

/-- The string without its leading and trailing white space: the runes of the
string, minus the white-space runes at the front and at the back. -/
def trimmedOfSpace (c : GoString) : GoString :=
  joinChunks (((runeChunks c.length c).dropWhile fun p => IsSpace p.1).rdropWhile
    fun p => IsSpace p.1)

/-- A sequence of runes is the decoding of its bytes when `tail` follows. -/
def Chunked : List (Nat × GoString) → GoString → Prop
  | [], _ => True
  | c :: cs, tail =>
    c.2 ≠ [] ∧ DecodeRune (c.2 ++ (joinChunks cs ++ tail)) = (c.1, c.2.length) ∧ Chunked cs tail

/-! ## Membership of a CIDR range, stated on address bits -/

/-- Bit `t` of an address, bit 0 being the most significant bit of the first
byte. -/
def addrBit (ip : IP) (t : Nat) : Bool := (ip.getD (t / 8) 0).testBit (7 - t % 8)

/-- The address `ip` lies in the CIDR range `addr/ones`: the two are of the
same family and agree on the first `ones` bits.  An IPv4 address belongs to
the IPv4 family also in its IPv4-mapped 16-byte form, and so does an
IPv4-mapped range of prefix length at least 96, which stands for the IPv4
range of prefix length `ones - 96`. -/
def InCIDR (ip addr : IP) (ones : Nat) : Prop :=
  if addr.length = 4 then
    To4 ip ≠ [] ∧ ∀ t < ones, addrBit (To4 ip) t = addrBit addr t
  else if To4 addr ≠ [] ∧ 96 ≤ ones then
    To4 ip ≠ [] ∧ ∀ t < ones - 96, addrBit (To4 ip) t = addrBit (To4 addr) t
  else
    To4 ip = [] ∧ ip.length = 16 ∧ ∀ t < ones, addrBit ip t = addrBit addr t

/-- A configured range `addr/ones` as `net.ParseCIDR` accepts it: 4 or 16
address bytes and a prefix length within the address length. -/
def ValidRange (r : IP × Nat) : Prop :=
  (r.1.length = 4 ∨ r.1.length = 16) ∧ r.2 ≤ 8 * r.1.length ∧ ∀ b ∈ r.1, b < 256

/-- The allow-list `main` builds (main.go 300-304): the `*IPNet` that
`net.ParseCIDR` returns for each configured range, in order. -/
def allowedOrigins (ranges : List (IP × Nat)) : List IPNet :=
  ranges.map fun r => parseCIDRNet r.1 r.2

/-! ## Lemmas on strings -/

theorem IndexByte_none_iff (s : GoString) (c : Nat) : IndexByte s c = none ↔ c ∉ s := by
  induction s with
  | nil => simp [IndexByte]
  | cons b rest ih =>
    simp only [IndexByte, List.mem_cons, not_or]
    by_cases h : b = c
    · simp [h]
    · simp only [h, if_false, Option.map_eq_none', ih]
      constructor
      · intro h2; exact ⟨fun h3 => h h3.symm, h2⟩
      · intro h2; exact h2.2

theorem IndexByte_some_split (s : GoString) (c m : Nat) (h : IndexByte s c = some m) :
    s = s.take m ++ c :: s.drop (m + 1) ∧ c ∉ s.take m := by
  induction s generalizing m with
  | nil => simp [IndexByte] at h
  | cons b rest ih =>
    simp only [IndexByte] at h
    by_cases hb : b = c
    · simp only [hb, if_true] at h
      cases h
      simp [hb]
    · simp only [hb, if_false, Option.map_eq_some'] at h
      obtain ⟨k, hk, rfl⟩ := h
      obtain ⟨h1, h2⟩ := ih k hk
      refine ⟨?_, ?_⟩
      · simp only [List.take_succ_cons, List.drop_succ_cons, List.cons_append]
        rw [← h1]
      · simp only [List.take_succ_cons, List.mem_cons, not_or]
        exact ⟨fun h3 => hb h3.symm, h2⟩

theorem IndexByte_append_of_not_mem (a b : GoString) (c : Nat) (h : c ∉ a) :
    IndexByte (a ++ c :: b) c = some a.length := by
  induction a with
  | nil => simp [IndexByte]
  | cons x rest ih =>
    simp only [List.mem_cons, not_or] at h
    have hx : ¬ x = c := fun h3 => h.1 h3.symm
    simp [IndexByte, hx, ih h.2]

theorem Contains_eq_true_iff (s : GoString) (c : Nat) : Contains s c = true ↔ c ∈ s := by
  unfold Contains
  rw [Option.isSome_iff_ne_none, Ne, IndexByte_none_iff]
  simp

theorem str_Token_no_space : spaceByte ∉ str "Token" := by decide

theorem SplitN_two_of_index (H : GoString) (m : Nat) (h : IndexByte H spaceByte = some m) :
    SplitN H spaceByte 2 = [H.take m, H.drop (m + 1)] := by
  simp [SplitN, h]

/-- With a space in the header, the two pieces of the split are `"Token"` and
`T` exactly when the header is `"Token " ++ T`. -/
theorem split_pieces_iff (T H : GoString) (m : Nat) (hI : IndexByte H spaceByte = some m) :
    (H.take m = str "Token" ∧ H.drop (m + 1) = T) ↔ H = str "Token" ++ spaceByte :: T := by
  have hs := (IndexByte_some_split H spaceByte m hI).1
  constructor
  · rintro ⟨h0, h1⟩
    rw [hs, h0, h1]
  · intro h
    have hI2 : IndexByte H spaceByte = some (str "Token").length := by
      rw [h]; exact IndexByte_append_of_not_mem _ _ _ str_Token_no_space
    rw [hI] at hI2
    cases hI2
    subst h
    simp

/-- Exact characterisation of the token check. -/
theorem authorizeRequestKey_iff (T : GoString) (req : Request) :
    authorizeRequestKey T req = true ↔
      T = [] ∨ req.Authorization = str "Token" ++ spaceByte :: T ∨
        (req.Authorization = T ∧ spaceByte ∉ T) := by
  unfold authorizeRequestKey
  by_cases hT : T = []
  · simp [hT]
  · have hlen : T.length > 0 := List.length_pos.2 hT
    simp only [hlen, if_true, hT, false_or]
    cases hI : IndexByte req.Authorization spaceByte with
    | some m =>
      have hsp : spaceByte ∈ req.Authorization := by
        by_contra hn
        rw [(IndexByte_none_iff _ _).2 hn] at hI
        cases hI
      have hc : Contains req.Authorization spaceByte = true := (Contains_eq_true_iff _ _).2 hsp
      have key := split_pieces_iff T req.Authorization m hI
      simp only [hc, if_true, SplitN_two_of_index _ m hI, List.length_cons, List.length_nil,
        List.getD_cons_zero, List.getD_cons_succ]
      by_cases h0 : List.take m req.Authorization = str "Token"
      · by_cases h1 : List.drop (m + 1) req.Authorization = T
        · refine ⟨fun _ => Or.inl (key.1 ⟨h0, h1⟩), fun _ => ?_⟩
          rw [h0, h1]
          simp
        · have hne : ¬ req.Authorization = str "Token" ++ spaceByte :: T := fun h => h1 (key.2 h).2
          have hne2 : ¬ (req.Authorization = T ∧ spaceByte ∉ T) := fun h => h.2 (h.1 ▸ hsp)
          simp [h0, h1, hne, hne2]
      · have hne : ¬ req.Authorization = str "Token" ++ spaceByte :: T := fun h => h0 (key.2 h).1
        have hne2 : ¬ (req.Authorization = T ∧ spaceByte ∉ T) := fun h => h.2 (h.1 ▸ hsp)
        simp [h0, hne, hne2]
    | none =>
      have hsp : spaceByte ∉ req.Authorization := (IndexByte_none_iff _ _).1 hI
      have hc : Contains req.Authorization spaceByte = false := by
        rw [← Bool.not_eq_true, Contains_eq_true_iff]; exact hsp
      simp only [hc, Bool.false_eq_true, if_false]
      have hne : ¬ req.Authorization = str "Token" ++ spaceByte :: T := by
        intro h; apply hsp; rw [h]; simp
      by_cases h1 : req.Authorization = T
      · have : spaceByte ∉ T := h1 ▸ hsp
        simp [h1, this]
      · simp [h1, hne]

/-! ## Lemmas on the IP check -/

theorem foldl_valid (C : List IPNet) (ip : IP) (b : Bool) :
    C.foldl (fun valid origin => if origin.Contains ip == true then true else valid) b
      = (b || C.any fun origin => origin.Contains ip) := by
  induction C generalizing b with
  | nil => simp
  | cons n rest ih =>
    simp only [List.foldl_cons, List.any_cons, ih]
    cases h : n.Contains ip <;> cases b <;> simp

theorem authorizeRequestIP_eq_any (lib : StdLib) (C : List IPNet) (req : Request) :
    authorizeRequestIP lib C req
      = C.any fun origin => origin.Contains (lib.ParseIP (lib.SplitHostPort req.RemoteAddr)) := by
  unfold authorizeRequestIP
  simp only [foldl_valid, Bool.false_or]

theorem To4_nil : To4 [] = [] := by decide

theorem To4_of_length_four (ip : IP) (h : ip.length = 4) : To4 ip = ip := by
  unfold To4
  simp [h, IPv4len]

theorem To4_length (ip : IP) : (To4 ip).length = 4 ∨ To4 ip = [] := by
  unfold To4
  simp only [IPv4len, IPv6len]
  by_cases h4 : ip.length = 4
  · left; simp [h4]
  · simp only [h4, if_false]
    split
    · rename_i h
      simp only [Bool.and_eq_true, decide_eq_true_eq] at h
      left
      have : ip.length = 16 := h.1.1.1
      simp [this]
    · right; rfl

theorem CIDRMask_length (ones len : Nat) (hlen : len = 4 ∨ len = 16)
    (hones : ones ≤ 8 * len) : (CIDRMask ones (8 * len)).length = len := by
  unfold CIDRMask
  simp only [IPv4len, IPv6len]
  have h1 : ¬ (8 * len ≠ 8 * 4 ∧ 8 * len ≠ 8 * 16) := by omega
  have h2 : ¬ ones > 8 * len := by omega
  simp only [h1, h2, if_false, List.length_map, List.length_range]
  omega

theorem ipMask_length (ip : IP) (mask : IPMask) (h : ip.length = mask.length) :
    (ipMask ip mask).length = ip.length := by
  unfold ipMask
  simp only [IPv4len, IPv6len]
  have h1 : ¬ (mask.length = 16 ∧ ip.length = 4 ∧ allFF (mask.take 12) = true) := by
    intro ⟨a, b, _⟩
    omega
  simp only [h1, if_false]
  have h2 : ¬ (mask.length = 4 ∧ ip.length = 16 ∧ ip.take 12 = v4InV6Prefix) := by
    intro ⟨a, b, _⟩
    omega
  simp only [h2, if_false]
  simp [h]

/-! ## Lemmas on the handlers -/

theorem str_Token_space (T : GoString) : str "Token " ++ T = str "Token" ++ spaceByte :: T := by
  have : str "Token " = str "Token" ++ [spaceByte] := by decide
  rw [this]; simp

theorem status_unauthorized (lib : StdLib) (cfg : Config) (world : World) (w : ResponseWriter)
    (req : Request) (h : authorizeRequestKey cfg.AuthenticationToken req = false) :
    status lib cfg world w req
      = { w := httpError w "Unauthorized" 401, effects := [], fatal := none } := by
  unfold status
  simp [h, StatusUnauthorized]

theorem healthcheck_unauthorized (lib : StdLib) (cfg : Config) (world : World)
    (w : ResponseWriter) (req : Request)
    (h : authorizeRequestKey cfg.AuthenticationToken req = false) :
    healthcheck lib cfg world w req
      = { w := httpError w "Unauthorized" 401, effects := [], fatal := none } := by
  unfold healthcheck
  simp [h, StatusUnauthorized]

theorem status_forbidden (lib : StdLib) (cfg : Config) (world : World) (w : ResponseWriter)
    (req : Request) (h : authorizeRequestKey cfg.AuthenticationToken req = true)
    (h2 : authorizeRequestIP lib cfg.AllowedOrigins req = false) :
    status lib cfg world w req
      = { w := httpError w "Forbidden" 403, effects := [], fatal := none } := by
  unfold status
  simp [h, h2, StatusForbidden]

theorem healthcheck_forbidden (lib : StdLib) (cfg : Config) (world : World)
    (w : ResponseWriter) (req : Request)
    (h : authorizeRequestKey cfg.AuthenticationToken req = true)
    (h2 : authorizeRequestIP lib cfg.AllowedOrigins req = false) :
    healthcheck lib cfg world w req
      = { w := httpError w "Forbidden" 403, effects := [], fatal := none } := by
  unfold healthcheck
  simp [h, h2, StatusForbidden]

theorem httpError_fresh (msg : String) (code : Nat) :
    (httpError .fresh msg code).status = code ∧
      (httpError .fresh msg code).body = str msg ++ [0x0a] := by
  simp [httpError, ResponseWriter.fresh, ResponseWriter.HeaderSet, ResponseWriter.WriteHeader,
    ResponseWriter.Write]

/-- The reply of `healthcheck` to an authorized request. -/
theorem healthcheck_authorized (lib : StdLib) (cfg : Config) (world : World) (req : Request)
    (h : authorizeRequestKey cfg.AuthenticationToken req = true)
    (h2 : authorizeRequestIP lib cfg.AllowedOrigins req = true) :
    healthcheck lib cfg world .fresh req =
      { w :=
          { header := [("Content-Type", "application/json")]
            wroteHeader := true
            status := if (runCommand world cfg.HealthCheckCommand).2.1 = [] ∧
              (runCommand world cfg.HealthCheckCommand).2.2 = 0 then 200 else 500
            sentHeader := if (runCommand world cfg.HealthCheckCommand).2.1 = [] ∧
              (runCommand world cfg.HealthCheckCommand).2.2 = 0
              then [("Content-Type", "application/json")] else []
            body := marshalHealth lib.rawReplacement
              { Success := decide ((runCommand world cfg.HealthCheckCommand).2.1 = [] ∧
                  (runCommand world cfg.HealthCheckCommand).2.2 = 0)
                Data :=
                  { Stdout := (runCommand world cfg.HealthCheckCommand).1
                    Stderr := (runCommand world cfg.HealthCheckCommand).2.1
                    Status := (runCommand world cfg.HealthCheckCommand).2.2 } } }
        effects := [.ranCommand cfg.HealthCheckCommand]
        fatal := none } := by
  unfold healthcheck
  simp only [h, h2]
  rcases hr : runCommand world cfg.HealthCheckCommand with ⟨stdout, stderr, exitCode⟩
  by_cases hs : stderr = []
  · by_cases he : exitCode = 0
    · simp [hs, he, ResponseWriter.fresh, ResponseWriter.HeaderSet, ResponseWriter.WriteHeader,
        ResponseWriter.Write]
    · simp [hs, he, ResponseWriter.fresh, ResponseWriter.HeaderSet, ResponseWriter.WriteHeader,
        ResponseWriter.Write]
  · simp [hs, ResponseWriter.fresh, ResponseWriter.HeaderSet, ResponseWriter.WriteHeader,
      ResponseWriter.Write]

/-- The reply of `status` to an authorized request when an owner command is
configured. -/
theorem status_authorized_command (lib : StdLib) (cfg : Config) (world : World) (req : Request)
    (h : authorizeRequestKey cfg.AuthenticationToken req = true)
    (h2 : authorizeRequestIP lib cfg.AllowedOrigins req = true) (hc : cfg.OwnerCommand ≠ []) :
    status lib cfg world .fresh req =
      { w :=
          { header := [("Content-Type", "application/json")]
            wroteHeader := true
            status := if (runCommand world cfg.OwnerCommand).2.1 = [] ∧
              (runCommand world cfg.OwnerCommand).2.2 = 0 then 200 else 500
            sentHeader := if (runCommand world cfg.OwnerCommand).2.1 = [] ∧
              (runCommand world cfg.OwnerCommand).2.2 = 0
              then [("Content-Type", "application/json")] else []
            body := marshalStatus lib.rawReplacement
              { Success := decide ((runCommand world cfg.OwnerCommand).2.1 = [] ∧
                  (runCommand world cfg.OwnerCommand).2.2 = 0)
                Data :=
                  { Identifier := if (runCommand world cfg.OwnerCommand).2.1 = [] ∧
                      (runCommand world cfg.OwnerCommand).2.2 = 0
                      then (runCommand world cfg.OwnerCommand).1 else [] } } }
        effects := [.ranCommand cfg.OwnerCommand]
        fatal := none } := by
  unfold status
  simp only [h, h2]
  rcases hr : runCommand world cfg.OwnerCommand with ⟨stdout, stderr, exitCode⟩
  by_cases hs : stderr = []
  · by_cases he : exitCode = 0
    · simp [hc, hr, hs, he, ResponseWriter.fresh, ResponseWriter.HeaderSet,
        ResponseWriter.WriteHeader, ResponseWriter.Write]
    · simp [hc, hr, hs, he, ResponseWriter.fresh, ResponseWriter.HeaderSet,
        ResponseWriter.WriteHeader, ResponseWriter.Write]
  · simp [hc, hr, hs, ResponseWriter.fresh, ResponseWriter.HeaderSet,
      ResponseWriter.WriteHeader, ResponseWriter.Write]

/-- The result of `status` for an authorized request in file mode. -/
theorem status_authorized_file (lib : StdLib) (cfg : Config) (world : World) (req : Request)
    (h : authorizeRequestKey cfg.AuthenticationToken req = true)
    (h2 : authorizeRequestIP lib cfg.AllowedOrigins req = true) (hc : cfg.OwnerCommand = []) :
    status lib cfg world .fresh req =
      match world.ReadFile cfg.TargetFile with
      | .ok c =>
        { w :=
            { header := [("Content-Type", "application/json")]
              wroteHeader := true
              status := 200
              sentHeader := [("Content-Type", "application/json")]
              body := marshalStatus lib.rawReplacement { Success := true, Data := { Identifier := TrimSpace c } } }
          effects := [.readFile cfg.TargetFile]
          fatal := none }
      | .error err =>
        { w := .fresh, effects := [.readFile cfg.TargetFile], fatal := some err } := by
  unfold status
  simp only [h, h2]
  cases hr : world.ReadFile cfg.TargetFile with
  | ok c =>
    simp [hc, ResponseWriter.fresh, ResponseWriter.HeaderSet, ResponseWriter.WriteHeader,
      ResponseWriter.Write]
  | error err => simp [hc]

/-! ## Lemmas on UTF-8 -/

theorem DecodeRune_ascii (b : Nat) (rest : GoString) (hb : b < 0x80) :
    DecodeRune (b :: rest) = (b, 1) := by
  simp [DecodeRune, first, hb]

theorem first_cases (b : Nat) (hb : 0x80 ≤ b) :
    ((b < 0xC2 ∨ 0xF5 ≤ b) ∧ first b = 0xF1) ∨ (0xC2 ≤ b ∧ b ≤ 0xDF ∧ first b = 0x02) ∨ (b = 0xE0 ∧ first b = 0x13) ∨
      (0xE1 ≤ b ∧ b ≤ 0xEF ∧ b ≠ 0xED ∧ first b = 0x03) ∨ (b = 0xED ∧ first b = 0x23) ∨
      (b = 0xF0 ∧ first b = 0x34) ∨ (0xF1 ≤ b ∧ b ≤ 0xF3 ∧ first b = 0x04) ∨
      (b = 0xF4 ∧ first b = 0x44) := by
  unfold first
  split_ifs
  all_goals simp only [Nat.reduceEqDiff, and_true, and_false, or_false, false_or, or_true, true_or, ne_eq]
  all_goals first | trivial | omega

/-- Inversion of `DecodeRune` at a byte outside ASCII: an error of width 1, or
a well-formed sequence of 2, 3 or 4 bytes. -/
theorem DecodeRune_cases (b : Nat) (rest : GoString) (hb : 0x80 ≤ b) :
    DecodeRune (b :: rest) = (RuneError, 1) ∨
    (∃ s1 t, rest = s1 :: t ∧ 0xC2 ≤ b ∧ b ≤ 0xDF ∧ 0x80 ≤ s1 ∧ s1 ≤ 0xBF ∧
      DecodeRune (b :: rest) = ((b &&& 0x1F) <<< 6 ||| (s1 &&& 0x3F), 2)) ∨
    (∃ s1 s2 t, rest = s1 :: s2 :: t ∧ 0xE0 ≤ b ∧ b ≤ 0xEF ∧ 0x80 ≤ s1 ∧ s1 ≤ 0xBF ∧
      (b = 0xE0 → 0xA0 ≤ s1) ∧ (b = 0xED → s1 ≤ 0x9F) ∧ 0x80 ≤ s2 ∧ s2 ≤ 0xBF ∧
      DecodeRune (b :: rest)
        = ((b &&& 0x0F) <<< 12 ||| (s1 &&& 0x3F) <<< 6 ||| (s2 &&& 0x3F), 3)) ∨
    (∃ s1 s2 s3 t, rest = s1 :: s2 :: s3 :: t ∧ 0xF0 ≤ b ∧ b ≤ 0xF4 ∧ 0x80 ≤ s1 ∧ s1 ≤ 0xBF ∧
      (b = 0xF0 → 0x90 ≤ s1) ∧ (b = 0xF4 → s1 ≤ 0x8F) ∧ 0x80 ≤ s2 ∧ s2 ≤ 0xBF ∧
      0x80 ≤ s3 ∧ s3 ≤ 0xBF ∧
      DecodeRune (b :: rest)
        = ((b &&& 0x07) <<< 18 ||| (s1 &&& 0x3F) <<< 12 ||| (s2 &&& 0x3F) <<< 6
            ||| (s3 &&& 0x3F), 4)) := by
  have e2 : (0x02 : Nat) &&& 7 = 2 := by decide
  have e3 : (0x03 : Nat) &&& 7 = 3 := by decide
  have e13 : (0x13 : Nat) &&& 7 = 3 := by decide
  have e23 : (0x23 : Nat) &&& 7 = 3 := by decide
  have e34 : (0x34 : Nat) &&& 7 = 4 := by decide
  have e4 : (0x04 : Nat) &&& 7 = 4 := by decide
  have e44 : (0x44 : Nat) &&& 7 = 4 := by decide
  unfold DecodeRune
  simp only []
  rcases first_cases b hb with ⟨_, h⟩ | ⟨h1, h2, h⟩ | ⟨h1, h⟩ | ⟨h1, h2, h3, h⟩ | ⟨h1, h⟩ | ⟨h1, h⟩ |
      ⟨h1, h2, h⟩ | ⟨h1, h⟩ <;> rw [h] <;>
    simp +decide only [acceptRanges, ite_true, ite_false, e2, e3, e13, e23, e34, e4, e44]
  · exact Or.inl trivial
  · rcases rest with _ | ⟨s1, t⟩
    · exact Or.inl (by simp)
    · simp only [List.length_cons, List.getD_cons_succ, List.getD_cons_zero]
      split_ifs with c1 c2
      · omega
      · exact Or.inl rfl
      · exact Or.inr (Or.inl ⟨s1, t, rfl, h1, h2, by omega, by omega, rfl⟩)
  · rcases rest with _ | ⟨s1, _ | ⟨s2, t⟩⟩
    · exact Or.inl (by simp)
    · exact Or.inl (by simp)
    · simp only [List.length_cons, List.getD_cons_succ, List.getD_cons_zero]
      split_ifs with c1 c2 c3
      · omega
      · exact Or.inl rfl
      · exact Or.inl rfl
      · exact Or.inr (Or.inr (Or.inl ⟨s1, s2, t, rfl, by omega, by omega, by omega, by omega,
          by omega, by omega, by omega, by omega, rfl⟩))
  · rcases rest with _ | ⟨s1, _ | ⟨s2, t⟩⟩
    · exact Or.inl (by simp)
    · exact Or.inl (by simp)
    · simp only [List.length_cons, List.getD_cons_succ, List.getD_cons_zero]
      split_ifs with c1 c2 c3
      · omega
      · exact Or.inl rfl
      · exact Or.inl rfl
      · exact Or.inr (Or.inr (Or.inl ⟨s1, s2, t, rfl, by omega, by omega, by omega, by omega,
          by omega, by omega, by omega, by omega, rfl⟩))
  · rcases rest with _ | ⟨s1, _ | ⟨s2, t⟩⟩
    · exact Or.inl (by simp)
    · exact Or.inl (by simp)
    · simp only [List.length_cons, List.getD_cons_succ, List.getD_cons_zero]
      split_ifs with c1 c2 c3
      · omega
      · exact Or.inl rfl
      · exact Or.inl rfl
      · exact Or.inr (Or.inr (Or.inl ⟨s1, s2, t, rfl, by omega, by omega, by omega, by omega,
          by omega, by omega, by omega, by omega, rfl⟩))
  · rcases rest with _ | ⟨s1, _ | ⟨s2, _ | ⟨s3, t⟩⟩⟩
    · exact Or.inl (by simp)
    · exact Or.inl (by simp)
    · exact Or.inl (by simp)
    · simp only [List.length_cons, List.getD_cons_succ, List.getD_cons_zero]
      split_ifs with c1 c2 c3 c4
      · omega
      · exact Or.inl rfl
      · exact Or.inl rfl
      · exact Or.inl rfl
      · exact Or.inr (Or.inr (Or.inr ⟨s1, s2, s3, t, rfl, by omega, by omega, by omega,
          by omega, by omega, by omega, by omega, by omega, by omega, by omega, rfl⟩))
  · rcases rest with _ | ⟨s1, _ | ⟨s2, _ | ⟨s3, t⟩⟩⟩
    · exact Or.inl (by simp)
    · exact Or.inl (by simp)
    · exact Or.inl (by simp)
    · simp only [List.length_cons, List.getD_cons_succ, List.getD_cons_zero]
      split_ifs with c1 c2 c3 c4
      · omega
      · exact Or.inl rfl
      · exact Or.inl rfl
      · exact Or.inl rfl
      · exact Or.inr (Or.inr (Or.inr ⟨s1, s2, s3, t, rfl, by omega, by omega, by omega,
          by omega, by omega, by omega, by omega, by omega, by omega, by omega, rfl⟩))
  · rcases rest with _ | ⟨s1, _ | ⟨s2, _ | ⟨s3, t⟩⟩⟩
    · exact Or.inl (by simp)
    · exact Or.inl (by simp)
    · exact Or.inl (by simp)
    · simp only [List.length_cons, List.getD_cons_succ, List.getD_cons_zero]
      split_ifs with c1 c2 c3 c4
      · omega
      · exact Or.inl rfl
      · exact Or.inl rfl
      · exact Or.inl rfl
      · exact Or.inr (Or.inr (Or.inr ⟨s1, s2, s3, t, rfl, by omega, by omega, by omega,
          by omega, by omega, by omega, by omega, by omega, by omega, by omega, rfl⟩))

theorem and_63 (x : Nat) : x &&& 0x3F = x % 64 := Nat.and_pow_two_sub_one_eq_mod x 6

theorem and_31 (x : Nat) : x &&& 0x1F = x % 32 := Nat.and_pow_two_sub_one_eq_mod x 5

theorem and_15 (x : Nat) : x &&& 0x0F = x % 16 := Nat.and_pow_two_sub_one_eq_mod x 4

theorem and_7 (x : Nat) : x &&& 0x07 = x % 8 := Nat.and_pow_two_sub_one_eq_mod x 3

theorem shl_or (x y n : Nat) (hy : y < 2 ^ n) : x <<< n ||| y = x * 2 ^ n + y := by
  rw [Nat.shiftLeft_eq, Nat.mul_comm x, Nat.mul_add_lt_is_or hy]

theorem rune2_eq (x y : Nat) (hy : y < 64) : x <<< 6 ||| y = x * 64 + y :=
  shl_or x y 6 hy

theorem rune3_eq (x y z : Nat) (hy : y < 64) (hz : z < 64) :
    x <<< 12 ||| y <<< 6 ||| z = x * 4096 + y * 64 + z := by
  have h1 : y <<< 6 = y * 64 := by rw [Nat.shiftLeft_eq]
  have h2 : x <<< 12 ||| y <<< 6 = x * 4096 + y * 64 := by
    rw [h1]; exact shl_or x (y * 64) 12 (by omega)
  have h3 : x * 4096 + y * 64 = (x * 64 + y) <<< 6 := by rw [Nat.shiftLeft_eq]; omega
  rw [h2, h3, shl_or _ z 6 hz]
  omega

theorem rune4_eq (x y z w : Nat) (hy : y < 64) (hz : z < 64) (hw : w < 64) :
    x <<< 18 ||| y <<< 12 ||| z <<< 6 ||| w = x * 262144 + y * 4096 + z * 64 + w := by
  have h1 : y <<< 12 = y * 4096 := by rw [Nat.shiftLeft_eq]
  have h2 : x <<< 18 ||| y <<< 12 = x * 262144 + y * 4096 := by
    rw [h1]; exact shl_or x (y * 4096) 18 (by omega)
  have h3 : x * 262144 + y * 4096 = (x * 64 + y) <<< 12 := by rw [Nat.shiftLeft_eq]; omega
  rw [h2, h3, rune3_eq _ z w hz hw]
  omega

/-- The runes U+2028 and U+2029 only decode from their own three bytes. -/
theorem DecodeRune_separator (b : Nat) (rest : GoString) (hb : 0x80 ≤ b) (c size : Nat)
    (hd : DecodeRune (b :: rest) = (c, size)) (hc : c = 0x2028 ∨ c = 0x2029) :
    size = 3 ∧ (b :: rest).take 3 = EncodeRune c ∧ hexDigit (c &&& 0xF) = 0x30 + (c - 0x2020) := by
  have e1 : EncodeRune 0x2028 = [0xE2, 0x80, 0xA8] := by decide
  have e2 : EncodeRune 0x2029 = [0xE2, 0x80, 0xA9] := by decide
  have hx : hexDigit (c &&& 0xF) = 0x30 + (c - 0x2020) := by
    rcases hc with rfl | rfl <;> decide
  rcases DecodeRune_cases b rest hb with h | ⟨s1, t, rfl, h1, h2, h3, h4, h⟩ |
      ⟨s1, s2, t, rfl, h1, h2, h3, h4, h5, h6, h7, h8, h⟩ |
      ⟨s1, s2, s3, t, rfl, h1, h2, h3, h4, h5, h6, h7, h8, h9, h10, h⟩
  · rw [h] at hd
    simp only [Prod.mk.injEq, RuneError] at hd
    omega
  · rw [h, and_31, and_63, rune2_eq _ _ (Nat.mod_lt _ (by decide))] at hd
    simp only [Prod.mk.injEq] at hd
    omega
  · rw [h, and_15, and_63, and_63,
      rune3_eq _ _ _ (Nat.mod_lt _ (by decide)) (Nat.mod_lt _ (by decide))] at hd
    simp only [Prod.mk.injEq] at hd
    refine ⟨hd.2.symm, ?_, hx⟩
    rcases hc with rfl | rfl
    · have : b = 0xE2 ∧ s1 = 0x80 ∧ s2 = 0xA8 := by omega
      obtain ⟨rfl, rfl, rfl⟩ := this
      rw [e1]; rfl
    · have : b = 0xE2 ∧ s1 = 0x80 ∧ s2 = 0xA9 := by omega
      obtain ⟨rfl, rfl, rfl⟩ := this
      rw [e2]; rfl
  · rw [h, and_7, and_63, and_63, and_63,
      rune4_eq _ _ _ _ (Nat.mod_lt _ (by decide)) (Nat.mod_lt _ (by decide))
        (Nat.mod_lt _ (by decide))] at hd
    simp only [Prod.mk.injEq] at hd
    omega

/-- A well-formed multi-byte rune at the head of a string: its width, and the
range of its bytes. -/
theorem DecodeRune_valid_chunk (b : Nat) (rest : GoString) (hb : 0x80 ≤ b) (c size : Nat)
    (hd : DecodeRune (b :: rest) = (c, size)) (hv : ¬ (c = RuneError ∧ size = 1)) :
    2 ≤ size ∧ size ≤ (b :: rest).length ∧ ∀ x ∈ (b :: rest).take size, 0x80 ≤ x := by
  rcases DecodeRune_cases b rest hb with h | ⟨s1, t, rfl, h1, h2, h3, h4, h⟩ |
      ⟨s1, s2, t, rfl, h1, h2, h3, h4, h5, h6, h7, h8, h⟩ |
      ⟨s1, s2, s3, t, rfl, h1, h2, h3, h4, h5, h6, h7, h8, h9, h10, h⟩
  · rw [h] at hd
    simp only [Prod.mk.injEq] at hd
    exact absurd ⟨hd.1.symm, hd.2.symm⟩ hv
  · rw [h] at hd
    simp only [Prod.mk.injEq] at hd
    obtain ⟨_, rfl⟩ := hd
    refine ⟨by omega, by simp, ?_⟩
    intro x hx
    simp only [List.take_succ_cons, List.take_zero, List.mem_cons, List.mem_singleton,
      List.not_mem_nil, or_false] at hx
    rcases hx with rfl | rfl <;> omega
  · rw [h] at hd
    simp only [Prod.mk.injEq] at hd
    obtain ⟨_, rfl⟩ := hd
    refine ⟨by omega, by simp, ?_⟩
    intro x hx
    simp only [List.take_succ_cons, List.take_zero, List.mem_cons, List.mem_singleton,
      List.not_mem_nil, or_false] at hx
    rcases hx with rfl | rfl | rfl <;> omega
  · rw [h] at hd
    simp only [Prod.mk.injEq] at hd
    obtain ⟨_, rfl⟩ := hd
    refine ⟨by omega, by simp, ?_⟩
    intro x hx
    simp only [List.take_succ_cons, List.take_zero, List.mem_cons, List.mem_singleton,
      List.not_mem_nil, or_false] at hx
    rcases hx with rfl | rfl | rfl | rfl <;> omega

/-! ## Lemmas on the decoder -/

theorem prepend_nil (r : Option (GoString × GoString)) : prepend [] r = r := by
  cases r <;> simp [prepend]

theorem prepend_prepend (a b : GoString) (r : Option (GoString × GoString)) :
    prepend a (prepend b r) = prepend (a ++ b) r := by
  cases r <;> simp [prepend]

theorem prepend_some (a s tail : GoString) : prepend a (some (s, tail)) = some (a ++ s, tail) := rfl

theorem parse_plain (b : Nat) (tail : GoString) (g : Nat) (h1 : 0x20 ≤ b) (h2 : b ≠ 0x22)
    (h3 : b ≠ 0x5c) :
    parseStringBody (g + 1) (b :: tail) = prepend [b] (parseStringBody g tail) := by
  have h4 : ¬ b < 0x20 := by omega
  simp only [parseStringBody, h2, h3, h4, if_false]

theorem parse_copy (chunk tail : GoString) (g : Nat) (h : ∀ x ∈ chunk, 0x80 ≤ x) :
    parseStringBody (g + chunk.length) (chunk ++ tail)
      = prepend chunk (parseStringBody g tail) := by
  induction chunk with
  | nil => simp [prepend_nil]
  | cons x xs ih =>
    have hx : 0x80 ≤ x := h x (List.mem_cons_self _ _)
    have hxs : ∀ y ∈ xs, 0x80 ≤ y := fun y hy => h y (List.mem_cons_of_mem _ hy)
    have e : g + (x :: xs).length = (g + xs.length) + 1 := by simp; omega
    rw [e, List.cons_append, parse_plain x _ _ (by omega) (by omega) (by omega), ih hxs,
      prepend_prepend]
    rfl

theorem parse_safe (b : Nat) (tail : GoString) (g : Nat) (h : htmlSafe b = true) :
    parseStringBody (g + 1) (b :: tail) = prepend [b] (parseStringBody g tail) := by
  simp only [htmlSafe, Bool.and_eq_true, decide_eq_true_eq, bne_iff_ne, ne_eq] at h
  exact parse_plain b tail g h.1.1.1.1.1 h.1.1.1.1.2 h.2

theorem hexVal_hexDigit : ∀ n < 16, hexVal (hexDigit n) = some n := by decide

theorem parseHex4_eq (a b c d : Nat) (rest : GoString) (va vb vc vd : Nat)
    (ha : hexVal a = some va) (hb : hexVal b = some vb) (hc : hexVal c = some vc)
    (hd : hexVal d = some vd) :
    parseHex4 (a :: b :: c :: d :: rest) = some (((va * 16 + vb) * 16 + vc) * 16 + vd, rest) := by
  simp only [parseHex4, ha, hb, hc, hd]

/-- One step of the decoder at a `\uXXXX` escape that is no high surrogate. -/
theorem parse_unicode_escape (a b c d : Nat) (tail : GoString) (g u : Nat)
    (h : parseHex4 (a :: b :: c :: d :: tail) = some (u, tail))
    (hs : ¬ (0xD800 ≤ u ∧ u < 0xDC00)) :
    parseStringBody (g + 1) (0x5c :: 0x75 :: a :: b :: c :: d :: tail)
      = prepend (EncodeRune u) (parseStringBody g tail) := by
  simp only [parseStringBody, h, hs]
  simp

theorem parse_escape (b : Nat) (tail : GoString) (g : Nat) (hb : b < 0x80)
    (h : htmlSafe b = false) :
    parseStringBody (g + 1) (escapeByte b ++ tail) = prepend [b] (parseStringBody g tail) := by
  unfold escapeByte
  split_ifs with c1 c2 c3 c4 c5 c6
  · rcases c1 with rfl | rfl <;> simp [parseStringBody, unescape]
  · subst c2; simp [parseStringBody, unescape]
  · subst c3; simp [parseStringBody, unescape]
  · subst c4; simp [parseStringBody, unescape]
  · subst c5; simp [parseStringBody, unescape]
  · subst c6; simp [parseStringBody, unescape]
  · have e1 : b >>> 4 = b / 16 := by rw [Nat.shiftRight_eq_div_pow]
    have e2 : b &&& 0xF = b % 16 := and_15 b
    have k1 := hexVal_hexDigit (b / 16) (by omega)
    have k2 := hexVal_hexDigit (b % 16) (Nat.mod_lt _ (by decide))
    have k0 : hexVal 0x30 = some 0 := by decide
    have hu : ((0 * 16 + 0) * 16 + b / 16) * 16 + b % 16 = b := by omega
    have he : EncodeRune b = [b] := by
      unfold EncodeRune
      have : b ≤ 0x7F := by omega
      simp [this]
    have hp := parseHex4_eq 0x30 0x30 (hexDigit (b / 16)) (hexDigit (b % 16)) tail _ _ _ _
      k0 k0 k1 k2
    rw [hu] at hp
    rw [e1, e2]
    have := parse_unicode_escape _ _ _ _ tail g b hp (by omega)
    rw [he] at this
    exact this

theorem parse_replacement_escape (tail : GoString) (g : Nat) :
    parseStringBody (g + 1) (invalidByteText false ++ tail)
      = prepend [0xEF, 0xBF, 0xBD] (parseStringBody g tail) := by
  have hp : parseHex4 (0x66 :: 0x66 :: 0x66 :: 0x64 :: tail) = some (0xFFFD, tail) :=
    parseHex4_eq _ _ _ _ tail 15 15 15 13 (by decide) (by decide) (by decide) (by decide)
  have := parse_unicode_escape _ _ _ _ tail g 0xFFFD hp (by decide)
  have he : EncodeRune 0xFFFD = [0xEF, 0xBF, 0xBD] := by decide
  rw [he] at this
  exact this

theorem parse_replacement_raw (tail : GoString) (g : Nat) :
    parseStringBody (g + 3) (invalidByteText true ++ tail)
      = prepend [0xEF, 0xBF, 0xBD] (parseStringBody g tail) :=
  parse_copy [0xEF, 0xBF, 0xBD] tail g (by decide)

theorem parse_separator (c : Nat) (tail : GoString) (g : Nat) (hc : c = 0x2028 ∨ c = 0x2029) :
    parseStringBody (g + 1) ([0x5c, 0x75, 0x32, 0x30, 0x32, 0x30 + (c - 0x2020)] ++ tail)
      = prepend (EncodeRune c) (parseStringBody g tail) := by
  rcases hc with rfl | rfl
  · have hp : parseHex4 (0x32 :: 0x30 :: 0x32 :: 0x38 :: tail) = some (0x2028, tail) :=
      parseHex4_eq _ _ _ _ tail 2 0 2 8 (by decide) (by decide) (by decide) (by decide)
    exact parse_unicode_escape _ _ _ _ tail g 0x2028 hp (by decide)
  · have hp : parseHex4 (0x32 :: 0x30 :: 0x32 :: 0x39 :: tail) = some (0x2029, tail) :=
      parseHex4_eq _ _ _ _ tail 2 0 2 9 (by decide) (by decide) (by decide) (by decide)
    exact parse_unicode_escape _ _ _ _ tail g 0x2029 hp (by decide)

theorem escapeByte_length (b : Nat) : 1 ≤ (escapeByte b).length := by
  unfold escapeByte
  split_ifs <;> simp

/-- Decoding what `appendString` wrote gives the string back, its invalid
bytes replaced by U+FFFD. -/
theorem parse_quoteBody (raw : Bool) (f : Nat) : ∀ (s tail : GoString) (g : Nat),
    s.length ≤ f → (quoteBody raw f s).length < g →
    parseStringBody g (quoteBody raw f s ++ 0x22 :: tail) = some (coerceUTF8 f s, tail) := by
  induction f with
  | zero =>
    intro s tail g _ hg
    obtain ⟨g, rfl⟩ : ∃ k, g = k + 1 := ⟨g - 1, by omega⟩
    simp [quoteBody, coerceUTF8, parseStringBody]
  | succ f ih =>
    intro s tail g hs hg
    cases s with
    | nil =>
      obtain ⟨g, rfl⟩ : ∃ k, g = k + 1 := ⟨g - 1, by omega⟩
      simp [quoteBody, coerceUTF8, parseStringBody]
    | cons b rest =>
      have hrest : rest.length ≤ f := by simpa using hs
      by_cases hb : b < 0x80
      · simp only [quoteBody, coerceUTF8, hb, if_true] at hg ⊢
        rw [List.append_assoc]
        by_cases hsafe : htmlSafe b = true
        · simp only [hsafe, if_true, List.length_append, List.length_cons, List.length_nil] at hg ⊢
          obtain ⟨g, rfl⟩ : ∃ k, g = k + 1 := ⟨g - 1, by omega⟩
          rw [List.singleton_append, parse_safe b _ g hsafe, ih rest tail g hrest (by omega)]
          rfl
        · have hsafe2 : htmlSafe b = false := by simpa using hsafe
          simp only [hsafe2, Bool.false_eq_true, if_false, List.length_append] at hg ⊢
          have hl := escapeByte_length b
          obtain ⟨g, rfl⟩ : ∃ k, g = k + 1 := ⟨g - 1, by omega⟩
          rw [parse_escape b _ g hb hsafe2, ih rest tail g hrest (by omega)]
          rfl
      · have hb2 : 0x80 ≤ b := by omega
        rcases hd : DecodeRune (b :: rest) with ⟨c, size⟩
        simp only [quoteBody, coerceUTF8, hb, if_false, hd] at hg ⊢
        by_cases herr : c = RuneError ∧ size = 1
        · simp only [herr, and_self, if_true, List.length_append] at hg ⊢
          cases raw
          · have hl : (invalidByteText false).length = 6 := by decide
            obtain ⟨g, rfl⟩ : ∃ k, g = k + 1 := ⟨g - 1, by omega⟩
            rw [List.append_assoc, parse_replacement_escape, ih rest tail g hrest (by omega)]
            rfl
          · have hl : (invalidByteText true).length = 3 := by decide
            obtain ⟨g, rfl⟩ : ∃ k, g = k + 3 := ⟨g - 3, by omega⟩
            rw [List.append_assoc, parse_replacement_raw, ih rest tail g hrest (by omega)]
            rfl
        · simp only [herr, if_false] at hg ⊢
          have hchunk := DecodeRune_valid_chunk b rest hb2 c size hd herr
          have hdrop : ((b :: rest).drop size).length ≤ f := by
            rw [List.length_drop]
            have : (b :: rest).length = rest.length + 1 := by simp
            omega
          by_cases hsep : c = 0x2028 ∨ c = 0x2029
          · obtain ⟨h3, htake, hhex⟩ := DecodeRune_separator b rest hb2 c size hd hsep
            simp only [hsep, if_true, List.length_append, List.length_cons,
              List.length_nil] at hg ⊢
            obtain ⟨g, rfl⟩ : ∃ k, g = k + 1 := ⟨g - 1, by omega⟩
            rw [List.append_assoc, hhex, parse_separator c _ g hsep,
              ih _ tail g hdrop (by omega), h3, htake]
            rfl
          · simp only [hsep, if_false, List.length_append] at hg ⊢
            have hlen : ((b :: rest).take size).length = size := by
              rw [List.length_take]; omega
            obtain ⟨g, rfl⟩ : ∃ k, g = k + ((b :: rest).take size).length :=
              ⟨g - ((b :: rest).take size).length, by omega⟩
            rw [List.append_assoc, parse_copy _ _ g hchunk.2.2, ih _ tail g hdrop (by omega)]
            rfl

theorem parseString_appendString_tail (raw : Bool) (s tail : GoString) :
    parseString (quoteBody raw s.length s ++ 0x22 :: tail)
      = some (coerceUTF8 s.length s, tail) := by
  unfold parseString
  apply parse_quoteBody raw _ _ _ _ (le_refl _)
  simp

/-- On valid UTF-8 the encoder changes nothing. -/
theorem coerceUTF8_valid (f : Nat) : ∀ s : GoString, ValidString f s = true →
    coerceUTF8 f s = s := by
  induction f with
  | zero =>
    intro s h
    cases s with
    | nil => rfl
    | cons b rest => simp [ValidString] at h
  | succ f ih =>
    intro s h
    cases s with
    | nil => rfl
    | cons b rest =>
      rcases hd : DecodeRune (b :: rest) with ⟨c, size⟩
      simp only [ValidString, hd] at h
      by_cases hb : b < 0x80
      · have := DecodeRune_ascii b rest hb
        rw [hd] at this
        simp only [Prod.mk.injEq] at this
        obtain ⟨rfl, rfl⟩ := this
        have herr : ¬ (c = RuneError ∧ 1 = 1) := by
          simp only [RuneError, and_true]; omega
        rw [if_neg herr] at h
        simp only [List.drop_succ_cons, List.drop_zero] at h
        simp only [coerceUTF8, hb, if_true, ih rest h]
      · by_cases herr : c = RuneError ∧ size = 1
        · simp [herr] at h
        · simp only [herr, if_false] at h
          simp only [coerceUTF8, hb, if_false, hd, herr, ih _ h, List.take_append_drop]

theorem coerceUTF8_of_valid (s : GoString) (h : ValidUTF8 s) : coerceUTF8 s.length s = s :=
  coerceUTF8_valid _ s h


/-! ## Lemmas on numbers -/

theorem digitsVal_append (xs : GoString) (d : Nat) :
    digitsVal (xs ++ [d]) = digitsVal xs * 10 + (d - 48) := by
  simp [digitsVal, List.foldl_append]

/-- The digits `strconv` writes are decimal digits, read back to the number,
and start with `0` only for the number 0. -/
theorem digitsRev_spec (f : Nat) : ∀ n, n < f →
    (∀ d ∈ digitsRev f n, 48 ≤ d ∧ d ≤ 57) ∧ digitsVal (digitsRev f n).reverse = n ∧
    digitsRev f n ≠ [] ∧
    ((digitsRev f n).reverse.head? = some 48 → (digitsRev f n).length = 1) := by
  induction f with
  | zero => intro n h; omega
  | succ f ih =>
    intro n hn
    by_cases h0 : n / 10 = 0
    · have hlt : n < 10 := by omega
      have hm : n % 10 = n := Nat.mod_eq_of_lt hlt
      simp only [digitsRev, h0, if_true, hm]
      refine ⟨?_, ?_, by simp, by simp⟩
      · intro d hd
        simp only [List.mem_singleton] at hd
        omega
      · simp [digitsVal]
    · have hlt : n / 10 < f := by omega
      obtain ⟨i1, i2, i3, i4⟩ := ih (n / 10) hlt
      simp only [digitsRev, h0, if_false]
      refine ⟨?_, ?_, by simp, ?_⟩
      · intro d hd
        simp only [List.mem_cons] at hd
        rcases hd with rfl | hd
        · omega
        · exact i1 d hd
      · rw [List.reverse_cons, digitsVal_append, i2]
        omega
      · intro hh
        exfalso
        rw [List.reverse_cons] at hh
        have hne : (digitsRev f (n / 10)).reverse ≠ [] := by simpa using i3
        rw [List.head?_append_of_ne_nil _ hne] at hh
        have hl := i4 hh
        -- a one-digit quotient written as `0` would be the number 0
        have : ∃ d, digitsRev f (n / 10) = [d] := by
          cases hx : digitsRev f (n / 10) with
          | nil => exact absurd hx i3
          | cons d t =>
            rw [hx] at hl
            simp at hl
            exact ⟨d, by rw [hl]⟩
        obtain ⟨d, hd⟩ := this
        rw [hd] at hh i2
        simp only [List.reverse_singleton, List.head?_cons, Option.some.injEq] at hh
        subst hh
        simp [digitsVal] at i2
        omega

theorem spanDigits_append (ds tail : GoString) (hd : ∀ d ∈ ds, 48 ≤ d ∧ d ≤ 57)
    (ht : ∀ c, tail.head? = some c → ¬ (48 ≤ c ∧ c ≤ 57)) :
    spanDigits (ds ++ tail) = (ds, tail) := by
  induction ds with
  | nil =>
    cases tail with
    | nil => rfl
    | cons c t =>
      have := ht c rfl
      simp [spanDigits, this]
  | cons d rest ih =>
    have h1 := hd d (List.mem_cons_self _ _)
    have h2 := ih fun x hx => hd x (List.mem_cons_of_mem _ hx)
    simp [spanDigits, h1, h2]

theorem parseNat_digitsRev (n : Nat) (tail : GoString)
    (ht : ∀ c, tail.head? = some c → ¬ (48 ≤ c ∧ c ≤ 57) ∧ c ≠ 0x2e ∧ c ≠ 0x65 ∧ c ≠ 0x45) :
    parseNat ((digitsRev (n + 1) n).reverse ++ tail) = some (n, tail) := by
  obtain ⟨i1, i2, i3, i4⟩ := digitsRev_spec (n + 1) n (by omega)
  have hs := spanDigits_append (digitsRev (n + 1) n).reverse tail
    (fun d hd => i1 d (List.mem_reverse.1 hd)) (fun c hc => (ht c hc).1)
  unfold parseNat
  simp only [hs]
  have h1 : (digitsRev (n + 1) n).reverse ≠ [] := by simpa using i3
  have h2 : ¬ ((digitsRev (n + 1) n).reverse.head? = some 48 ∧
      (digitsRev (n + 1) n).reverse.length > 1) := by
    rintro ⟨a, b⟩
    have := i4 a
    simp only [List.length_reverse] at b
    omega
  have h3 : ¬ (tail.head? = some 0x2e ∨ tail.head? = some 0x65 ∨ tail.head? = some 0x45) := by
    rintro (h | h | h)
    · exact (ht _ h).2.1 rfl
    · exact (ht _ h).2.2.1 rfl
    · exact (ht _ h).2.2.2 rfl
  simp only [h1, h2, h3, if_false, i2]

/-- Reading back the decimal text of an integer. -/
theorem parseNumber_formatInt (i : Int) (tail : GoString)
    (ht : ∀ c, tail.head? = some c → ¬ (48 ≤ c ∧ c ≤ 57) ∧ c ≠ 0x2e ∧ c ≠ 0x65 ∧ c ≠ 0x45) :
    parseNumber (formatInt i ++ tail) = some (i, tail) := by
  unfold formatInt
  by_cases hneg : i < 0
  · simp only [hneg, if_true, List.cons_append, parseNumber, parseNat_digitsRev _ tail ht,
      Option.map_some']
    have : -(i.natAbs : Int) = i := by omega
    rw [this]
  · simp only [hneg, if_false]
    obtain ⟨i1, _, i3, _⟩ := digitsRev_spec (i.natAbs + 1) i.natAbs (by omega)
    cases hx : (digitsRev (i.natAbs + 1) i.natAbs).reverse with
    | nil => simp at hx; exact absurd hx i3
    | cons c t =>
      have hc : 48 ≤ c ∧ c ≤ 57 := i1 c (List.mem_reverse.1 (by rw [hx]; simp))
      have hc2 : ¬ c = 0x2d := by omega
      have hp := parseNat_digitsRev i.natAbs tail ht
      rw [hx] at hp
      simp only [List.cons_append] at hp ⊢
      simp only [parseNumber, hc2, if_false, hp, Option.map_some']
      have : (i.natAbs : Int) = i := by omega
      rw [this]

/-! ## Decoding the bodies the handlers write -/

theorem skipWS_cons (c : Nat) (rest : GoString)
    (h : c ≠ 0x20 ∧ c ≠ 0x09 ∧ c ≠ 0x0a ∧ c ≠ 0x0d) : skipWS (c :: rest) = c :: rest := by
  have : ¬ (c = 0x20 ∨ c = 0x09 ∨ c = 0x0a ∨ c = 0x0d) := by
    rintro (h1 | h1 | h1 | h1)
    · exact h.1 h1
    · exact h.2.1 h1
    · exact h.2.2.1 h1
    · exact h.2.2.2 h1
  simp only [skipWS, this, if_false]

theorem parseValue_bool (F : Nat) (b : Bool) (tail : GoString) :
    parseValue (F + 1) (marshalBool b ++ tail) = some (.bool b, tail) := by
  have e1 : str "true" = [0x74, 0x72, 0x75, 0x65] := by decide
  have e2 : str "false" = [0x66, 0x61, 0x6c, 0x73, 0x65] := by decide
  cases b
  · simp [marshalBool, e2, parseValue, skipWS, stripLiteral]
  · simp [marshalBool, e1, parseValue, skipWS, stripLiteral]

theorem parseValue_string (raw : Bool) (F : Nat) (s tail : GoString) :
    parseValue (F + 1) (appendString raw s ++ tail)
      = some (.str (coerceUTF8 s.length s), tail) := by
  have h := parseString_appendString_tail raw s tail
  unfold appendString
  simp only [List.cons_append, List.append_assoc, List.singleton_append]
  rw [parseValue, skipWS_cons _ _ (by decide)]
  simp [h]

theorem formatInt_head (i : Int) :
    ∃ c t, formatInt i = c :: t ∧ (c = 0x2d ∨ (48 ≤ c ∧ c ≤ 57)) := by
  unfold formatInt
  by_cases hneg : i < 0
  · simp [hneg]
  · simp only [hneg, if_false]
    obtain ⟨i1, _, i3, _⟩ := digitsRev_spec (i.natAbs + 1) i.natAbs (by omega)
    cases hx : (digitsRev (i.natAbs + 1) i.natAbs).reverse with
    | nil => simp at hx; exact absurd hx i3
    | cons c t =>
      exact ⟨c, t, rfl, Or.inr (i1 c (List.mem_reverse.1 (by rw [hx]; simp)))⟩

theorem parseValue_int (F : Nat) (i : Int) (tail : GoString)
    (ht : ∀ c, tail.head? = some c → ¬ (48 ≤ c ∧ c ≤ 57) ∧ c ≠ 0x2e ∧ c ≠ 0x65 ∧ c ≠ 0x45) :
    parseValue (F + 1) (formatInt i ++ tail) = some (.num i, tail) := by
  have h := parseNumber_formatInt i tail ht
  obtain ⟨c, t, hf, hc⟩ := formatInt_head i
  rw [hf] at h ⊢
  rw [List.cons_append] at h ⊢
  have hws : c ≠ 0x20 ∧ c ≠ 0x09 ∧ c ≠ 0x0a ∧ c ≠ 0x0d := by omega
  rw [parseValue, skipWS_cons _ _ hws]
  have n1 : ¬ c = 0x7b := by omega
  have n2 : ¬ c = 0x5b := by omega
  have n3 : ¬ c = 0x22 := by omega
  have n4 : ¬ c = 0x74 := by omega
  have n5 : ¬ c = 0x66 := by omega
  have n6 : ¬ c = 0x6e := by omega
  simp only [n1, n2, n3, n4, n5, n6, if_false, h, Option.map_some']

theorem parseString_key (k tail : GoString) (hk : PlainKey k) :
    parseString (k ++ 0x22 :: tail) = some (k, tail) := by
  have h := parseString_appendString_tail false k tail
  rw [hk.1, hk.2] at h
  exact h

theorem parseMembers_cons (F : Nat) (k vtext more : GoString) (v : JSON) (hk : PlainKey k)
    (hv : parseValue F (vtext ++ 0x2c :: more) = some (v, 0x2c :: more)) :
    parseMembers (F + 1) (0x22 :: (k ++ 0x22 :: 0x3a :: (vtext ++ 0x2c :: more)))
      = (parseMembers F more).map fun p => ((k, v) :: p.1, p.2) := by
  rw [parseMembers, skipWS_cons _ _ (by decide)]
  simp only [if_true, parseString_key k _ hk]
  rw [skipWS_cons _ _ (by decide)]
  simp only [if_true, hv]
  rw [skipWS_cons _ _ (by decide)]
  simp

theorem parseMembers_last (F : Nat) (k vtext more : GoString) (v : JSON) (hk : PlainKey k)
    (hv : parseValue F (vtext ++ 0x7d :: more) = some (v, 0x7d :: more)) :
    parseMembers (F + 1) (0x22 :: (k ++ 0x22 :: 0x3a :: (vtext ++ 0x7d :: more)))
      = some ([(k, v)], more) := by
  rw [parseMembers, skipWS_cons _ _ (by decide)]
  simp only [if_true, parseString_key k _ hk]
  rw [skipWS_cons _ _ (by decide)]
  simp only [if_true, hv]
  rw [skipWS_cons _ _ (by decide)]
  simp

theorem parseValue_object (F : Nat) (text : GoString) :
    parseValue (F + 1) (0x7b :: 0x22 :: text)
      = (parseMembers F (0x22 :: text)).map fun p => (.obj p.1, p.2) := by
  rw [parseValue, skipWS_cons _ _ (by decide)]
  simp only [if_true]
  rw [skipWS_cons _ _ (by decide)]
  simp


theorem plainKey_success : PlainKey (str "success") := ⟨by decide, by decide⟩
theorem plainKey_data : PlainKey (str "data") := ⟨by decide, by decide⟩
theorem plainKey_stdout : PlainKey (str "stdout") := ⟨by decide, by decide⟩
theorem plainKey_stderr : PlainKey (str "stderr") := ⟨by decide, by decide⟩
theorem plainKey_status : PlainKey (str "status") := ⟨by decide, by decide⟩
theorem plainKey_identifier : PlainKey (str "identifier") := ⟨by decide, by decide⟩

theorem head_brace (more : GoString) :
    ∀ c, (0x7d :: more).head? = some c → ¬ (48 ≤ c ∧ c ≤ 57) ∧ c ≠ 0x2e ∧ c ≠ 0x65 ∧ c ≠ 0x45 := by
  intro c hc
  simp only [List.head?_cons, Option.some.injEq] at hc
  omega

theorem marshalHealthData_text (raw : Bool) (d : HealthCheckData) (tail : GoString) :
    marshalHealthData raw d ++ tail
      = 0x7b :: 0x22 :: (str "stdout" ++ 0x22 :: 0x3a :: (appendString raw d.Stdout ++ 0x2c ::
          (0x22 :: (str "stderr" ++ 0x22 :: 0x3a :: (appendString raw d.Stderr ++ 0x2c ::
            (0x22 :: (str "status" ++ 0x22 :: 0x3a :: (formatInt d.Status ++ 0x7d :: tail)))))))) := by
  have e1 : str "\x7b\"stdout\":" = 0x7b :: 0x22 :: (str "stdout" ++ [0x22, 0x3a]) := by decide
  have e2 : str ",\"stderr\":" = 0x2c :: 0x22 :: (str "stderr" ++ [0x22, 0x3a]) := by decide
  have e3 : str ",\"status\":" = 0x2c :: 0x22 :: (str "status" ++ [0x22, 0x3a]) := by decide
  have e4 : str "\x7d" = [0x7d] := by decide
  unfold marshalHealthData
  rw [e1, e2, e3, e4]
  simp only [List.append_assoc, List.cons_append, List.nil_append]

theorem parseValue_healthData (F : Nat) (raw : Bool) (d : HealthCheckData) (tail : GoString) :
    parseValue (F + 5) (marshalHealthData raw d ++ tail)
      = some (.obj [(str "stdout", .str (coerceUTF8 d.Stdout.length d.Stdout)),
          (str "stderr", .str (coerceUTF8 d.Stderr.length d.Stderr)),
          (str "status", .num d.Status)], tail) := by
  rw [marshalHealthData_text, parseValue_object,
    parseMembers_cons (F + 3) _ _ _ _ plainKey_stdout (parseValue_string raw (F + 2) _ _),
    parseMembers_cons (F + 2) _ _ _ _ plainKey_stderr (parseValue_string raw (F + 1) _ _),
    parseMembers_last (F + 1) _ _ _ _ plainKey_status
      (parseValue_int F _ _ (head_brace tail))]
  rfl

theorem marshalStatusData_text (raw : Bool) (d : StatusCheckData) (tail : GoString) :
    marshalStatusData raw d ++ tail
      = 0x7b :: 0x22 :: (str "identifier" ++ 0x22 :: 0x3a ::
          (appendString raw d.Identifier ++ 0x7d :: tail)) := by
  have e1 : str "\x7b\"identifier\":" = 0x7b :: 0x22 :: (str "identifier" ++ [0x22, 0x3a]) := by
    decide
  have e4 : str "\x7d" = [0x7d] := by decide
  unfold marshalStatusData
  rw [e1, e4]
  simp only [List.append_assoc, List.cons_append, List.nil_append]

theorem parseValue_statusData (F : Nat) (raw : Bool) (d : StatusCheckData) (tail : GoString) :
    parseValue (F + 3) (marshalStatusData raw d ++ tail)
      = some (.obj [(str "identifier", .str (coerceUTF8 d.Identifier.length d.Identifier))],
          tail) := by
  rw [marshalStatusData_text, parseValue_object,
    parseMembers_last (F + 1) _ _ _ _ plainKey_identifier (parseValue_string raw F _ _)]
  rfl

theorem marshalHealth_text (raw : Bool) (r : HealthCheckResponse) :
    marshalHealth raw r
      = 0x7b :: 0x22 :: (str "success" ++ 0x22 :: 0x3a :: (marshalBool r.Success ++ 0x2c ::
          (0x22 :: (str "data" ++ 0x22 :: 0x3a :: (marshalHealthData raw r.Data ++ 0x7d :: []))))) := by
  have e1 : str "\x7b\"success\":" = 0x7b :: 0x22 :: (str "success" ++ [0x22, 0x3a]) := by decide
  have e2 : str ",\"data\":" = 0x2c :: 0x22 :: (str "data" ++ [0x22, 0x3a]) := by decide
  have e4 : str "\x7d" = [0x7d] := by decide
  unfold marshalHealth
  rw [e1, e2, e4]
  simp only [List.append_assoc, List.cons_append, List.nil_append]

theorem marshalStatus_text (raw : Bool) (r : StatusCheckResponse) :
    marshalStatus raw r
      = 0x7b :: 0x22 :: (str "success" ++ 0x22 :: 0x3a :: (marshalBool r.Success ++ 0x2c ::
          (0x22 :: (str "data" ++ 0x22 :: 0x3a :: (marshalStatusData raw r.Data ++ 0x7d :: []))))) := by
  have e1 : str "\x7b\"success\":" = 0x7b :: 0x22 :: (str "success" ++ [0x22, 0x3a]) := by decide
  have e2 : str ",\"data\":" = 0x2c :: 0x22 :: (str "data" ++ [0x22, 0x3a]) := by decide
  have e4 : str "\x7d" = [0x7d] := by decide
  unfold marshalStatus
  rw [e1, e2, e4]
  simp only [List.append_assoc, List.cons_append, List.nil_append]

/-- Decoding the body of a `/healthcheck` envelope. -/
theorem parseJSON_marshalHealth (raw : Bool) (r : HealthCheckResponse) :
    parseJSON (marshalHealth raw r)
      = some (healthJSON
          { Success := r.Success
            Data :=
              { Stdout := coerceUTF8 r.Data.Stdout.length r.Data.Stdout
                Stderr := coerceUTF8 r.Data.Stderr.length r.Data.Stderr
                Status := r.Data.Status } }) := by
  have hlen : ∃ F, (marshalHealth raw r).length + 1 = F + 8 := by
    refine ⟨(marshalHealth raw r).length - 7, ?_⟩
    have : 7 ≤ (marshalHealth raw r).length := by
      rw [marshalHealth_text]
      simp only [List.length_cons, List.length_append]
      have : (str "success").length = 7 := by decide
      omega
    omega
  obtain ⟨F, hF⟩ := hlen
  unfold parseJSON
  rw [hF]
  have hv : parseValue (F + 8) (marshalHealth raw r)
      = some (healthJSON
          { Success := r.Success
            Data :=
              { Stdout := coerceUTF8 r.Data.Stdout.length r.Data.Stdout
                Stderr := coerceUTF8 r.Data.Stderr.length r.Data.Stderr
                Status := r.Data.Status } }, []) := by
    rw [marshalHealth_text, parseValue_object,
      parseMembers_cons (F + 6) _ _ _ _ plainKey_success (parseValue_bool (F + 5) _ _),
      parseMembers_last (F + 5) _ _ _ _ plainKey_data (parseValue_healthData F raw _ _)]
    rfl
  rw [hv]
  rfl

/-- Decoding the body of a `/status` envelope. -/
theorem parseJSON_marshalStatus (raw : Bool) (r : StatusCheckResponse) :
    parseJSON (marshalStatus raw r)
      = some (statusJSON
          { Success := r.Success
            Data := { Identifier := coerceUTF8 r.Data.Identifier.length r.Data.Identifier } }) := by
  have hlen : ∃ F, (marshalStatus raw r).length + 1 = F + 6 := by
    refine ⟨(marshalStatus raw r).length - 5, ?_⟩
    have : 7 ≤ (marshalStatus raw r).length := by
      rw [marshalStatus_text]
      simp only [List.length_cons, List.length_append]
      have : (str "success").length = 7 := by decide
      omega
    omega
  obtain ⟨F, hF⟩ := hlen
  unfold parseJSON
  rw [hF]
  have hv : parseValue (F + 6) (marshalStatus raw r)
      = some (statusJSON
          { Success := r.Success
            Data := { Identifier := coerceUTF8 r.Data.Identifier.length r.Data.Identifier } },
          []) := by
    rw [marshalStatus_text, parseValue_object,
      parseMembers_cons (F + 4) _ _ _ _ plainKey_success (parseValue_bool (F + 3) _ _),
      parseMembers_last (F + 3) _ _ _ _ plainKey_data (parseValue_statusData F raw _ _)]
    rfl
  rw [hv]
  rfl

/-! ## Lemmas on decoding runes forwards and backwards -/

theorem DecodeRune_two (b s1 : Nat) (t : GoString) (h1 : 0xC2 ≤ b) (h2 : b ≤ 0xDF)
    (h3 : 0x80 ≤ s1) (h4 : s1 ≤ 0xBF) :
    DecodeRune (b :: s1 :: t) = ((b &&& 0x1F) <<< 6 ||| (s1 &&& 0x3F), 2) := by
  have hf : first b = 0x02 := by
    rcases first_cases b (by omega) with ⟨_, h⟩ | ⟨_, _, h⟩ | ⟨_, h⟩ | ⟨_, _, _, h⟩ | ⟨_, h⟩ |
      ⟨_, h⟩ | ⟨_, _, h⟩ | ⟨_, h⟩ <;> first | exact h | omega
  have e2 : (0x02 : Nat) &&& 7 = 2 := by decide
  have c1 : ¬ (s1 < 0x80 ∨ 0xBF < s1) := by omega
  unfold DecodeRune
  simp only [hf]
  simp +decide only [acceptRanges, e2, List.length_cons, List.getD_cons_succ,
    List.getD_cons_zero, ite_true, ite_false]
  rw [if_neg (by omega), if_neg c1]

theorem DecodeRune_three (b s1 s2 : Nat) (t : GoString) (h1 : 0xE0 ≤ b) (h2 : b ≤ 0xEF)
    (h3 : 0x80 ≤ s1) (h4 : s1 ≤ 0xBF) (h5 : b = 0xE0 → 0xA0 ≤ s1) (h6 : b = 0xED → s1 ≤ 0x9F)
    (h7 : 0x80 ≤ s2) (h8 : s2 ≤ 0xBF) :
    DecodeRune (b :: s1 :: s2 :: t)
      = ((b &&& 0x0F) <<< 12 ||| (s1 &&& 0x3F) <<< 6 ||| (s2 &&& 0x3F), 3) := by
  have e3 : (0x03 : Nat) &&& 7 = 3 := by decide
  have e13 : (0x13 : Nat) &&& 7 = 3 := by decide
  have e23 : (0x23 : Nat) &&& 7 = 3 := by decide
  have c2 : ¬ (s2 < 0x80 ∨ 0xBF < s2) := by omega
  unfold DecodeRune
  rcases first_cases b (by omega) with ⟨_, h⟩ | ⟨_, _, h⟩ | ⟨_, h⟩ | ⟨_, _, _, h⟩ | ⟨_, h⟩ |
      ⟨_, h⟩ | ⟨_, _, h⟩ | ⟨_, h⟩ <;> first | omega | skip
  all_goals
    simp only [h]
    simp +decide only [acceptRanges, e3, e13, e23, List.length_cons, List.getD_cons_succ,
      List.getD_cons_zero, ite_true, ite_false]
    rw [if_neg (by omega), if_neg (by omega), if_neg c2]

theorem DecodeRune_four (b s1 s2 s3 : Nat) (t : GoString) (h1 : 0xF0 ≤ b) (h2 : b ≤ 0xF4)
    (h3 : 0x80 ≤ s1) (h4 : s1 ≤ 0xBF) (h5 : b = 0xF0 → 0x90 ≤ s1) (h6 : b = 0xF4 → s1 ≤ 0x8F)
    (h7 : 0x80 ≤ s2) (h8 : s2 ≤ 0xBF) (h9 : 0x80 ≤ s3) (h10 : s3 ≤ 0xBF) :
    DecodeRune (b :: s1 :: s2 :: s3 :: t)
      = ((b &&& 0x07) <<< 18 ||| (s1 &&& 0x3F) <<< 12 ||| (s2 &&& 0x3F) <<< 6
          ||| (s3 &&& 0x3F), 4) := by
  have e34 : (0x34 : Nat) &&& 7 = 4 := by decide
  have e4 : (0x04 : Nat) &&& 7 = 4 := by decide
  have e44 : (0x44 : Nat) &&& 7 = 4 := by decide
  have c2 : ¬ (s2 < 0x80 ∨ 0xBF < s2) := by omega
  have c3 : ¬ (s3 < 0x80 ∨ 0xBF < s3) := by omega
  unfold DecodeRune
  rcases first_cases b (by omega) with ⟨_, h⟩ | ⟨_, _, h⟩ | ⟨_, h⟩ | ⟨_, _, _, h⟩ | ⟨_, h⟩ |
      ⟨_, h⟩ | ⟨_, _, h⟩ | ⟨_, h⟩ <;> first | omega | skip
  all_goals
    simp only [h]
    simp +decide only [acceptRanges, e34, e4, e44, List.length_cons, List.getD_cons_succ,
      List.getD_cons_zero, ite_true, ite_false]
    rw [if_neg (by omega), if_neg (by omega), if_neg c2, if_neg c3]

theorem DecodeRune_size (b : Nat) (rest : GoString) :
    1 ≤ (DecodeRune (b :: rest)).2 ∧ (DecodeRune (b :: rest)).2 ≤ (b :: rest).length := by
  by_cases hb : b < 0x80
  · rw [DecodeRune_ascii b rest hb]; simp
  · rcases DecodeRune_cases b rest (by omega) with h | ⟨s1, t, rfl, _, _, _, _, h⟩ |
        ⟨s1, s2, t, rfl, _, _, _, _, _, _, _, _, h⟩ |
        ⟨s1, s2, s3, t, rfl, _, _, _, _, _, _, _, _, _, _, h⟩ <;> rw [h] <;>
      simp only [List.length_cons] <;> omega

/-- A decoding of width at least 2 only reads the bytes it spans. -/
theorem DecodeRune_span (x t : GoString) (r k : Nat) (hk : 2 ≤ k) (hx : k ≤ x.length) :
    DecodeRune (x ++ t) = (r, k) ↔ DecodeRune x = (r, k) := by
  cases x with
  | nil => simp only [List.length_nil] at hx; omega
  | cons b rest =>
    by_cases hb : b < 0x80
    · rw [List.cons_append, DecodeRune_ascii b _ hb, DecodeRune_ascii b _ hb]
    · have hb2 : 0x80 ≤ b := by omega
      constructor
      · intro h
        rw [List.cons_append] at h
        rcases DecodeRune_cases b (rest ++ t) hb2 with h0 | ⟨s1, t1, he, a1, a2, a3, a4, h0⟩ |
            ⟨s1, s2, t1, he, a1, a2, a3, a4, a5, a6, a7, a8, h0⟩ |
            ⟨s1, s2, s3, t1, he, a1, a2, a3, a4, a5, a6, a7, a8, a9, a10, h0⟩
        · rw [h0] at h; simp only [Prod.mk.injEq] at h; omega
        · rw [h0] at h; simp only [Prod.mk.injEq] at h
          obtain ⟨hr, rfl⟩ := h
          rcases rest with _ | ⟨y1, r1⟩
          · simp at hx
          · simp only [List.cons_append, List.cons.injEq] at he
            obtain ⟨rfl, _⟩ := he
            rw [DecodeRune_two b y1 r1 a1 a2 a3 a4, hr]
        · rw [h0] at h; simp only [Prod.mk.injEq] at h
          obtain ⟨hr, rfl⟩ := h
          rcases rest with _ | ⟨y1, _ | ⟨y2, r1⟩⟩
          · simp at hx
          · simp at hx
          · simp only [List.cons_append, List.cons.injEq] at he
            obtain ⟨rfl, rfl, _⟩ := he
            rw [DecodeRune_three b y1 y2 r1 a1 a2 a3 a4 a5 a6 a7 a8, hr]
        · rw [h0] at h; simp only [Prod.mk.injEq] at h
          obtain ⟨hr, rfl⟩ := h
          rcases rest with _ | ⟨y1, _ | ⟨y2, _ | ⟨y3, r1⟩⟩⟩
          · simp at hx
          · simp at hx
          · simp at hx
          · simp only [List.cons_append, List.cons.injEq] at he
            obtain ⟨rfl, rfl, rfl, _⟩ := he
            rw [DecodeRune_four b y1 y2 y3 r1 a1 a2 a3 a4 a5 a6 a7 a8 a9 a10, hr]
      · intro h
        rcases DecodeRune_cases b rest hb2 with h0 | ⟨s1, t1, rfl, a1, a2, a3, a4, h0⟩ |
            ⟨s1, s2, t1, rfl, a1, a2, a3, a4, a5, a6, a7, a8, h0⟩ |
            ⟨s1, s2, s3, t1, rfl, a1, a2, a3, a4, a5, a6, a7, a8, a9, a10, h0⟩
        · rw [h0] at h; simp only [Prod.mk.injEq] at h; omega
        · rw [h0] at h
          simp only [List.cons_append]
          rw [DecodeRune_two b s1 _ a1 a2 a3 a4]; exact h
        · rw [h0] at h
          simp only [List.cons_append]
          rw [DecodeRune_three b s1 s2 _ a1 a2 a3 a4 a5 a6 a7 a8]; exact h
        · rw [h0] at h
          simp only [List.cons_append]
          rw [DecodeRune_four b s1 s2 s3 _ a1 a2 a3 a4 a5 a6 a7 a8 a9 a10]; exact h

set_option maxRecDepth 100000 in
/-- A byte in the continuation range starts no rune. -/
theorem RuneStart_continuation : ∀ y < 0xC0, 0x80 ≤ y → RuneStart y = false := by decide

set_option maxRecDepth 100000 in
/-- The first byte of a multi-byte rune starts a rune. -/
theorem RuneStart_lead : ∀ y < 0xF5, 0xC2 ≤ y → RuneStart y = true := by decide

/-- The shape of a rune as `DecodeRune` sees it: one byte, or a lead byte
followed by continuation bytes. -/
theorem chunk_shape (bs rest : GoString) (r : Nat) (hne : bs ≠ [])
    (hd : DecodeRune (bs ++ rest) = (r, bs.length)) :
    ∃ b0 conts, bs = b0 :: conts ∧ conts.length ≤ 3 ∧ (∀ y ∈ conts, 0x80 ≤ y ∧ y < 0xC0) ∧
      (conts ≠ [] → RuneStart b0 = true ∧ 0x80 ≤ b0 ∧ DecodeRune bs = (r, bs.length)) ∧
      (conts = [] → b0 < 0x80 → r = b0) ∧ (conts = [] → 0x80 ≤ b0 → r = RuneError) := by
  cases bs with
  | nil => exact absurd rfl hne
  | cons b0 conts =>
    refine ⟨b0, conts, rfl, ?_⟩
    by_cases hb : b0 < 0x80
    · rw [List.cons_append, DecodeRune_ascii b0 _ hb] at hd
      simp only [Prod.mk.injEq, List.length_cons] at hd
      have : conts = [] := List.eq_nil_of_length_eq_zero (by omega)
      subst this
      refine ⟨by simp, by simp, by simp, fun _ _ => hd.1.symm, fun _ h => by omega⟩
    · have hb2 : 0x80 ≤ b0 := by omega
      by_cases hc : conts = []
      · subst hc
        refine ⟨by simp, by simp, by simp, fun _ h => by omega, fun _ _ => ?_⟩
        rw [List.cons_append] at hd
        rcases DecodeRune_cases b0 ([] ++ rest) hb2 with h0 | ⟨s1, t1, _, _, _, _, _, h0⟩ |
            ⟨s1, s2, t1, _, _, _, _, _, _, _, _, _, h0⟩ |
            ⟨s1, s2, s3, t1, _, _, _, _, _, _, _, _, _, _, _, h0⟩ <;>
          rw [h0] at hd <;> simp only [Prod.mk.injEq, List.length_cons, List.length_nil] at hd
        · exact hd.1.symm
        all_goals omega
      · have hk : 2 ≤ (b0 :: conts).length := by
          cases conts with
          | nil => exact absurd rfl hc
          | cons _ _ => simp
        have hd2 := (DecodeRune_span (b0 :: conts) rest r _ hk (le_refl _)).1 hd
        have hsz := DecodeRune_size b0 conts
        rcases DecodeRune_cases b0 conts hb2 with h0 | ⟨s1, t1, rfl, a1, a2, a3, a4, h0⟩ |
            ⟨s1, s2, t1, rfl, a1, a2, a3, a4, a5, a6, a7, a8, h0⟩ |
            ⟨s1, s2, s3, t1, rfl, a1, a2, a3, a4, a5, a6, a7, a8, a9, a10, h0⟩
        · rw [h0] at hd2; simp only [Prod.mk.injEq] at hd2; omega
        · rw [h0] at hd2; simp only [Prod.mk.injEq, List.length_cons] at hd2
          have : t1 = [] := List.eq_nil_of_length_eq_zero (by omega)
          subst this
          refine ⟨by simp, ?_, fun _ => ⟨RuneStart_lead b0 (by omega) a1, hb2, by rw [h0]; simp [hd2.1]⟩, fun h => absurd h hc, fun h => absurd h hc⟩
          intro y hy
          simp only [List.mem_singleton] at hy
          subst hy
          exact ⟨a3, by omega⟩
        · rw [h0] at hd2; simp only [Prod.mk.injEq, List.length_cons] at hd2
          have : t1 = [] := List.eq_nil_of_length_eq_zero (by omega)
          subst this
          refine ⟨by simp, ?_, fun _ => ⟨RuneStart_lead b0 (by omega) (by omega), hb2, by rw [h0]; simp [hd2.1]⟩, fun h => absurd h hc, fun h => absurd h hc⟩
          intro y hy
          simp only [List.mem_cons, List.mem_singleton, List.not_mem_nil, or_false] at hy
          rcases hy with rfl | rfl
          · exact ⟨a3, by omega⟩
          · exact ⟨a7, by omega⟩
        · rw [h0] at hd2; simp only [Prod.mk.injEq, List.length_cons] at hd2
          have : t1 = [] := List.eq_nil_of_length_eq_zero (by omega)
          subst this
          refine ⟨by simp, ?_, fun _ => ⟨RuneStart_lead b0 (by omega) (by omega), hb2, by rw [h0]; simp [hd2.1]⟩, fun h => absurd h hc, fun h => absurd h hc⟩
          intro y hy
          simp only [List.mem_cons, List.mem_singleton, List.not_mem_nil, or_false] at hy
          rcases hy with rfl | rfl | rfl
          · exact ⟨a3, by omega⟩
          · exact ⟨a7, by omega⟩
          · exact ⟨a9, by omega⟩

/-! ## Sequences of runes -/

theorem joinChunks_append (a b : List (Nat × GoString)) :
    joinChunks (a ++ b) = joinChunks a ++ joinChunks b := by
  induction a with
  | nil => rfl
  | cons c cs ih => simp [joinChunks, ih]

theorem Chunked_append (a b : List (Nat × GoString)) (tail : GoString) :
    Chunked (a ++ b) tail ↔ Chunked a (joinChunks b ++ tail) ∧ Chunked b tail := by
  induction a with
  | nil => simp [Chunked]
  | cons c cs ih =>
    have e : (c :: cs) ++ b = c :: (cs ++ b) := rfl
    rw [e]
    constructor
    · rintro ⟨h1, h2, h3⟩
      obtain ⟨h4, h5⟩ := ih.1 h3
      refine ⟨⟨h1, ?_, h4⟩, h5⟩
      rw [joinChunks_append, List.append_assoc] at h2
      exact h2
    · rintro ⟨⟨h1, h2, h3⟩, h4⟩
      refine ⟨h1, ?_, ih.2 ⟨h3, h4⟩⟩
      rw [joinChunks_append, List.append_assoc]
      exact h2

/-- Dropping the text that follows keeps a decoding valid. -/
theorem Chunked_drop_tail (cs : List (Nat × GoString)) (tail : GoString) (h : Chunked cs tail) :
    Chunked cs [] := by
  induction cs with
  | nil => trivial
  | cons c cs ih =>
    obtain ⟨hne, hd, hrest⟩ := h
    refine ⟨hne, ?_, ih hrest⟩
    rw [List.append_nil]
    obtain ⟨b0, conts, hbs, _, _, hmulti, hascii, herr⟩ := chunk_shape c.2 _ c.1 hne hd
    by_cases hc : conts = []
    · subst hc
      rw [hbs] at hd ⊢
      by_cases hb : b0 < 0x80
      · rw [List.cons_append, DecodeRune_ascii b0 _ hb] at hd ⊢
        exact hd
      · have hb2 : 0x80 ≤ b0 := by omega
        have hr := herr rfl hb2
        rw [hr]
        simp only [List.cons_append, List.nil_append, List.length_cons, List.length_nil]
        rcases DecodeRune_cases b0 (joinChunks cs) hb2 with h0 | ⟨s1, t1, he, a1, a2, a3, a4, h0⟩ |
            ⟨s1, s2, t1, he, a1, a2, a3, a4, a5, a6, a7, a8, h0⟩ |
            ⟨s1, s2, s3, t1, he, a1, a2, a3, a4, a5, a6, a7, a8, a9, a10, h0⟩
        · exact h0
        · exfalso
          have := DecodeRune_two b0 s1 (t1 ++ tail) a1 a2 a3 a4
          rw [List.cons_append, List.nil_append, he] at hd
          simp only [List.cons_append] at hd
          rw [this] at hd
          simp at hd
        · exfalso
          have := DecodeRune_three b0 s1 s2 (t1 ++ tail) a1 a2 a3 a4 a5 a6 a7 a8
          rw [List.cons_append, List.nil_append, he] at hd
          simp only [List.cons_append] at hd
          rw [this] at hd
          simp at hd
        · exfalso
          have := DecodeRune_four b0 s1 s2 s3 (t1 ++ tail) a1 a2 a3 a4 a5 a6 a7 a8 a9 a10
          rw [List.cons_append, List.nil_append, he] at hd
          simp only [List.cons_append] at hd
          rw [this] at hd
          simp at hd
    · have hk : 2 ≤ c.2.length := by
        rw [hbs]
        cases conts with
        | nil => exact absurd rfl hc
        | cons _ _ => simp
      have h1 := (DecodeRune_span c.2 _ c.1 _ hk (le_refl _)).1 hd
      exact (DecodeRune_span c.2 _ c.1 _ hk (le_refl _)).2 h1

/-- The runes of a string decode it, and their bytes make up the string. -/
theorem runeChunks_spec (f : Nat) : ∀ s : GoString, s.length ≤ f →
    Chunked (runeChunks f s) [] ∧ joinChunks (runeChunks f s) = s := by
  induction f with
  | zero =>
    intro s hs
    have : s = [] := List.eq_nil_of_length_eq_zero (by omega)
    subst this
    exact ⟨trivial, rfl⟩
  | succ f ih =>
    intro s hs
    cases s with
    | nil => exact ⟨trivial, rfl⟩
    | cons b rest =>
      have hsz := DecodeRune_size b rest
      have hdrop : ((b :: rest).drop (DecodeRune (b :: rest)).2).length ≤ f := by
        rw [List.length_drop]
        simp only [List.length_cons] at hs hsz ⊢
        omega
      obtain ⟨i1, i2⟩ := ih _ hdrop
      simp only [runeChunks, Chunked, joinChunks, i2, List.append_nil, List.take_append_drop]
      refine ⟨⟨?_, ?_, i1⟩, trivial⟩
      · intro h0
        have := congrArg List.length h0
        rw [List.length_take] at this
        simp only [List.length_cons, List.length_nil] at this hsz
        omega
      · rw [List.length_take]
        have : min (DecodeRune (b :: rest)).2 (b :: rest).length = (DecodeRune (b :: rest)).2 :=
          Nat.min_eq_left hsz.2
        rw [this]

/-- A byte that starts a rune is the first byte of a rune of the decoding. -/
theorem Chunked_split_at_start (pre : List (Nat × GoString)) (tail : GoString)
    (h : Chunked pre tail) : ∀ (u v : GoString) (x : Nat), joinChunks pre = u ++ x :: v →
    RuneStart x = true →
    ∃ p1 p2, pre = p1 ++ p2 ∧ joinChunks p1 = u ∧ joinChunks p2 = x :: v := by
  induction pre with
  | nil =>
    intro u v x hj _
    simp [joinChunks] at hj
  | cons c cs ih =>
    intro u v x hj hx
    obtain ⟨hne, hd, hrest⟩ := h
    obtain ⟨b0, conts, hbs, _, hconts, _, _, _⟩ := chunk_shape c.2 _ c.1 hne hd
    cases u with
    | nil => exact ⟨[], c :: cs, rfl, rfl, hj⟩
    | cons u0 u1 =>
      simp only [joinChunks, hbs, List.cons_append, List.cons.injEq] at hj
      obtain ⟨hb0, hj2⟩ := hj
      rcases List.append_eq_append_iff.1 hj2 with ⟨a1, e1, e2⟩ | ⟨c1, e1, e2⟩
      · obtain ⟨p1, p2, rfl, q1, q2⟩ := ih hrest a1 v x e2 hx
        refine ⟨c :: p1, p2, rfl, ?_, q2⟩
        simp only [joinChunks, hbs, q1, List.cons_append, e1]
        rw [hb0]
      · cases c1 with
        | nil =>
          simp only [List.append_nil, List.nil_append] at e1 e2
          obtain ⟨p1, p2, rfl, q1, q2⟩ := ih hrest [] v x (by rw [← e2]; rfl) hx
          refine ⟨c :: p1, p2, rfl, ?_, q2⟩
          simp only [joinChunks, hbs, q1, List.cons_append, e1, List.append_nil]
          rw [hb0]
        | cons y c2 =>
          exfalso
          simp only [List.cons_append, List.cons.injEq] at e2
          have hy : x ∈ conts := by rw [e1, e2.1]; simp
          have hr := hconts x hy
          have := RuneStart_continuation x hr.2 hr.1
          rw [this] at hx
          exact Bool.noConfusion hx

theorem scanStart_le (s : GoString) (lim : Nat) : ∀ k, scanStart s lim k ≤ k := by
  intro k
  induction k with
  | zero => simp [scanStart]
  | succ k ih =>
    simp only [scanStart]
    split_ifs <;> omega

theorem getD_append_cons (u : GoString) (x : Nat) (w : GoString) :
    (u ++ x :: w).getD u.length 0 = x := by
  induction u with
  | nil => rfl
  | cons a u ih => simpa using ih

/-- The backward scan stops at the lead byte of a rune whose other bytes are
continuation bytes. -/
theorem scanStart_found (u : GoString) (b0 lim : Nat) (hb : RuneStart b0 = true)
    (hl : lim ≤ u.length) : ∀ (m w : GoString), (∀ y ∈ m, 0x80 ≤ y ∧ y < 0xC0) →
    scanStart (u ++ b0 :: (m ++ w)) lim (u.length + 1 + m.length) = u.length + 1 := by
  intro m
  induction m using List.reverseRecOn with
  | nil =>
    intro w _
    have hlt : ¬ u.length < lim := by omega
    simp only [List.length_nil, Nat.add_zero, List.nil_append, scanStart, hlt, if_false,
      getD_append_cons, hb, if_true]
  | append_singleton m y ih =>
    intro w hm
    have hy := hm y (by simp)
    have hm2 : ∀ z ∈ m, 0x80 ≤ z ∧ z < 0xC0 := fun z hz => hm z (by simp [hz])
    have hlt : ¬ u.length + 1 + m.length < lim := by omega
    have hget : (u ++ b0 :: (m ++ [y] ++ w)).getD (u.length + 1 + m.length) 0 = y := by
      have e : u ++ b0 :: (m ++ [y] ++ w) = (u ++ b0 :: m) ++ y :: w := by simp
      have l : u.length + 1 + m.length = (u ++ b0 :: m).length := by simp; omega
      rw [e, l, getD_append_cons]
    have hrs := RuneStart_continuation y hy.2 hy.1
    have e2 : u.length + 1 + (m ++ [y]).length = (u.length + 1 + m.length) + 1 := by
      simp; omega
    rw [e2, scanStart]
    simp only [hlt, if_false, hget, hrs, Bool.false_eq_true]
    have := ih (y :: w) hm2
    simp only [List.append_assoc, List.singleton_append] at this ⊢
    exact this

theorem joinChunks_eq_nil (cs : List (Nat × GoString)) (tail : GoString) (h : Chunked cs tail)
    (hj : joinChunks cs = []) : cs = [] := by
  cases cs with
  | nil => rfl
  | cons c cs =>
    exfalso
    simp only [joinChunks, List.append_eq_nil] at hj
    exact h.1 hj.1

theorem DecodeRune_single (b : Nat) (hb : 0x80 ≤ b) : DecodeRune [b] = (RuneError, 1) := by
  rcases DecodeRune_cases b [] hb with h0 | ⟨s1, t1, he, _⟩ | ⟨s1, s2, t1, he, _⟩ |
      ⟨s1, s2, s3, t1, he, _⟩
  · exact h0
  all_goals cases he

/-- Decoding backwards from the end of a rune of the decoding finds that rune. -/
theorem DecodeLastRune_chunk (pre : List (Nat × GoString)) (c : Nat × GoString)
    (tail : GoString) (h : Chunked (pre ++ [c]) tail) :
    DecodeLastRune (joinChunks pre ++ c.2) = (c.1, c.2.length) := by
  obtain ⟨hpre, hc⟩ := (Chunked_append pre [c] tail).1 h
  obtain ⟨hne, hd, _⟩ := hc
  simp only [joinChunks, List.nil_append] at hd
  obtain ⟨b0, conts, hbs, hlen, hconts, hmulti, hascii, herr⟩ := chunk_shape c.2 _ c.1 hne hd
  rw [hbs]
  by_cases hcn : conts = []
  · subst hcn
    have hlast : (joinChunks pre ++ [b0]).getD (joinChunks pre).length 0 = b0 :=
      getD_append_cons _ _ _
    by_cases hb : b0 < 0x80
    · rw [hascii rfl hb]
      unfold DecodeLastRune
      simp only [List.length_append, List.length_cons, List.length_nil, Nat.add_sub_cancel,
        hlast, hb, if_true]
      simp
    · have hb2 : 0x80 ≤ b0 := by omega
      rw [herr rfl hb2]
      unfold DecodeLastRune
      simp only [List.length_append, List.length_cons, List.length_nil, Nat.add_sub_cancel,
        hlast, hb, if_false]
      rw [if_neg (by omega)]
      generalize hst : scanStart (joinChunks pre ++ [b0]) ((joinChunks pre).length + 1 - 4)
        (joinChunks pre).length - 1 = start
      have hstle : start ≤ (joinChunks pre).length := by
        have := scanStart_le (joinChunks pre ++ [b0]) ((joinChunks pre).length + 1 - 4)
          (joinChunks pre).length
        omega
      rcases hdr : DecodeRune ((joinChunks pre ++ [b0]).drop start) with ⟨r1, size1⟩
      simp only []
      by_cases hend : start + size1 ≠ (joinChunks pre).length + 1
      · rw [if_pos hend]
      · rw [if_neg hend]
        have hend2 : start + size1 = (joinChunks pre).length + 1 := by omega
        have hdl : ((joinChunks pre ++ [b0]).drop start).length = size1 := by
          rw [List.length_drop]; simp only [List.length_append, List.length_cons,
            List.length_nil]; omega
        by_cases h1 : size1 = 1
        · have hs : start = (joinChunks pre).length := by omega
          rw [hs, List.drop_left, DecodeRune_single b0 hb2] at hdr
          exact hdr.symm
        · exfalso
          cases hx : (joinChunks pre ++ [b0]).drop start with
          | nil => rw [hx] at hdl; simp at hdl; omega
          | cons y rest1 =>
            rw [hx] at hdr hdl
            have hsz := DecodeRune_size y rest1
            rw [hdr] at hsz
            have hk : 2 ≤ size1 := by omega
            have hdr2 : DecodeRune ((y :: rest1) ++ []) = (r1, (y :: rest1).length) := by
              rw [List.append_nil, hdl]; exact hdr
            obtain ⟨y0, conts1, hys, _, _, hmulti1, _, _⟩ :=
              chunk_shape (y :: rest1) [] r1 (by simp) hdr2
            simp only [List.cons.injEq] at hys
            obtain ⟨rfl, rfl⟩ := hys
            have hcne : rest1 ≠ [] := by
              intro h0; rw [h0] at hdl; simp at hdl; omega
            have hrs := (hmulti1 hcne).1
            have hjoin : joinChunks (pre ++ [c]) = (joinChunks pre ++ [b0]).take start
                ++ y :: rest1 := by
              rw [← hx, List.take_append_drop, joinChunks_append]
              simp [joinChunks, hbs]
            obtain ⟨p1, p2, hpp, _, hq2⟩ := Chunked_split_at_start _ tail h _ _ _ hjoin hrs
            rw [hpp] at h
            obtain ⟨_, hp2⟩ := (Chunked_append p1 p2 tail).1 h
            cases p2 with
            | nil => simp [joinChunks] at hq2
            | cons d p3 =>
              obtain ⟨hdne, hdd, hp3⟩ := hp2
              simp only [joinChunks] at hq2
              have hext : DecodeRune ((y :: rest1) ++ tail) = (r1, size1) :=
                (DecodeRune_span (y :: rest1) tail r1 size1 hk (by omega)).2 hdr
              rw [← hq2, List.append_assoc, hdd] at hext
              simp only [Prod.mk.injEq] at hext
              have hl3 : (joinChunks p3).length = 0 := by
                have := congrArg List.length hq2
                simp only [List.length_append] at this
                omega
              have hp3nil := joinChunks_eq_nil p3 tail hp3 (List.eq_nil_of_length_eq_zero hl3)
              subst hp3nil
              have hcd : c = d := by
                have := List.append_inj_right' hpp (by simp)
                simpa using this
              subst hcd
              rw [hbs] at hext
              simp only [List.length_cons, List.length_nil] at hext
              omega
  · obtain ⟨hrs, hb2, hdec⟩ := hmulti hcn
    obtain ⟨m, z, rfl⟩ : ∃ m z, conts = m ++ [z] := by
      rcases List.eq_nil_or_concat conts with h0 | ⟨m, z, h0⟩
      · exact absurd h0 hcn
      · exact ⟨m, z, by rw [h0, List.concat_eq_append]⟩
    have hz := hconts z (by simp)
    have hm : ∀ y ∈ m, 0x80 ≤ y ∧ y < 0xC0 := fun y hy => hconts y (by simp [hy])
    have hlen2 : m.length ≤ 2 := by simp at hlen; omega
    have he : (joinChunks pre ++ b0 :: (m ++ [z])).length
        = (joinChunks pre).length + 1 + m.length + 1 := by
      simp; omega
    have hlast : (joinChunks pre ++ b0 :: (m ++ [z])).getD
        ((joinChunks pre).length + 1 + m.length) 0 = z := by
      have e : joinChunks pre ++ b0 :: (m ++ [z]) = (joinChunks pre ++ b0 :: m) ++ z :: [] := by
        simp
      have l : (joinChunks pre).length + 1 + m.length = (joinChunks pre ++ b0 :: m).length := by
        simp; omega
      rw [e, l, getD_append_cons]
    have hscan := scanStart_found (joinChunks pre) b0
      ((joinChunks pre).length + 1 + m.length + 1 - 4) hrs (by omega) m [z] hm
    unfold DecodeLastRune
    simp only [he, Nat.add_sub_cancel, hlast, hscan]
    rw [if_neg (by omega), if_neg (by omega), List.drop_left]
    rw [hbs] at hdec
    rw [hdec]
    simp only [List.length_cons, List.length_append, List.length_nil]
    rw [if_neg (by omega)]


/-! ## The trimming loops on a decoded string -/

theorem Chunked_length_le (cs : List (Nat × GoString)) (tail : GoString) (h : Chunked cs tail) :
    cs.length ≤ (joinChunks cs).length := by
  induction cs with
  | nil => simp
  | cons c cs ih =>
    obtain ⟨hne, _, hrest⟩ := h
    have := ih hrest
    have h1 : 1 ≤ c.2.length := List.length_pos.2 hne
    simp only [joinChunks, List.length_cons, List.length_append]
    omega

/-- The forward loop of `indexFunc` stops at the first rune that is no white
space. -/
theorem indexFuncFrom_chunks (cs : List (Nat × GoString)) (h : Chunked cs []) :
    ∀ fuel i, cs.length ≤ fuel →
    indexFuncFrom IsSpace false fuel (joinChunks cs) i
      = if cs.dropWhile (fun p => IsSpace p.1) = [] then none
        else some (i + (joinChunks (cs.takeWhile fun p => IsSpace p.1)).length) := by
  induction cs with
  | nil =>
    intro fuel i _
    cases fuel <;> simp [joinChunks, indexFuncFrom]
  | cons c cs ih =>
    intro fuel i hf
    obtain ⟨hne, hd, hrest⟩ := h
    obtain ⟨f, rfl⟩ : ∃ f, fuel = f + 1 := ⟨fuel - 1, by simp at hf; omega⟩
    have hf2 : cs.length ≤ f := by simpa using hf
    rw [List.append_nil] at hd
    cases hx : c.2 ++ joinChunks cs with
    | nil =>
      exfalso
      simp only [List.append_eq_nil] at hx
      exact hne hx.1
    | cons b rest =>
      have hdrop : (b :: rest).drop c.2.length = joinChunks cs := by
        rw [← hx, List.drop_left]
      simp only [joinChunks, hx, indexFuncFrom]
      rw [← hx, hd, hx]
      simp only [hdrop]
      by_cases hsp : IsSpace c.1 = true
      · have e1 : (c :: cs).dropWhile (fun p => IsSpace p.1)
            = cs.dropWhile (fun p => IsSpace p.1) := by
          simp [List.dropWhile_cons, hsp]
        have e2 : (c :: cs).takeWhile (fun p => IsSpace p.1)
            = c :: cs.takeWhile (fun p => IsSpace p.1) := by
          simp [List.takeWhile_cons, hsp]
        rw [e1, e2]
        simp only [hsp, joinChunks, List.length_append]
        rw [if_neg (by simp), ih hrest f (i + c.2.length) hf2]
        split_ifs
        · rfl
        · simp only [Option.some.injEq]; omega
      · have hsp2 : IsSpace c.1 = false := by simpa using hsp
        have e1 : (c :: cs).dropWhile (fun p => IsSpace p.1) = c :: cs := by
          simp [List.dropWhile_cons, hsp2]
        have e2 : (c :: cs).takeWhile (fun p => IsSpace p.1) = [] := by
          simp [List.takeWhile_cons, hsp2]
        rw [e1, e2]
        simp [hsp2, joinChunks]

theorem TrimLeftFunc_chunks (cs : List (Nat × GoString)) (h : Chunked cs []) :
    TrimLeftFunc (joinChunks cs) IsSpace = joinChunks (cs.dropWhile fun p => IsSpace p.1) := by
  unfold TrimLeftFunc
  rw [indexFuncFrom_chunks cs h _ 0 (Chunked_length_le cs [] h)]
  by_cases hnil : cs.dropWhile (fun p => IsSpace p.1) = []
  · simp [hnil, joinChunks]
  · simp only [hnil, if_false, Nat.zero_add]
    have e : joinChunks cs = joinChunks (cs.takeWhile fun p => IsSpace p.1)
        ++ joinChunks (cs.dropWhile fun p => IsSpace p.1) := by
      rw [← joinChunks_append, List.takeWhile_append_dropWhile]
    conv_lhs => rw [e]
    rw [List.drop_left]

/-- The backward loop of `lastIndexFunc` stops at the last rune that is no
white space. -/
theorem lastIndexFuncFrom_chunks (pre : List (Nat × GoString)) :
    ∀ (suf : List (Nat × GoString)), Chunked (pre ++ suf) [] → ∀ fuel, pre.length ≤ fuel →
    lastIndexFuncFrom IsSpace false (joinChunks (pre ++ suf)) fuel (joinChunks pre).length
      = if pre.rdropWhile (fun p => IsSpace p.1) = [] then none
        else some (joinChunks (pre.rdropWhile fun p => IsSpace p.1).dropLast).length := by
  induction pre using List.reverseRecOn with
  | nil =>
    intro suf _ fuel _
    cases fuel <;> simp [joinChunks, lastIndexFuncFrom]
  | append_singleton p c ih =>
    intro suf h fuel hf
    obtain ⟨f, rfl⟩ : ∃ f, fuel = f + 1 := ⟨fuel - 1, by simp at hf; omega⟩
    have hf2 : p.length ≤ f := by simp at hf; omega
    have hch : Chunked (p ++ [c]) (joinChunks suf ++ []) :=
      ((Chunked_append (p ++ [c]) suf []).1 h).1
    have hcne : c.2 ≠ [] := ((Chunked_append p [c] _).1 hch).2.1
    have hlast := DecodeLastRune_chunk p c _ hch
    have hpos : (joinChunks (p ++ [c])).length > 0 := by
      rw [joinChunks_append]
      simp only [joinChunks, List.append_nil, List.length_append]
      have := List.length_pos.2 hcne
      omega
    have htake : (joinChunks (p ++ [c] ++ suf)).take (joinChunks (p ++ [c])).length
        = joinChunks p ++ c.2 := by
      rw [joinChunks_append (p ++ [c]) suf, List.take_left, joinChunks_append]
      simp [joinChunks]
    have hsub : (joinChunks (p ++ [c])).length - c.2.length = (joinChunks p).length := by
      rw [joinChunks_append]
      simp [joinChunks]
    rw [lastIndexFuncFrom]
    simp only [hpos, if_true, htake, hlast, hsub]
    by_cases hsp : IsSpace c.1 = true
    · rw [List.rdropWhile_concat_pos (fun q : Nat × GoString => IsSpace q.1) p c hsp]
      simp only [hsp]
      rw [if_neg (by simp)]
      have e : p ++ [c] ++ suf = p ++ ([c] ++ suf) := by simp
      rw [e] at h ⊢
      exact ih ([c] ++ suf) h f hf2
    · have hsp2 : IsSpace c.1 = false := by simpa using hsp
      rw [List.rdropWhile_concat_neg (fun q : Nat × GoString => IsSpace q.1) p c hsp]
      simp [hsp2]

theorem TrimRightFunc_chunks (cs : List (Nat × GoString)) (h : Chunked cs []) :
    TrimRightFunc (joinChunks cs) IsSpace = joinChunks (cs.rdropWhile fun p => IsSpace p.1) := by
  have hl := lastIndexFuncFrom_chunks cs [] (by rw [List.append_nil]; exact h)
    (joinChunks cs).length (Chunked_length_le cs [] h)
  rw [List.append_nil] at hl
  unfold TrimRightFunc
  rw [hl]
  by_cases hnil : cs.rdropWhile (fun p => IsSpace p.1) = []
  · simp [hnil, joinChunks]
  · simp only [hnil, if_false]
    obtain ⟨rest1, hrest1⟩ := List.rdropWhile_prefix (fun p : Nat × GoString => IsSpace p.1) cs
    have hR := List.dropLast_append_getLast hnil
    generalize hq : (cs.rdropWhile fun p => IsSpace p.1).dropLast = q at hR ⊢
    generalize hc : (cs.rdropWhile fun p => IsSpace p.1).getLast hnil = c at hR
    have hcs : cs = q ++ ([c] ++ rest1) := by
      rw [← hrest1, ← hR]; simp
    have hch : Chunked (c :: rest1) [] := by
      rw [hcs] at h
      exact ((Chunked_append q ([c] ++ rest1) []).1 h).2
    obtain ⟨hne, hd, _⟩ := hch
    have hjoin : joinChunks cs = joinChunks q ++ (c.2 ++ joinChunks rest1) := by
      rw [hcs, joinChunks_append]; rfl
    rw [List.append_nil] at hd
    have hdrop : (joinChunks cs).drop (joinChunks q).length = c.2 ++ joinChunks rest1 := by
      rw [hjoin, List.drop_left]
    have htake : (joinChunks cs).take ((joinChunks q).length + c.2.length)
        = joinChunks (cs.rdropWhile fun p => IsSpace p.1) := by
      rw [← hR, joinChunks_append, hjoin, ← List.append_assoc]
      have : (joinChunks q).length + c.2.length = (joinChunks q ++ c.2).length := by simp
      rw [this, List.take_left]
      simp [joinChunks]
    simp only [hdrop, hd]
    cases hx : c.2 with
    | nil => exact absurd hx hne
    | cons b0 conts =>
      have hget : (joinChunks cs).getD (joinChunks q).length 0 = b0 := by
        rw [hjoin, hx, List.cons_append, getD_append_cons]
      rw [hget]
      by_cases hb : b0 ≥ 0x80
      · rw [if_pos hb, ← hx, htake]
      · rw [if_neg hb]
        rw [hx, List.cons_append, DecodeRune_ascii b0 _ (by omega)] at hd
        simp only [Prod.mk.injEq] at hd
        have h1 : c.2.length = 1 := by rw [hx]; exact hd.2.symm
        rw [← htake, h1]

theorem TrimFunc_chunks (cs : List (Nat × GoString)) (h : Chunked cs []) :
    TrimFunc (joinChunks cs) IsSpace
      = joinChunks ((cs.dropWhile fun p => IsSpace p.1).rdropWhile fun p => IsSpace p.1) := by
  unfold TrimFunc
  rw [TrimLeftFunc_chunks cs h]
  apply TrimRightFunc_chunks
  have e := List.takeWhile_append_dropWhile (fun p : Nat × GoString => IsSpace p.1) cs
  rw [← e] at h
  exact ((Chunked_append _ _ []).1 h).2

set_option maxRecDepth 100000 in
theorem IsSpace_ascii : ∀ b < 0x80, IsSpace b = asciiSpace b := by decide

/-- A rune of the decoding that begins with an ASCII byte is that byte. -/
theorem chunk_ascii (c : Nat × GoString) (rest : GoString) (b0 : Nat) (conts : GoString)
    (hx : c.2 = b0 :: conts) (hb : b0 < 0x80)
    (hd : DecodeRune (c.2 ++ rest) = (c.1, c.2.length)) : conts = [] ∧ c.1 = b0 := by
  rw [hx, List.cons_append, DecodeRune_ascii b0 _ hb] at hd
  simp only [Prod.mk.injEq, List.length_cons] at hd
  exact ⟨List.eq_nil_of_length_eq_zero (by omega), hd.1.symm⟩

/-- The backward ASCII loop of `TrimSpace`. -/
theorem trimSpaceStop_chunks (pre : List (Nat × GoString)) :
    ∀ (suf : List (Nat × GoString)), Chunked (pre ++ suf) [] →
    trimSpaceStop (joinChunks (pre ++ suf)) (joinChunks pre).length
      = joinChunks (pre.rdropWhile fun p => IsSpace p.1) := by
  induction pre using List.reverseRecOn with
  | nil =>
    intro suf _
    simp [joinChunks, trimSpaceStop]
  | append_singleton p c ih =>
    intro suf h
    have hch : Chunked (p ++ [c]) (joinChunks suf ++ []) :=
      ((Chunked_append (p ++ [c]) suf []).1 h).1
    obtain ⟨hne, hd, _⟩ := ((Chunked_append p [c] _).1 hch).2
    simp only [joinChunks, List.nil_append] at hd
    obtain ⟨b0, conts, hbs, _, hconts, _, _, _⟩ := chunk_shape c.2 _ c.1 hne hd
    have htake : (joinChunks (p ++ [c] ++ suf)).take (joinChunks (p ++ [c])).length
        = joinChunks (p ++ [c]) := by
      rw [joinChunks_append (p ++ [c]) suf, List.take_left]
    have hlen : (joinChunks (p ++ [c])).length = ((joinChunks p).length + conts.length) + 1 := by
      rw [joinChunks_append]
      simp [joinChunks, hbs]
      omega
    -- the last byte of the rune
    obtain ⟨m, z, hmz⟩ : ∃ m z, b0 :: conts = m ++ [z] := by
      rcases List.eq_nil_or_concat (b0 :: conts) with h0 | ⟨m, z, h0⟩
      · cases h0
      · exact ⟨m, z, by rw [h0, List.concat_eq_append]⟩
    have hml : m.length = conts.length := by
      have := congrArg List.length hmz
      simp at this; omega
    have hget : (joinChunks (p ++ [c] ++ suf)).getD ((joinChunks p).length + conts.length) 0
        = z := by
      have e : joinChunks (p ++ [c] ++ suf) = (joinChunks p ++ m) ++ z :: joinChunks suf := by
        rw [joinChunks_append (p ++ [c]) suf, joinChunks_append]
        simp only [joinChunks, List.append_nil, hbs, hmz]
        simp
      have l : (joinChunks p).length + conts.length = (joinChunks p ++ m).length := by
        simp [hml]
      rw [e, l, getD_append_cons]
    rw [hlen, trimSpaceStop]
    simp only [hget]
    by_cases hz : z ≥ 0x80
    · rw [if_pos hz, ← hlen, htake]
      exact TrimRightFunc_chunks _ (Chunked_drop_tail _ _ hch)
    · rw [if_neg hz]
      have hcn : conts = [] := by
        cases hcc : conts with
        | nil => rfl
        | cons y ys =>
          exfalso
          have hzin : z ∈ conts := by
            rw [hcc] at hmz
            cases m with
            | nil => simp at hmz
            | cons m0 m1 =>
              simp only [List.cons_append, List.cons.injEq] at hmz
              rw [hcc, hmz.2]; simp
          have := (hconts z hzin).1
          omega
      subst hcn
      have hzb : z = b0 := by
        cases m with
        | nil => simp at hmz; exact hmz.symm
        | cons m0 m1 => simp at hml
      subst hzb
      obtain ⟨_, hc1⟩ := chunk_ascii c _ z [] hbs (by omega) hd
      have hsp : IsSpace c.1 = asciiSpace z := by rw [hc1]; exact IsSpace_ascii z (by omega)
      by_cases hs : asciiSpace z = true
      · rw [if_neg (by simp [hs])]
        rw [List.rdropWhile_concat_pos (fun q : Nat × GoString => IsSpace q.1) p c
          (by show IsSpace c.1 = true; rw [hsp]; exact hs)]
        have e : p ++ [c] ++ suf = p ++ ([c] ++ suf) := by simp
        rw [e] at h ⊢
        simpa using ih ([c] ++ suf) h
      · have hs2 : asciiSpace z = false := by simpa using hs
        rw [if_pos (by simp [hs2])]
        rw [List.rdropWhile_concat_neg (fun q : Nat × GoString => IsSpace q.1) p c
          (by show ¬ IsSpace c.1 = true; rw [hsp]; simp [hs2])]
        have : (joinChunks p).length + ([] : GoString).length + 1
            = (joinChunks (p ++ [c])).length := by rw [hlen]
        rw [this, htake]

/-- On a decoded string `TrimSpace` drops the white-space runes at both ends. -/
theorem TrimSpace_chunks (cs : List (Nat × GoString)) : Chunked cs [] →
    TrimSpace (joinChunks cs)
      = joinChunks ((cs.dropWhile fun p => IsSpace p.1).rdropWhile fun p => IsSpace p.1) := by
  induction cs with
  | nil => intro _; rfl
  | cons c cs ih =>
    intro h
    obtain ⟨hne, hd, hrest⟩ := h
    cases hx : c.2 with
    | nil => exact absurd hx hne
    | cons b0 conts =>
      by_cases hb : b0 ≥ 0x80
      · have e : joinChunks (c :: cs) = b0 :: (conts ++ joinChunks cs) := by
          simp [joinChunks, hx]
        have hT : TrimSpace (joinChunks (c :: cs)) = TrimFunc (joinChunks (c :: cs)) IsSpace := by
          rw [e, TrimSpace, if_pos hb]
        rw [hT]
        exact TrimFunc_chunks _ ⟨hne, hd, hrest⟩
      · obtain ⟨hcn, hc1⟩ := chunk_ascii c _ b0 conts hx (by omega) hd
        subst hcn
        have e : joinChunks (c :: cs) = b0 :: joinChunks cs := by
          simp [joinChunks, hx]
        have hsp : IsSpace c.1 = asciiSpace b0 := by rw [hc1]; exact IsSpace_ascii b0 (by omega)
        by_cases hs : asciiSpace b0 = true
        · have hT : TrimSpace (joinChunks (c :: cs)) = TrimSpace (joinChunks cs) := by
            rw [e, TrimSpace, if_neg hb, if_neg (by simp [hs])]
          have e1 : (c :: cs).dropWhile (fun p => IsSpace p.1)
              = cs.dropWhile (fun p => IsSpace p.1) := by
            simp [List.dropWhile_cons, hsp, hs]
          rw [hT, e1]
          exact ih hrest
        · have hs2 : asciiSpace b0 = false := by simpa using hs
          have hT : TrimSpace (joinChunks (c :: cs))
              = trimSpaceStop (joinChunks (c :: cs)) (joinChunks (c :: cs)).length := by
            rw [e, TrimSpace, if_neg hb, if_pos (by simp [hs2])]
          have e1 : (c :: cs).dropWhile (fun p => IsSpace p.1) = c :: cs := by
            simp [List.dropWhile_cons, hsp, hs2]
          rw [hT, e1]
          have := trimSpaceStop_chunks (c :: cs) [] (by rw [List.append_nil]; exact ⟨hne, hd, hrest⟩)
          rw [List.append_nil] at this
          exact this

/-- The function `strings.TrimSpace` removes exactly the white-space runes at the front and
at the back of the string. -/
theorem TrimSpace_eq_trimmedOfSpace (s : GoString) : TrimSpace s = trimmedOfSpace s := by
  obtain ⟨h1, h2⟩ := runeChunks_spec s.length s (le_refl _)
  unfold trimmedOfSpace
  rw [← TrimSpace_chunks _ h1, h2]

/-! ## Lemmas on masks -/

theorem testBit_cidrMaskByte_low : ∀ k < 8, ∀ j < 8,
    (cidrMaskByte k).testBit j = decide (8 - k ≤ j) := by decide

theorem cidrMaskByte_lt (k : Nat) : cidrMaskByte k < 256 := by
  unfold cidrMaskByte
  split_ifs
  · decide
  · exact Nat.lt_of_le_of_lt (Nat.sub_le _ _) (by decide)

theorem testBit_cidrMaskByte (k j : Nat) :
    (cidrMaskByte k).testBit j = decide (j < 8 ∧ 8 - k ≤ j) := by
  by_cases hj : j < 8
  · by_cases hk : k < 8
    · rw [testBit_cidrMaskByte_low k hk j hj]; simp [hj]
    · have : cidrMaskByte k = 2 ^ 8 - 1 := by
        unfold cidrMaskByte; rw [if_pos (by omega)]; rfl
      rw [this, Nat.testBit_two_pow_sub_one]
      have : 8 - k ≤ j := by omega
      simp [hj, this]
  · have h1 : cidrMaskByte k < 2 ^ j := by
      have := cidrMaskByte_lt k
      have : 2 ^ 8 ≤ 2 ^ j := Nat.pow_le_pow_right (by decide) (by omega)
      omega
    rw [Nat.testBit_lt_two_pow h1]
    simp [hj]

/-- Two bytes agree under a prefix mask when their leading bits agree. -/
theorem masked_byte_eq_iff (a x k : Nat) :
    (a &&& cidrMaskByte k) &&& cidrMaskByte k = x &&& cidrMaskByte k ↔
      ∀ j, j < 8 → j < k → x.testBit (7 - j) = a.testBit (7 - j) := by
  constructor
  · intro h j hj hk
    have := congrArg (fun n => Nat.testBit n (7 - j)) h
    simp only [Nat.testBit_and, testBit_cidrMaskByte] at this
    have hd : decide (7 - j < 8 ∧ 8 - k ≤ 7 - j) = true := by
      simp only [decide_eq_true_eq]; omega
    rw [hd] at this
    simpa using this.symm
  · intro h
    apply Nat.eq_of_testBit_eq
    intro i
    simp only [Nat.testBit_and, testBit_cidrMaskByte]
    by_cases hi : i < 8 ∧ 8 - k ≤ i
    · have hd : decide (i < 8 ∧ 8 - k ≤ i) = true := by simpa using hi
      rw [hd]
      have := h (7 - i) (by omega) (by omega)
      have e : 7 - (7 - i) = i := by omega
      rw [e] at this
      simp [this]
    · have hd : decide (i < 8 ∧ 8 - k ≤ i) = false := by simpa using hi
      rw [hd]
      simp

/-- Byte-wise agreement under the mask of prefix length `ones` is agreement on
the first `ones` bits. -/
theorem masked_all_iff (l ones : Nat) (a x : Nat → Nat) (h : ones ≤ 8 * l) :
    (∀ i < l, (a i &&& cidrMaskByte (ones - 8 * i)) &&& cidrMaskByte (ones - 8 * i)
        = x i &&& cidrMaskByte (ones - 8 * i)) ↔
      ∀ t < ones, (x (t / 8)).testBit (7 - t % 8) = (a (t / 8)).testBit (7 - t % 8) := by
  constructor
  · intro hb t ht
    have hi : t / 8 < l := by omega
    exact (masked_byte_eq_iff _ _ _).1 (hb (t / 8) hi) (t % 8) (Nat.mod_lt _ (by decide))
      (by omega)
  · intro hbits i hi
    apply (masked_byte_eq_iff _ _ _).2
    intro j hj hk
    have := hbits (8 * i + j) (by omega)
    have e1 : (8 * i + j) / 8 = i := by omega
    have e2 : (8 * i + j) % 8 = j := by omega
    rw [e1, e2] at this
    exact this

/-! ## Lemmas on `Contains` -/

theorem getD_map_range (n : Nat) (f : Nat → Nat) (i : Nat) (h : i < n) :
    ((List.range n).map f).getD i 0 = f i := by
  rw [List.getD_eq_getElem?_getD, List.getElem?_map, List.getElem?_range h]
  rfl

theorem CIDRMask_eq (ones len : Nat) (hlen : len = 4 ∨ len = 16) (hones : ones ≤ 8 * len) :
    CIDRMask ones (8 * len) = (List.range len).map fun i => cidrMaskByte (ones - 8 * i) := by
  unfold CIDRMask
  simp only [IPv4len, IPv6len]
  have h1 : ¬ (8 * len ≠ 8 * 4 ∧ 8 * len ≠ 8 * 16) := by omega
  have h2 : ¬ ones > 8 * len := by omega
  have h3 : 8 * len / 8 = len := by omega
  simp only [h1, h2, if_false, h3]

theorem ipMask_eq (ip : IP) (mask : IPMask) (h : ip.length = mask.length) :
    ipMask ip mask = (List.range ip.length).map fun i => ip.getD i 0 &&& mask.getD i 0 := by
  unfold ipMask
  simp only [IPv4len, IPv6len]
  have h1 : ¬ (mask.length = 16 ∧ ip.length = 4 ∧ allFF (mask.take 12) = true) := by
    intro ⟨a, b, _⟩
    omega
  simp only [h1, if_false]
  have h2 : ¬ (mask.length = 4 ∧ ip.length = 16 ∧ ip.take 12 = v4InV6Prefix) := by
    intro ⟨a, b, _⟩
    omega
  simp only [h2, if_false]
  simp [h]

/-- The bytes of the network number of a parsed range. -/
theorem parseCIDRNet_bytes (addr : IP) (ones : Nat) (hlen : addr.length = 4 ∨ addr.length = 16)
    (hones : ones ≤ 8 * addr.length) :
    (parseCIDRNet addr ones).Mask
        = (List.range addr.length).map (fun i => cidrMaskByte (ones - 8 * i)) ∧
    (parseCIDRNet addr ones).IP
        = (List.range addr.length).map
            (fun i => addr.getD i 0 &&& cidrMaskByte (ones - 8 * i)) := by
  have hm := CIDRMask_eq ones addr.length hlen hones
  have hml : (CIDRMask ones (8 * addr.length)).length = addr.length :=
    CIDRMask_length ones addr.length hlen hones
  refine ⟨hm, ?_⟩
  simp only [parseCIDRNet]
  rw [ipMask_eq addr _ hml.symm]
  apply List.map_congr_left
  intro i hi
  rw [hm, getD_map_range _ _ i (List.mem_range.1 hi)]

/-- The method `Contains` compares, under the mask, the network number with the address
in its 4-byte form when it has one. -/
theorem Contains_of_network (n : IPNet) (ip nn m : List Nat)
    (h : networkNumberAndMask n = (nn, m)) :
    n.Contains ip = true ↔
      (if To4 ip ≠ [] then To4 ip else ip).length = nn.length ∧
      ∀ i < (if To4 ip ≠ [] then To4 ip else ip).length,
        nn.getD i 0 &&& m.getD i 0 = (if To4 ip ≠ [] then To4 ip else ip).getD i 0 &&& m.getD i 0 := by
  unfold IPNet.Contains
  rw [h]
  simp only []
  generalize (if To4 ip ≠ [] then To4 ip else ip) = x
  by_cases hl : x.length = nn.length
  · simp only [hl, ne_eq, not_true_eq_false, if_false, List.all_eq_true, List.mem_range,
      beq_iff_eq, true_and]
  · simp [hl]

theorem networkNumberAndMask_v4 (n : IPNet) (h1 : n.IP.length = 4) (h2 : n.Mask.length = 4) :
    networkNumberAndMask n = (n.IP, n.Mask) := by
  unfold networkNumberAndMask
  have e := To4_of_length_four n.IP h1
  have ne : n.IP ≠ [] := by intro h0; rw [h0] at h1; simp at h1
  simp [e, ne, h1, h2, IPv4len, IPv6len]

theorem To4_eq_nil_length (ip : IP) (h : To4 ip = []) : ip.length ≠ 4 := by
  intro h4
  rw [To4_of_length_four ip h4] at h
  rw [h] at h4
  simp at h4

/-- An IPv4 range contains the addresses that have a 4-byte form agreeing with
the range on its prefix. -/
theorem Contains_v4 (addr : IP) (ones : Nat) (ip : IP) (h4 : addr.length = 4)
    (hones : ones ≤ 32) :
    (parseCIDRNet addr ones).Contains ip = true ↔
      To4 ip ≠ [] ∧ ∀ t < ones, addrBit (To4 ip) t = addrBit addr t := by
  obtain ⟨hM, hI⟩ := parseCIDRNet_bytes addr ones (Or.inl h4) (by omega)
  rw [h4] at hM hI
  have hnn := networkNumberAndMask_v4 (parseCIDRNet addr ones) (by rw [hI]; simp)
    (by rw [hM]; simp)
  rw [Contains_of_network _ ip _ _ hnn]
  by_cases hip : To4 ip = []
  · simp only [hip, ne_eq, not_true_eq_false, if_false, false_and, iff_false, not_and]
    intro hl
    exfalso
    have := To4_eq_nil_length ip hip
    rw [hI] at hl
    simp at hl
    exact this hl
  · have hl4 : (To4 ip).length = 4 := by
      rcases To4_length ip with h | h
      · exact h
      · exact absurd h hip
    simp only [hip, ne_eq, not_false_eq_true, if_true, true_and, hl4]
    have hlen : (parseCIDRNet addr ones).IP.length = 4 := by rw [hI]; simp
    rw [hlen]
    simp only [true_and]
    have key := masked_all_iff 4 ones (fun i => addr.getD i 0) (fun i => (To4 ip).getD i 0)
      (by omega)
    unfold addrBit
    rw [← key]
    constructor
    · intro h i hi
      have := h i hi
      rw [hI, hM, getD_map_range _ _ i hi, getD_map_range _ _ i hi] at this
      exact this
    · intro h i hi
      rw [hI, hM, getD_map_range _ _ i hi, getD_map_range _ _ i hi]
      exact h i hi

theorem isZeros_take (n : Nat) : ∀ x : List Nat, n ≤ x.length →
    (isZeros (x.take n) = true ↔ ∀ i < n, x.getD i 0 = 0) := by
  induction n with
  | zero => intro x _; simp [isZeros]
  | succ n ih =>
    intro x hx
    cases x with
    | nil => simp at hx
    | cons a t =>
      have ht : n ≤ t.length := by simpa using hx
      have := ih t ht
      simp only [isZeros, List.take_succ_cons, List.all_cons, Bool.and_eq_true, beq_iff_eq] at this ⊢
      rw [this]
      constructor
      · rintro ⟨h0, h1⟩ i hi
        cases i with
        | zero => simpa using h0
        | succ j => simpa using h1 j (by omega)
      · intro h
        refine ⟨by simpa using h 0 (by omega), fun i hi => ?_⟩
        simpa using h (i + 1) (by omega)

/-- The 4-byte form of a 16-byte address: it exists for the IPv4-mapped
addresses and consists of the last four bytes. -/
theorem To4_v6 (x : IP) (h16 : x.length = 16) :
    (To4 x ≠ [] ↔ ((∀ i < 10, x.getD i 0 = 0) ∧ x.getD 10 0 = 0xff ∧ x.getD 11 0 = 0xff)) ∧
    (To4 x ≠ [] → To4 x = (x.drop 12).take 4) := by
  have hz := isZeros_take 10 x (by omega)
  have hne : (x.drop 12).take 4 ≠ [] := by
    intro h0
    have := congrArg List.length h0
    simp [h16] at this
  unfold To4
  simp only [IPv4len, IPv6len, h16]
  rw [if_neg (by decide)]
  split
  · rename_i hb
    simp only [Bool.and_eq_true, decide_eq_true_eq, beq_iff_eq] at hb
    exact ⟨⟨fun _ => ⟨hz.1 (by tauto), by tauto, by tauto⟩, fun _ => hne⟩, fun _ => rfl⟩
  · rename_i hb
    simp only [Bool.and_eq_true, decide_eq_true_eq, beq_iff_eq] at hb
    refine ⟨⟨fun h => absurd rfl h, fun h => ?_⟩, fun h => absurd rfl h⟩
    have := hz.2 h.1
    tauto

theorem getD_take_drop (x : List Nat) (i : Nat) (hi : i < 4) :
    ((x.drop 12).take 4).getD i 0 = x.getD (12 + i) 0 := by
  simp only [List.getD_eq_getElem?_getD, List.getElem?_take, hi, if_true, List.getElem?_drop]

theorem getD_drop (x : List Nat) (k i : Nat) : (x.drop k).getD i 0 = x.getD (k + i) 0 := by
  simp only [List.getD_eq_getElem?_getD, List.getElem?_drop]

theorem cidrMaskByte_lt_ff : ∀ k < 8, cidrMaskByte k < 0xff := by decide

theorem and_ff (a : Nat) (h : a < 256) : a &&& 0xff = a := by
  have := Nat.and_pow_two_sub_one_eq_mod a 8
  simp only [Nat.reducePow, Nat.add_one_sub_one] at this
  rw [this, Nat.mod_eq_of_lt h]

/-- The network number of a 16-byte range is IPv4-mapped exactly when the
address is and the prefix covers the mapping. -/
theorem masked_mapped_iff (addr : IP) (ones : Nat) (h16 : addr.length = 16)
    (hones : ones ≤ 128) (hb : ∀ b ∈ addr, b < 256) :
    To4 (parseCIDRNet addr ones).IP ≠ [] ↔ (To4 addr ≠ [] ∧ 96 ≤ ones) := by
  obtain ⟨_, hI⟩ := parseCIDRNet_bytes addr ones (Or.inr h16) (by omega)
  rw [h16] at hI
  have hlen : (parseCIDRNet addr ones).IP.length = 16 := by rw [hI]; simp
  rw [(To4_v6 _ hlen).1, (To4_v6 _ h16).1]
  have hget : ∀ i < 16, (parseCIDRNet addr ones).IP.getD i 0
      = addr.getD i 0 &&& cidrMaskByte (ones - 8 * i) := by
    intro i hi
    rw [hI, getD_map_range _ _ i hi]
  have hbyte : ∀ i < 16, addr.getD i 0 < 256 := by
    intro i hi
    rw [List.getD_eq_getElem?_getD, List.getElem?_eq_getElem (by omega)]
    exact hb _ (List.getElem_mem _)
  by_cases h96 : 96 ≤ ones
  · have hsame : ∀ i < 12, (parseCIDRNet addr ones).IP.getD i 0 = addr.getD i 0 := by
      intro i hi
      rw [hget i (by omega)]
      have : cidrMaskByte (ones - 8 * i) = 0xff := by
        unfold cidrMaskByte; rw [if_pos (by omega)]
      rw [this, and_ff _ (hbyte i (by omega))]
    rw [hsame 10 (by omega), hsame 11 (by omega)]
    constructor
    · rintro ⟨h1, h2, h3⟩
      exact ⟨⟨fun i hi => by rw [← hsame i (by omega)]; exact h1 i hi, h2, h3⟩, h96⟩
    · rintro ⟨⟨h1, h2, h3⟩, _⟩
      exact ⟨fun i hi => by rw [hsame i (by omega)]; exact h1 i hi, h2, h3⟩
  · constructor
    · rintro ⟨_, _, h3⟩
      exfalso
      rw [hget 11 (by omega)] at h3
      have h1 := cidrMaskByte_lt_ff (ones - 8 * 11) (by omega)
      have h2 : addr.getD 11 0 &&& cidrMaskByte (ones - 8 * 11) ≤ cidrMaskByte (ones - 8 * 11) :=
        Nat.and_le_right
      omega
    · rintro ⟨_, h⟩
      exact absurd h h96

theorem networkNumberAndMask_mapped (n : IPNet) (h2 : n.Mask.length = 16)
    (hm : To4 n.IP ≠ []) :
    networkNumberAndMask n = (To4 n.IP, n.Mask.drop 12) := by
  have h4 : (To4 n.IP).length = 4 := by
    rcases To4_length n.IP with h | h
    · exact h
    · exact absurd h hm
  unfold networkNumberAndMask
  simp [hm, h2, h4, IPv4len, IPv6len]

theorem networkNumberAndMask_v6 (n : IPNet) (h1 : n.IP.length = 16)
    (h2 : n.Mask.length = 16) (hm : To4 n.IP = []) :
    networkNumberAndMask n = (n.IP, n.Mask) := by
  unfold networkNumberAndMask
  simp [hm, h1, h2, IPv4len, IPv6len]

/-- An IPv4-mapped range of prefix length at least 96 contains the addresses
that have a 4-byte form agreeing with its last four bytes on `ones - 96` bits. -/
theorem Contains_mapped (addr : IP) (ones : Nat) (ip : IP) (h16 : addr.length = 16)
    (hones : ones ≤ 128) (hb : ∀ b ∈ addr, b < 256) (hm : To4 addr ≠ []) (h96 : 96 ≤ ones) :
    (parseCIDRNet addr ones).Contains ip = true ↔
      To4 ip ≠ [] ∧ ∀ t < ones - 96, addrBit (To4 ip) t = addrBit (To4 addr) t := by
  obtain ⟨hM, hI⟩ := parseCIDRNet_bytes addr ones (Or.inr h16) (by omega)
  rw [h16] at hM hI
  have hmm : To4 (parseCIDRNet addr ones).IP ≠ [] :=
    (masked_mapped_iff addr ones h16 hones hb).2 ⟨hm, h96⟩
  have hlenI : (parseCIDRNet addr ones).IP.length = 16 := by rw [hI]; simp
  have hnn := networkNumberAndMask_mapped (parseCIDRNet addr ones)
    (by rw [hM]; simp) hmm
  have hT := (To4_v6 _ hlenI).2 hmm
  have hTa := (To4_v6 _ h16).2 hm
  have hnn4 : (To4 (parseCIDRNet addr ones).IP).length = 4 := by
    rcases To4_length (parseCIDRNet addr ones).IP with h | h
    · exact h
    · exact absurd h hmm
  rw [Contains_of_network _ ip _ _ hnn]
  by_cases hip : To4 ip = []
  · simp only [hip, ne_eq, not_true_eq_false, if_false, false_and, iff_false, not_and]
    intro hl
    exfalso
    exact To4_eq_nil_length ip hip (by omega)
  · have hl4 : (To4 ip).length = 4 := by
      rcases To4_length ip with h | h
      · exact h
      · exact absurd h hip
    simp only [hip, ne_eq, not_false_eq_true, if_true, true_and, hl4, hnn4]
    have key := masked_all_iff 4 (ones - 96) (fun i => addr.getD (12 + i) 0)
      (fun i => (To4 ip).getD i 0) (by omega)
    have hnnget : ∀ i < 4, (To4 (parseCIDRNet addr ones).IP).getD i 0
        = addr.getD (12 + i) 0 &&& cidrMaskByte (ones - 96 - 8 * i) := by
      intro i hi
      rw [hT, getD_take_drop _ i hi, hI, getD_map_range _ _ (12 + i) (by omega)]
      have : ones - 8 * (12 + i) = ones - 96 - 8 * i := by omega
      rw [this]
    have hmget : ∀ i < 4, ((parseCIDRNet addr ones).Mask.drop 12).getD i 0
        = cidrMaskByte (ones - 96 - 8 * i) := by
      intro i hi
      rw [getD_drop, hM, getD_map_range _ _ (12 + i) (by omega)]
      have : ones - 8 * (12 + i) = ones - 96 - 8 * i := by omega
      rw [this]
    have hbits : (∀ t < ones - 96, addrBit (To4 ip) t = addrBit (To4 addr) t) ↔
        ∀ t < ones - 96, ((To4 ip).getD (t / 8) 0).testBit (7 - t % 8)
          = (addr.getD (12 + t / 8) 0).testBit (7 - t % 8) := by
      constructor
      · intro h t ht
        have := h t ht
        unfold addrBit at this
        rw [hTa, getD_take_drop _ _ (by omega)] at this
        exact this
      · intro h t ht
        unfold addrBit
        rw [hTa, getD_take_drop _ _ (by omega)]
        exact h t ht
    rw [hbits, ← key]
    constructor
    · intro h i hi
      have := h i hi
      rw [hnnget i hi, hmget i hi] at this
      exact this
    · intro h i hi
      rw [hnnget i hi, hmget i hi]
      exact h i hi

/-- Any other 16-byte range contains the 16-byte addresses without a 4-byte
form that agree with it on its prefix. -/
theorem Contains_v6 (addr : IP) (ones : Nat) (ip : IP) (h16 : addr.length = 16)
    (hones : ones ≤ 128) (hb : ∀ b ∈ addr, b < 256) (hm : ¬ (To4 addr ≠ [] ∧ 96 ≤ ones)) :
    (parseCIDRNet addr ones).Contains ip = true ↔
      To4 ip = [] ∧ ip.length = 16 ∧ ∀ t < ones, addrBit ip t = addrBit addr t := by
  obtain ⟨hM, hI⟩ := parseCIDRNet_bytes addr ones (Or.inr h16) (by omega)
  rw [h16] at hM hI
  have hmm : To4 (parseCIDRNet addr ones).IP = [] := by
    by_contra h
    exact hm ((masked_mapped_iff addr ones h16 hones hb).1 h)
  have hlenI : (parseCIDRNet addr ones).IP.length = 16 := by rw [hI]; simp
  have hnn := networkNumberAndMask_v6 (parseCIDRNet addr ones) hlenI (by rw [hM]; simp) hmm
  rw [Contains_of_network _ ip _ _ hnn, hlenI]
  by_cases hip : To4 ip = []
  · simp only [hip, ne_eq, not_true_eq_false, if_false, true_and]
    by_cases hl : ip.length = 16
    · simp only [hl, true_and]
      have key := masked_all_iff 16 ones (fun i => addr.getD i 0) (fun i => ip.getD i 0)
        (by omega)
      unfold addrBit
      rw [← key]
      constructor
      · intro h i hi
        have := h i hi
        rw [hI, hM, getD_map_range _ _ i hi, getD_map_range _ _ i hi] at this
        exact this
      · intro h i hi
        rw [hI, hM, getD_map_range _ _ i hi, getD_map_range _ _ i hi]
        exact h i hi
    · simp [hl]
  · have hl4 : (To4 ip).length = 4 := by
      rcases To4_length ip with h | h
      · exact h
      · exact absurd h hip
    simp only [hip, ne_eq, not_false_eq_true, if_true, hl4, false_and, iff_false]
    rintro ⟨h, _⟩
    omega

/-- The method `Contains` on a parsed range is membership of the range. -/
theorem Contains_iff_InCIDR (addr : IP) (ones : Nat) (ip : IP)
    (hlen : addr.length = 4 ∨ addr.length = 16) (hones : ones ≤ 8 * addr.length)
    (hb : ∀ b ∈ addr, b < 256) :
    (parseCIDRNet addr ones).Contains ip = true ↔ InCIDR ip addr ones := by
  unfold InCIDR
  rcases hlen with h4 | h16
  · rw [if_pos h4]
    exact Contains_v4 addr ones ip h4 (by omega)
  · rw [if_neg (by omega)]
    by_cases hm : To4 addr ≠ [] ∧ 96 ≤ ones
    · rw [if_pos hm]
      exact Contains_mapped addr ones ip h16 (by omega) hb hm.1 hm.2
    · rw [if_neg hm]
      exact Contains_v6 addr ones ip h16 (by omega) hb hm

/-! ## What a client decodes from the replies -/

/-- The decoded body of the reply of `healthcheck` to an authorized request. -/
theorem healthcheck_decoded (lib : StdLib) (cfg : Config) (world : World) (req : Request)
    (h : authorizeRequestKey cfg.AuthenticationToken req = true)
    (h2 : authorizeRequestIP lib cfg.AllowedOrigins req = true) :
    parseJSON (healthcheck lib cfg world .fresh req).w.body
      = some (healthJSON
          { Success := decide ((runCommand world cfg.HealthCheckCommand).2.1 = [] ∧
              (runCommand world cfg.HealthCheckCommand).2.2 = 0)
            Data :=
              { Stdout := coerceUTF8 (runCommand world cfg.HealthCheckCommand).1.length
                  (runCommand world cfg.HealthCheckCommand).1
                Stderr := coerceUTF8 (runCommand world cfg.HealthCheckCommand).2.1.length
                  (runCommand world cfg.HealthCheckCommand).2.1
                Status := (runCommand world cfg.HealthCheckCommand).2.2 } }) := by
  rw [healthcheck_authorized lib cfg world req h h2]
  simp only []
  rw [parseJSON_marshalHealth]

/-- The decoded body of the reply of `status` to an authorized request when an
owner command is configured. -/
theorem status_command_decoded (lib : StdLib) (cfg : Config) (world : World) (req : Request)
    (h : authorizeRequestKey cfg.AuthenticationToken req = true)
    (h2 : authorizeRequestIP lib cfg.AllowedOrigins req = true) (hc : cfg.OwnerCommand ≠ []) :
    parseJSON (status lib cfg world .fresh req).w.body
      = some (statusJSON
          { Success := decide ((runCommand world cfg.OwnerCommand).2.1 = [] ∧
              (runCommand world cfg.OwnerCommand).2.2 = 0)
            Data :=
              { Identifier :=
                  if (runCommand world cfg.OwnerCommand).2.1 = [] ∧
                    (runCommand world cfg.OwnerCommand).2.2 = 0
                  then coerceUTF8 (runCommand world cfg.OwnerCommand).1.length
                    (runCommand world cfg.OwnerCommand).1
                  else [] } }) := by
  rw [status_authorized_command lib cfg world req h h2 hc]
  simp only []
  rw [parseJSON_marshalStatus]
  by_cases hs : (runCommand world cfg.OwnerCommand).2.1 = [] ∧
      (runCommand world cfg.OwnerCommand).2.2 = 0
  · simp only [hs, and_self, if_true]
  · simp only [hs, if_false]
    rfl

/-- The decoded body of the reply of `status` in file mode. -/
theorem status_file_decoded (lib : StdLib) (cfg : Config) (world : World) (req : Request)
    (h : authorizeRequestKey cfg.AuthenticationToken req = true)
    (h2 : authorizeRequestIP lib cfg.AllowedOrigins req = true) (hc : cfg.OwnerCommand = [])
    (c : GoString) (hread : world.ReadFile cfg.TargetFile = .ok c) :
    parseJSON (status lib cfg world .fresh req).w.body
      = some (statusJSON
          { Success := true
            Data := { Identifier := coerceUTF8 (TrimSpace c).length (TrimSpace c) } }) := by
  rw [status_authorized_file lib cfg world req h h2 hc, hread]
  simp only []
  rw [parseJSON_marshalStatus]

/-! ## Claims -/

/-- C1, as stated, fails: with the configured token `a b` the header value
`a b` equals the token, yet `authorizeRequestKey` rejects it, because a header
with a space is split and its first piece must be `Token`. -/
theorem C1_bare_token_with_space_rejected :
    ¬ (authorizeRequestKey (str "a b") (sampleRequest (str "a b")) = true ↔
        (str "a b" = [] ∨ (sampleRequest (str "a b")).Authorization = str "a b" ∨
          (sampleRequest (str "a b")).Authorization = str "Token " ++ str "a b")) := by
  decide

/-- C1 (amended): for every configured token `T` and every Authorization
header value `H`, `authorizeRequestKey` returns true if and only if `T` is
empty, or `H` is `"Token "` followed by `T`, or `H` equals `T` and `T`
contains no space. -/
theorem C1_token_check_iff (T : GoString) (req : Request) :
    authorizeRequestKey T req = true ↔
      (T = [] ∨ req.Authorization = str "Token " ++ T ∨
        (req.Authorization = T ∧ spaceByte ∉ T)) := by
  rw [authorizeRequestKey_iff, str_Token_space]

/-- C10: token check soundness.  For a non-empty configured token `T`, if
`authorizeRequestKey` returns true then the header is `T` or `"Token "`
followed by `T`. -/
theorem C10_token_check_sound (T : GoString) (req : Request) (hT : T ≠ [])
    (h : authorizeRequestKey T req = true) :
    req.Authorization = T ∨ req.Authorization = str "Token " ++ T := by
  rw [authorizeRequestKey_iff, ← str_Token_space] at h
  rcases h with h | h | h
  · exact absurd h hT
  · exact Or.inr h
  · exact Or.inl h.1

/-- C10 at a token that begins with `Token ` and contains spaces. -/
theorem C10_token_check_sound_witness :
    str "Token x y" ≠ [] ∧
      authorizeRequestKey (str "Token x y") (sampleRequest (str "Token Token x y")) = true ∧
      ((sampleRequest (str "Token Token x y")).Authorization = str "Token x y" ∨
        (sampleRequest (str "Token Token x y")).Authorization
          = str "Token " ++ str "Token x y") :=
  ⟨by decide, by decide,
    C10_token_check_sound (str "Token x y") (sampleRequest (str "Token Token x y"))
      (by decide) (by decide)⟩

/-- C2: for both handlers, when the token check or the IP check fails, the
reply is 401 `Unauthorized` if the token check failed (whatever the IP check
returned) and 403 `Forbidden` otherwise, no command is run, no file is read
and the process is not terminated. -/
theorem C2_token_before_ip (lib : StdLib) (cfg : Config) (world : World) (req : Request)
    (h : authorizeRequestKey cfg.AuthenticationToken req = false ∨
      authorizeRequestIP lib cfg.AllowedOrigins req = false) :
    ∀ r ∈ [status lib cfg world .fresh req, healthcheck lib cfg world .fresh req],
      r.w.status = (if authorizeRequestKey cfg.AuthenticationToken req = false then 401 else 403) ∧
      r.w.body = (if authorizeRequestKey cfg.AuthenticationToken req = false
        then str "Unauthorized\n" else str "Forbidden\n") ∧
      r.effects = [] ∧ r.fatal = none := by
  intro r hr
  have e1 : str "Unauthorized" ++ [0x0a] = str "Unauthorized\n" := by decide
  have e2 : str "Forbidden" ++ [0x0a] = str "Forbidden\n" := by decide
  by_cases hk : authorizeRequestKey cfg.AuthenticationToken req = false
  · have hs := status_unauthorized lib cfg world .fresh req hk
    have hh := healthcheck_unauthorized lib cfg world .fresh req hk
    have hw := httpError_fresh "Unauthorized" 401
    simp only [List.mem_cons, List.mem_singleton, List.not_mem_nil, or_false] at hr
    rcases hr with rfl | rfl
    · rw [hs]; simp only [hk, if_true]; exact ⟨hw.1, hw.2.trans e1, trivial, trivial⟩
    · rw [hh]; simp only [hk, if_true]; exact ⟨hw.1, hw.2.trans e1, trivial, trivial⟩
  · have hip : authorizeRequestIP lib cfg.AllowedOrigins req = false := by
      rcases h with h | h
      · exact absurd h hk
      · exact h
    have hk2 : authorizeRequestKey cfg.AuthenticationToken req = true := by
      simpa using hk
    have hs := status_forbidden lib cfg world .fresh req hk2 hip
    have hh := healthcheck_forbidden lib cfg world .fresh req hk2 hip
    have hw := httpError_fresh "Forbidden" 403
    simp only [List.mem_cons, List.mem_singleton, List.not_mem_nil, or_false] at hr
    rcases hr with rfl | rfl
    · rw [hs]; simp only [hk, if_false]; exact ⟨hw.1, hw.2.trans e2, trivial, trivial⟩
    · rw [hh]; simp only [hk, if_false]; exact ⟨hw.1, hw.2.trans e2, trivial, trivial⟩

/-- C2 at a request with a bad token and a bad IP (token `secret`, no header,
allow-list `10.0.0.0/8`, peer `192.168.1.1`): both handlers answer 401. -/
theorem C2_token_before_ip_witness :
    (authorizeRequestKey (str "secret") (sampleRequest []) = false ∧
      authorizeRequestIP sampleLib [tenSlashEight] (sampleRequest []) = false) ∧
    ∀ r ∈ [status sampleLib ⟨[tenSlashEight], str "secret", str "owner.txt", str "true", []⟩
            sampleWorld .fresh (sampleRequest []),
          healthcheck sampleLib ⟨[tenSlashEight], str "secret", str "owner.txt", str "true", []⟩
            sampleWorld .fresh (sampleRequest [])],
      r.w.status = 401 ∧ r.w.body = str "Unauthorized\n" ∧ r.effects = [] ∧ r.fatal = none :=
  ⟨by decide, fun r hr => by
    have h := C2_token_before_ip sampleLib
      ⟨[tenSlashEight], str "secret", str "owner.txt", str "true", []⟩ sampleWorld
      (sampleRequest []) (Or.inl (by decide)) r hr
    have hk : authorizeRequestKey (str "secret") (sampleRequest []) = false := by decide
    simpa [hk] using h⟩

/-- C3: for every allow-list of CIDR ranges and every peer address,
`authorizeRequestIP` returns true if and only if the peer IP parses (is not
`nil`) and lies in at least one range of the list; so it returns false for
the empty allow-list and for a peer address that does not parse. -/
theorem C3_ip_check_iff (lib : StdLib) (ranges : List (IP × Nat)) (req : Request)
    (hC : ∀ r ∈ ranges, ValidRange r) :
    (authorizeRequestIP lib (allowedOrigins ranges) req = true ↔
      (lib.ParseIP (lib.SplitHostPort req.RemoteAddr) ≠ [] ∧
        ∃ r ∈ ranges, InCIDR (lib.ParseIP (lib.SplitHostPort req.RemoteAddr)) r.1 r.2)) ∧
    authorizeRequestIP lib (allowedOrigins []) req = false ∧
    (lib.ParseIP (lib.SplitHostPort req.RemoteAddr) = [] →
      authorizeRequestIP lib (allowedOrigins ranges) req = false) := by
  have hiff : authorizeRequestIP lib (allowedOrigins ranges) req = true ↔
      ∃ r ∈ ranges, InCIDR (lib.ParseIP (lib.SplitHostPort req.RemoteAddr)) r.1 r.2 := by
    rw [authorizeRequestIP_eq_any, List.any_eq_true]
    unfold allowedOrigins
    constructor
    · rintro ⟨n, hn, hc⟩
      obtain ⟨r, hr, rfl⟩ := List.mem_map.1 hn
      obtain ⟨h1, h2, h3⟩ := hC r hr
      exact ⟨r, hr, (Contains_iff_InCIDR r.1 r.2 _ h1 h2 h3).1 hc⟩
    · rintro ⟨r, hr, hc⟩
      obtain ⟨h1, h2, h3⟩ := hC r hr
      exact ⟨_, List.mem_map.2 ⟨r, hr, rfl⟩, (Contains_iff_InCIDR r.1 r.2 _ h1 h2 h3).2 hc⟩
  have hnil : ∀ r : IP × Nat, ¬ InCIDR [] r.1 r.2 := by
    intro r h
    unfold InCIDR at h
    rw [To4_nil] at h
    split_ifs at h
    · exact h.1 rfl
    · exact h.1 rfl
    · simp at h
  refine ⟨?_, ?_, ?_⟩
  · rw [hiff]
    constructor
    · rintro ⟨r, hr, hc⟩
      refine ⟨?_, r, hr, hc⟩
      intro h0
      rw [h0] at hc
      exact hnil r hc
    · rintro ⟨_, h⟩
      exact h
  · rw [authorizeRequestIP_eq_any]; rfl
  · intro h0
    rw [← Bool.not_eq_true, hiff, h0]
    rintro ⟨r, _, hc⟩
    exact hnil r hc

/-- C3 on the allow-list `10.0.0.0/8, 0.0.0.0/0` and the peer `192.168.1.1`,
which lies in the second range and not in the first. -/
theorem C3_ip_check_iff_witness :
    (∀ r ∈ [([10, 0, 0, 0], 8), ([0, 0, 0, 0], 0)], ValidRange r) ∧
    authorizeRequestIP sampleLib (allowedOrigins [([10, 0, 0, 0], 8), ([0, 0, 0, 0], 0)])
      (sampleRequest []) = true ∧
    authorizeRequestIP sampleLib (allowedOrigins [([10, 0, 0, 0], 8)]) (sampleRequest [])
      = false ∧
    ∃ r ∈ [(([10, 0, 0, 0] : IP), 8), ([0, 0, 0, 0], 0)],
      InCIDR (sampleLib.ParseIP (sampleLib.SplitHostPort (sampleRequest []).RemoteAddr))
        r.1 r.2 := by
  have hC : ∀ r ∈ [(([10, 0, 0, 0] : IP), 8), ([0, 0, 0, 0], 0)], ValidRange r := by
    intro r hr
    simp only [List.mem_cons, List.mem_singleton, List.not_mem_nil, or_false] at hr
    rcases hr with rfl | rfl <;> exact ⟨Or.inl rfl, by decide, by decide⟩
  have ht : authorizeRequestIP sampleLib
      (allowedOrigins [([10, 0, 0, 0], 8), ([0, 0, 0, 0], 0)]) (sampleRequest []) = true := by
    decide
  exact ⟨hC, ht, by decide,
    ((C3_ip_check_iff sampleLib [([10, 0, 0, 0], 8), ([0, 0, 0, 0], 0)] (sampleRequest [])
      hC).1.1 ht).2⟩

/-- C4, as stated, fails for output that is not valid UTF-8: when the health
command writes the single byte `0xff` to standard error, the runner returns
that byte as stderr, and the data payload a client decodes from the 500 reply
holds the three bytes `EF BF BD` in its place, with either encoder. -/
theorem C4_payload_differs_from_triple :
    runCommand sampleWorld (str "printf \\\\377 >&2") = ([], [0xff], 0) ∧
    (healthcheck sampleLib ⟨[anyIPv4], [], str "owner.txt", str "printf \\\\377 >&2", []⟩
        sampleWorld .fresh (sampleRequest [])).w.status = 500 ∧
    parseJSON (healthcheck sampleLib
        ⟨[anyIPv4], [], str "owner.txt", str "printf \\\\377 >&2", []⟩ sampleWorld .fresh
        (sampleRequest [])).w.body
      = some (healthJSON
          { Success := false
            Data := { Stdout := [], Stderr := [0xEF, 0xBF, 0xBD], Status := 0 } }) ∧
    parseJSON (healthcheck sampleLibClassic
        ⟨[anyIPv4], [], str "owner.txt", str "printf \\\\377 >&2", []⟩ sampleWorld .fresh
        (sampleRequest [])).w.body
      = some (healthJSON
          { Success := false
            Data := { Stdout := [], Stderr := [0xEF, 0xBF, 0xBD], Status := 0 } }) ∧
    ¬ (parseJSON (healthcheck sampleLib
        ⟨[anyIPv4], [], str "owner.txt", str "printf \\\\377 >&2", []⟩ sampleWorld .fresh
        (sampleRequest [])).w.body
      = some (healthJSON
          { Success := false, Data := { Stdout := [], Stderr := [0xff], Status := 0 } })) := by
  have hp : parseJSON (healthcheck sampleLib
      ⟨[anyIPv4], [], str "owner.txt", str "printf \\\\377 >&2", []⟩ sampleWorld .fresh
      (sampleRequest [])).w.body
      = some (healthJSON
          { Success := false
            Data := { Stdout := [], Stderr := [0xEF, 0xBF, 0xBD], Status := 0 } }) := rfl
  refine ⟨by decide, by decide, hp, rfl, ?_⟩
  rw [hp]
  intro h
  simp [healthJSON] at h

/-- C4 (amended): for every authorized request to `healthcheck`, with `(stdout,
stderr, exitCode)` the result of the command runner: the HTTP status is 200
and `success` is true if and only if `stderr` is empty and `exitCode` is 0,
otherwise the status is 500 and `success` is false; in both cases the body
decodes to the envelope with that `success` and a data payload whose `status`
is `exitCode` and whose `stdout` and `stderr` are each the string of the
runner whenever that string is valid UTF-8. -/
theorem C4_healthcheck_response (lib : StdLib) (cfg : Config) (world : World) (req : Request)
    (hkey : authorizeRequestKey cfg.AuthenticationToken req = true)
    (hip : authorizeRequestIP lib cfg.AllowedOrigins req = true) :
    ((healthcheck lib cfg world .fresh req).w.status = 200 ↔
      ((runCommand world cfg.HealthCheckCommand).2.1 = [] ∧
        (runCommand world cfg.HealthCheckCommand).2.2 = 0)) ∧
    (healthcheck lib cfg world .fresh req).w.status
      = (if (runCommand world cfg.HealthCheckCommand).2.1 = [] ∧
          (runCommand world cfg.HealthCheckCommand).2.2 = 0 then 200 else 500) ∧
    ∃ out err,
      parseJSON (healthcheck lib cfg world .fresh req).w.body
        = some (healthJSON
            { Success := decide ((runCommand world cfg.HealthCheckCommand).2.1 = [] ∧
                (runCommand world cfg.HealthCheckCommand).2.2 = 0)
              Data :=
                { Stdout := out
                  Stderr := err
                  Status := (runCommand world cfg.HealthCheckCommand).2.2 } }) ∧
      (ValidUTF8 (runCommand world cfg.HealthCheckCommand).1 →
        out = (runCommand world cfg.HealthCheckCommand).1) ∧
      (ValidUTF8 (runCommand world cfg.HealthCheckCommand).2.1 →
        err = (runCommand world cfg.HealthCheckCommand).2.1) := by
  refine ⟨?_, ?_, _, _, healthcheck_decoded lib cfg world req hkey hip,
    fun h => coerceUTF8_of_valid _ h, fun h => coerceUTF8_of_valid _ h⟩
  · rw [healthcheck_authorized lib cfg world req hkey hip]
    by_cases hc : (runCommand world cfg.HealthCheckCommand).2.1 = [] ∧
        (runCommand world cfg.HealthCheckCommand).2.2 = 0
    · simp [hc]
    · simp only [hc, if_false, iff_false]
      decide
  · rw [healthcheck_authorized lib cfg world req hkey hip]

/-- C4 on scenario A, the health command `true`, which gives 200 with
`success` true and the empty triple; on scenario D, the health command
`exit 3`, which gives 500 with `success` false and status 3; and on a command
that exits with 0 after writing to stderr, which gives 500 as well. -/
theorem C4_healthcheck_response_witness :
    (authorizeRequestKey [] (sampleRequest []) = true ∧
      authorizeRequestIP sampleLib [anyIPv4] (sampleRequest []) = true) ∧
    ((healthcheck sampleLib ⟨[anyIPv4], [], str "owner.txt", str "true", []⟩ sampleWorld
        .fresh (sampleRequest [])).w.status = 200 ∧
      parseJSON (healthcheck sampleLib ⟨[anyIPv4], [], str "owner.txt", str "true", []⟩
          sampleWorld .fresh (sampleRequest [])).w.body
        = some (healthJSON
            { Success := true, Data := { Stdout := [], Stderr := [], Status := 0 } })) ∧
    ((healthcheck sampleLib ⟨[anyIPv4], [], str "owner.txt", str "exit 3", []⟩ sampleWorld
        .fresh (sampleRequest [])).w.status = 500 ∧
      parseJSON (healthcheck sampleLib ⟨[anyIPv4], [], str "owner.txt", str "exit 3", []⟩
          sampleWorld .fresh (sampleRequest [])).w.body
        = some (healthJSON
            { Success := false, Data := { Stdout := [], Stderr := [], Status := 3 } })) ∧
    ((healthcheck sampleLib ⟨[anyIPv4], [], str "owner.txt", str "echo oops >&2", []⟩
        sampleWorld .fresh (sampleRequest [])).w.status = 500 ∧
      parseJSON (healthcheck sampleLib
          ⟨[anyIPv4], [], str "owner.txt", str "echo oops >&2", []⟩ sampleWorld .fresh
          (sampleRequest [])).w.body
        = some (healthJSON
            { Success := false
              Data := { Stdout := [], Stderr := str "oops\n", Status := 0 } })) := by
  obtain ⟨_, a2, o1, e1, a3, a4, a5⟩ := C4_healthcheck_response sampleLib
    ⟨[anyIPv4], [], str "owner.txt", str "true", []⟩ sampleWorld (sampleRequest [])
    (by decide) (by decide)
  obtain ⟨_, b2, o2, e2, b3, b4, b5⟩ := C4_healthcheck_response sampleLib
    ⟨[anyIPv4], [], str "owner.txt", str "exit 3", []⟩ sampleWorld (sampleRequest [])
    (by decide) (by decide)
  obtain ⟨_, c2, o3, e3, c3, c4, c5⟩ := C4_healthcheck_response sampleLib
    ⟨[anyIPv4], [], str "owner.txt", str "echo oops >&2", []⟩ sampleWorld (sampleRequest [])
    (by decide) (by decide)
  rw [a4 (by decide), a5 (by decide)] at a3
  rw [b4 (by decide), b5 (by decide)] at b3
  rw [c4 (by decide), c5 (by decide)] at c3
  exact ⟨⟨by decide, by decide⟩, ⟨by rw [a2]; decide, a3⟩, ⟨by rw [b2]; decide, b3⟩,
    ⟨by rw [c2]; decide, c3⟩⟩

/-- C5, as stated, fails for output that is not valid UTF-8: when the owner
command prints the single byte `0xff` and succeeds, the runner returns that
byte as stdout, and the identifier a client decodes from the 200 reply is the
three bytes `EF BF BD`, with either encoder. -/
theorem C5_identifier_differs_from_stdout :
    runCommand sampleWorld (str "printf \\\\377") = ([0xff], [], 0) ∧
    (status sampleLib ⟨[anyIPv4], [], str "owner.txt", str "true", str "printf \\\\377"⟩
        sampleWorld .fresh (sampleRequest [])).w.status = 200 ∧
    parseJSON (status sampleLib
        ⟨[anyIPv4], [], str "owner.txt", str "true", str "printf \\\\377"⟩ sampleWorld .fresh
        (sampleRequest [])).w.body
      = some (statusJSON { Success := true, Data := { Identifier := [0xEF, 0xBF, 0xBD] } }) ∧
    parseJSON (status sampleLibClassic
        ⟨[anyIPv4], [], str "owner.txt", str "true", str "printf \\\\377"⟩ sampleWorld .fresh
        (sampleRequest [])).w.body
      = some (statusJSON { Success := true, Data := { Identifier := [0xEF, 0xBF, 0xBD] } }) ∧
    ¬ (parseJSON (status sampleLib
        ⟨[anyIPv4], [], str "owner.txt", str "true", str "printf \\\\377"⟩ sampleWorld .fresh
        (sampleRequest [])).w.body
      = some (statusJSON { Success := true, Data := { Identifier := [0xff] } })) := by
  have hp : parseJSON (status sampleLib
      ⟨[anyIPv4], [], str "owner.txt", str "true", str "printf \\\\377"⟩ sampleWorld .fresh
      (sampleRequest [])).w.body
      = some (statusJSON { Success := true, Data := { Identifier := [0xEF, 0xBF, 0xBD] } }) :=
    rfl
  refine ⟨by decide, by decide, hp, rfl, ?_⟩
  rw [hp]
  intro h
  simp [statusJSON] at h

/-- C5 (amended): for every authorized request to `status` when a non-empty
owner command is configured, with `(stdout, stderr, exitCode)` the result of
the command runner: if `stderr` is empty and `exitCode` is 0 the reply is 200
and its body decodes to `success` true with an identifier that is `stdout`
unchanged whenever `stdout` is valid UTF-8; otherwise the reply is 500 and its
body decodes to `success` false with the empty identifier. -/
theorem C5_status_command_response (lib : StdLib) (cfg : Config) (world : World)
    (req : Request) (hkey : authorizeRequestKey cfg.AuthenticationToken req = true)
    (hip : authorizeRequestIP lib cfg.AllowedOrigins req = true)
    (hcmd : cfg.OwnerCommand ≠ []) :
    (status lib cfg world .fresh req).w.status
      = (if (runCommand world cfg.OwnerCommand).2.1 = [] ∧
          (runCommand world cfg.OwnerCommand).2.2 = 0 then 200 else 500) ∧
    ∃ ident,
      parseJSON (status lib cfg world .fresh req).w.body
        = some (statusJSON
            { Success := decide ((runCommand world cfg.OwnerCommand).2.1 = [] ∧
                (runCommand world cfg.OwnerCommand).2.2 = 0)
              Data := { Identifier := ident } }) ∧
      (¬ ((runCommand world cfg.OwnerCommand).2.1 = [] ∧
          (runCommand world cfg.OwnerCommand).2.2 = 0) → ident = []) ∧
      ((runCommand world cfg.OwnerCommand).2.1 = [] ∧
          (runCommand world cfg.OwnerCommand).2.2 = 0 →
        ValidUTF8 (runCommand world cfg.OwnerCommand).1 →
        ident = (runCommand world cfg.OwnerCommand).1) := by
  refine ⟨?_, _, status_command_decoded lib cfg world req hkey hip hcmd, ?_, ?_⟩
  · rw [status_authorized_command lib cfg world req hkey hip hcmd]
  · intro hc
    rw [if_neg hc]
  · intro hc hv
    rw [if_pos hc]
    exact coerceUTF8_of_valid _ hv

/-- C5 on scenario C, the owner command `echo owner1`, which gives 200 and the
identifier `owner1` followed by the newline; and on the owner command `exit 3`,
which gives 500 and the empty identifier. -/
theorem C5_status_command_response_witness :
    (authorizeRequestKey [] (sampleRequest []) = true ∧
      authorizeRequestIP sampleLib [anyIPv4] (sampleRequest []) = true ∧
      str "echo owner1" ≠ [] ∧ str "exit 3" ≠ []) ∧
    ((status sampleLib ⟨[anyIPv4], [], str "owner.txt", str "true", str "echo owner1"⟩
        sampleWorld .fresh (sampleRequest [])).w.status = 200 ∧
      parseJSON (status sampleLib
          ⟨[anyIPv4], [], str "owner.txt", str "true", str "echo owner1"⟩ sampleWorld .fresh
          (sampleRequest [])).w.body
        = some (statusJSON { Success := true, Data := { Identifier := str "owner1\n" } })) ∧
    ((status sampleLib ⟨[anyIPv4], [], str "owner.txt", str "true", str "exit 3"⟩
        sampleWorld .fresh (sampleRequest [])).w.status = 500 ∧
      parseJSON (status sampleLib
          ⟨[anyIPv4], [], str "owner.txt", str "true", str "exit 3"⟩ sampleWorld .fresh
          (sampleRequest [])).w.body
        = some (statusJSON { Success := false, Data := { Identifier := [] } })) := by
  obtain ⟨a1, i1, a2, _, a4⟩ := C5_status_command_response sampleLib
    ⟨[anyIPv4], [], str "owner.txt", str "true", str "echo owner1"⟩ sampleWorld
    (sampleRequest []) (by decide) (by decide) (by decide)
  obtain ⟨b1, i2, b2, b3, _⟩ := C5_status_command_response sampleLib
    ⟨[anyIPv4], [], str "owner.txt", str "true", str "exit 3"⟩ sampleWorld
    (sampleRequest []) (by decide) (by decide) (by decide)
  rw [a4 (by decide) (by decide)] at a2
  rw [b3 (by decide)] at b2
  exact ⟨⟨by decide, by decide, by decide, by decide⟩, ⟨by rw [a1]; decide, a2⟩,
    ⟨by rw [b1]; decide, b2⟩⟩

/-- C7, as stated, fails for a process killed by a signal: `cmd.Run` reports
it as an `*exec.ExitError`, so `runCommand` returns the exit status `-1` of
the wait status (not 1) and leaves the empty captured stderr as it is. -/
theorem C7_signal_exit_code_not_one :
    Signaled 9 = true ∧
      ¬ ((runCommandOn { outbuf := [], errbuf := [], outcome := .waited 9 none }).2.2 = 1) ∧
      (runCommandOn { outbuf := [], errbuf := [], outcome := .waited 9 none }).2.2 = -1 ∧
      (runCommandOn { outbuf := [], errbuf := [], outcome := .waited 9 none }).2.1 = [] := by
  decide

/-- C7 (amended): `runCommand` returns the captured stdout; when the process
ran without succeeding (non-zero exit status or killed by a signal) the exit
code is `ExitStatus` of its wait status, that is the reported status after a
normal termination and `-1` after a signal, and stderr is the captured
stderr; when the command did not start, or ran to exit status 0 with an I/O
error, the exit code is 1 and stderr is the captured stderr if that is
non-empty and the error text otherwise; with no error the exit code is 0.  A
run that ended in an error never has exit code 0. -/
theorem C7_runCommand_exit_code (x : Execution) :
    runCommandOn x =
      (match x.outcome with
        | .startFailed msg => (x.outbuf, if x.errbuf = [] then msg else x.errbuf, 1)
        | .waited ws ioErr =>
          if Exited ws = true then
            if (ws >>> 8) &&& 0xFF ≠ 0 then (x.outbuf, x.errbuf, (((ws >>> 8) &&& 0xFF : Nat) : Int))
            else match ioErr with
              | some msg => (x.outbuf, if x.errbuf = [] then msg else x.errbuf, 1)
              | none => (x.outbuf, x.errbuf, 0)
          else (x.outbuf, x.errbuf, -1)) ∧
    ((runCommandOn x).2.2 = 0 ↔ ∃ state, cmdRun x.outcome = .ok state) := by
  rcases x with ⟨out, err, outcome⟩
  cases outcome with
  | startFailed msg => simp [runCommandOn, cmdRun]
  | waited ws ioErr =>
    by_cases he : Exited ws = true
    · by_cases h0 : (ws >>> 8) &&& 0xFF = 0
      · cases ioErr <;> simp [runCommandOn, cmdRun, ExitStatus, he, h0]
      · have h1 : ¬ (((ws >>> 8) &&& 0xFF : Nat) : Int) = 0 := by exact_mod_cast h0
        cases ioErr <;> simp [runCommandOn, cmdRun, ExitStatus, he, h0, h1]
    · cases ioErr <;> simp [runCommandOn, cmdRun, ExitStatus, he]

/-- C9, as stated, fails for file contents that are not valid UTF-8: when the
target file holds the bytes `20 ff 0a`, the contents without their leading and
trailing white space are the single byte `0xff`, and the identifier a client
decodes from the 200 reply is the three bytes `EF BF BD`, with either encoder. -/
theorem C9_identifier_differs_from_trimmed :
    sampleWorld.ReadFile (str "binary.txt") = .ok [0x20, 0xff, 0x0a] ∧
    trimmedOfSpace [0x20, 0xff, 0x0a] = [0xff] ∧
    (status sampleLib ⟨[anyIPv4], [], str "binary.txt", str "true", []⟩ sampleWorld .fresh
        (sampleRequest [])).w.status = 200 ∧
    parseJSON (status sampleLib ⟨[anyIPv4], [], str "binary.txt", str "true", []⟩
        sampleWorld .fresh (sampleRequest [])).w.body
      = some (statusJSON { Success := true, Data := { Identifier := [0xEF, 0xBF, 0xBD] } }) ∧
    parseJSON (status sampleLibClassic ⟨[anyIPv4], [], str "binary.txt", str "true", []⟩
        sampleWorld .fresh (sampleRequest [])).w.body
      = some (statusJSON { Success := true, Data := { Identifier := [0xEF, 0xBF, 0xBD] } }) ∧
    ¬ (parseJSON (status sampleLib ⟨[anyIPv4], [], str "binary.txt", str "true", []⟩
        sampleWorld .fresh (sampleRequest [])).w.body
      = some (statusJSON { Success := true, Data := { Identifier := [0xff] } })) := by
  have hp : parseJSON (status sampleLib ⟨[anyIPv4], [], str "binary.txt", str "true", []⟩
      sampleWorld .fresh (sampleRequest [])).w.body
      = some (statusJSON { Success := true, Data := { Identifier := [0xEF, 0xBF, 0xBD] } }) :=
    rfl
  refine ⟨rfl, by decide, by decide, hp, rfl, ?_⟩
  rw [hp]
  intro h
  simp [statusJSON] at h

/-- C9 (amended): for every authorized request to `status` when no owner
command is configured: if reading the target file succeeds with contents `c`,
the reply is 200 and its body decodes to `success` true with an identifier
that is `c` without its leading and trailing white space, nothing else
changed, whenever that trimmed text is valid UTF-8; if the read fails, nothing
is written to the response and the process is terminated with the error. -/
theorem C9_status_file_mode (lib : StdLib) (cfg : Config) (world : World) (req : Request)
    (hkey : authorizeRequestKey cfg.AuthenticationToken req = true)
    (hip : authorizeRequestIP lib cfg.AllowedOrigins req = true)
    (hcmd : cfg.OwnerCommand = []) :
    (∀ c, world.ReadFile cfg.TargetFile = .ok c →
      (status lib cfg world .fresh req).w.status = 200 ∧
      (∃ ident,
        parseJSON (status lib cfg world .fresh req).w.body
          = some (statusJSON { Success := true, Data := { Identifier := ident } }) ∧
        (ValidUTF8 (trimmedOfSpace c) → ident = trimmedOfSpace c)) ∧
      (status lib cfg world .fresh req).effects = [.readFile cfg.TargetFile] ∧
      (status lib cfg world .fresh req).fatal = none) ∧
    (∀ err, world.ReadFile cfg.TargetFile = .error err →
      (status lib cfg world .fresh req).w = .fresh ∧
      (status lib cfg world .fresh req).effects = [.readFile cfg.TargetFile] ∧
      (status lib cfg world .fresh req).fatal = some err) := by
  constructor
  · intro c hc
    have hd := status_file_decoded lib cfg world req hkey hip hcmd c hc
    rw [TrimSpace_eq_trimmedOfSpace] at hd
    refine ⟨?_, ⟨_, hd, fun hv => coerceUTF8_of_valid _ hv⟩, ?_, ?_⟩
    · rw [status_authorized_file lib cfg world req hkey hip hcmd, hc]
    · rw [status_authorized_file lib cfg world req hkey hip hcmd, hc]
    · rw [status_authorized_file lib cfg world req hkey hip hcmd, hc]
  · intro err he
    rw [status_authorized_file lib cfg world req hkey hip hcmd, he]
    exact ⟨rfl, rfl, rfl⟩

/-- C9 on the sample world, where `owner.txt` holds `  team7` and a newline
and `missing.txt` does not exist. -/
theorem C9_status_file_mode_witness :
    (authorizeRequestKey [] (sampleRequest []) = true ∧
      authorizeRequestIP sampleLib [anyIPv4] (sampleRequest []) = true) ∧
    trimmedOfSpace (str "  team7\n") = str "team7" ∧
    (status sampleLib ⟨[anyIPv4], [], str "owner.txt", str "true", []⟩ sampleWorld .fresh
        (sampleRequest [])).w.status = 200 ∧
    parseJSON (status sampleLib ⟨[anyIPv4], [], str "owner.txt", str "true", []⟩ sampleWorld
        .fresh (sampleRequest [])).w.body
      = some (statusJSON { Success := true, Data := { Identifier := str "team7" } }) ∧
    (status sampleLib ⟨[anyIPv4], [], str "missing.txt", str "true", []⟩ sampleWorld .fresh
        (sampleRequest [])).w = .fresh ∧
    (status sampleLib ⟨[anyIPv4], [], str "missing.txt", str "true", []⟩ sampleWorld .fresh
        (sampleRequest [])).fatal = some (str "no such file") := by
  obtain ⟨h1, ⟨ident, h2, h3⟩, _, _⟩ := (C9_status_file_mode sampleLib
    ⟨[anyIPv4], [], str "owner.txt", str "true", []⟩
    sampleWorld (sampleRequest []) (by decide) (by decide) rfl).1 (str "  team7\n") rfl
  have h4 := (C9_status_file_mode sampleLib ⟨[anyIPv4], [], str "missing.txt", str "true", []⟩
    sampleWorld (sampleRequest []) (by decide) (by decide) rfl).2 (str "no such file") rfl
  have ht : trimmedOfSpace (str "  team7\n") = str "team7" := by decide
  rw [h3 (by decide), ht] at h2
  exact ⟨⟨by decide, by decide⟩, ht, h1, h2, h4.1, h4.2.2⟩

/-- C6, as stated, fails on the 401 reply: its body is the plain-text line
`Unauthorized`, which is no JSON text and carries no `success` member. -/
theorem C6_unauthorized_body_not_json :
    (status sampleLib ⟨[anyIPv4], str "secret", str "owner.txt", str "true", []⟩ sampleWorld
        .fresh (sampleRequest [])).w.status = 401 ∧
    (status sampleLib ⟨[anyIPv4], str "secret", str "owner.txt", str "true", []⟩ sampleWorld
        .fresh (sampleRequest [])).w.body = str "Unauthorized\n" ∧
    ¬ HasSuccessFlag (status sampleLib ⟨[anyIPv4], str "secret", str "owner.txt", str "true", []⟩
        sampleWorld .fresh (sampleRequest [])).w.body := by
  refine ⟨by decide, by decide, ?_⟩
  rintro ⟨v, b, h, _⟩
  have hb : (status sampleLib ⟨[anyIPv4], str "secret", str "owner.txt", str "true", []⟩
      sampleWorld .fresh (sampleRequest [])).w.body = str "Unauthorized\n" := by decide
  rw [hb] at h
  have hn : parseJSON (str "Unauthorized\n") = none := rfl
  rw [hn] at h
  cases h

/-- C6 (amended): for either endpoint and every request to which a reply is
written, the body is a JSON text with a boolean `success` member exactly when
the HTTP status is 200 or 500; the 401 and 403 replies are plain text. -/
theorem C6_json_envelope (lib : StdLib) (cfg : Config) (world : World) (req : Request)
    (r : HandlerResult)
    (hr : r ∈ [status lib cfg world .fresh req, healthcheck lib cfg world .fresh req])
    (hf : r.fatal = none) :
    HasSuccessFlag r.w.body ↔ (r.w.status = 200 ∨ r.w.status = 500) := by
  have hU : ¬ HasSuccessFlag (str "Unauthorized" ++ [0x0a]) := by
    rintro ⟨v, b, h, _⟩
    have hn : parseJSON (str "Unauthorized" ++ [0x0a]) = none := rfl
    rw [hn] at h
    cases h
  have hF : ¬ HasSuccessFlag (str "Forbidden" ++ [0x0a]) := by
    rintro ⟨v, b, h, _⟩
    have hn : parseJSON (str "Forbidden" ++ [0x0a]) = none := rfl
    rw [hn] at h
    cases h
  have hH : ∀ (raw : Bool) (x : HealthCheckResponse), HasSuccessFlag (marshalHealth raw x) :=
    fun raw x => ⟨_, x.Success, parseJSON_marshalHealth raw x, rfl⟩
  have hS : ∀ (raw : Bool) (x : StatusCheckResponse), HasSuccessFlag (marshalStatus raw x) :=
    fun raw x => ⟨_, x.Success, parseJSON_marshalStatus raw x, rfl⟩
  simp only [List.mem_cons, List.mem_singleton, List.not_mem_nil, or_false] at hr
  by_cases hk : authorizeRequestKey cfg.AuthenticationToken req = true
  · by_cases hip : authorizeRequestIP lib cfg.AllowedOrigins req = true
    · rcases hr with rfl | rfl
      · by_cases hc : cfg.OwnerCommand = []
        · rw [status_authorized_file lib cfg world req hk hip hc] at hf ⊢
          cases hread : world.ReadFile cfg.TargetFile with
          | ok c =>
            simp only [hread]
            exact ⟨fun _ => Or.inl trivial, fun _ => hS _ _⟩
          | error err =>
            rw [hread] at hf
            cases hf
        · rw [status_authorized_command lib cfg world req hk hip hc]
          refine ⟨fun _ => ?_, fun _ => hS _ _⟩
          by_cases hs : (runCommand world cfg.OwnerCommand).2.1 = [] ∧
              (runCommand world cfg.OwnerCommand).2.2 = 0
          · left; simp [hs]
          · right; simp [hs]
      · rw [healthcheck_authorized lib cfg world req hk hip]
        refine ⟨fun _ => ?_, fun _ => hH _ _⟩
        by_cases hs : (runCommand world cfg.HealthCheckCommand).2.1 = [] ∧
            (runCommand world cfg.HealthCheckCommand).2.2 = 0
        · left; simp [hs]
        · right; simp [hs]
    · have hip2 : authorizeRequestIP lib cfg.AllowedOrigins req = false := by simpa using hip
      have hw := httpError_fresh "Forbidden" 403
      rcases hr with rfl | rfl
      · rw [status_forbidden lib cfg world .fresh req hk hip2]
        simp only [hw.1, hw.2]
        exact ⟨fun h => absurd h hF, fun h => by omega⟩
      · rw [healthcheck_forbidden lib cfg world .fresh req hk hip2]
        simp only [hw.1, hw.2]
        exact ⟨fun h => absurd h hF, fun h => by omega⟩
  · have hk2 : authorizeRequestKey cfg.AuthenticationToken req = false := by simpa using hk
    have hw := httpError_fresh "Unauthorized" 401
    rcases hr with rfl | rfl
    · rw [status_unauthorized lib cfg world .fresh req hk2]
      simp only [hw.1, hw.2]
      exact ⟨fun h => absurd h hU, fun h => by omega⟩
    · rw [healthcheck_unauthorized lib cfg world .fresh req hk2]
      simp only [hw.1, hw.2]
      exact ⟨fun h => absurd h hU, fun h => by omega⟩

/-- C6 on the 500 reply of `/healthcheck` to the health command `exit 3`. -/
theorem C6_json_envelope_witness :
    (healthcheck sampleLib ⟨[anyIPv4], [], str "owner.txt", str "exit 3", []⟩ sampleWorld
        .fresh (sampleRequest [])).fatal = none ∧
    (healthcheck sampleLib ⟨[anyIPv4], [], str "owner.txt", str "exit 3", []⟩ sampleWorld
        .fresh (sampleRequest [])).w.status = 500 ∧
    HasSuccessFlag (healthcheck sampleLib ⟨[anyIPv4], [], str "owner.txt", str "exit 3", []⟩
        sampleWorld .fresh (sampleRequest [])).w.body :=
  ⟨by decide, by decide,
    (C6_json_envelope sampleLib ⟨[anyIPv4], [], str "owner.txt", str "exit 3", []⟩ sampleWorld
      (sampleRequest []) _ (List.mem_cons_of_mem _ (List.mem_singleton.2 rfl))
      (by decide)).2 (Or.inr (by decide))⟩

/-- C8, as stated, fails for output that is not valid UTF-8: when the health
command prints the single byte `0xff`, the runner returns that byte as stdout,
and decoding the body yields the three bytes `EF BF BD` in its place, with
either encoder. -/
theorem C8_invalid_byte_not_preserved :
    (runCommand sampleWorld (str "printf \\\\377")).1 = [0xff] ∧
    parseJSON (healthcheck sampleLib
        ⟨[anyIPv4], [], str "owner.txt", str "printf \\\\377", []⟩ sampleWorld .fresh
        (sampleRequest [])).w.body
      = some (healthJSON
          { Success := true, Data := { Stdout := [0xEF, 0xBF, 0xBD], Stderr := [], Status := 0 } }) ∧
    parseJSON (healthcheck sampleLibClassic
        ⟨[anyIPv4], [], str "owner.txt", str "printf \\\\377", []⟩ sampleWorld .fresh
        (sampleRequest [])).w.body
      = some (healthJSON
          { Success := true, Data := { Stdout := [0xEF, 0xBF, 0xBD], Stderr := [], Status := 0 } }) ∧
    ([0xEF, 0xBF, 0xBD] : GoString) ≠ [0xff] := by
  refine ⟨by decide, rfl, rfl, by decide⟩

/-- C8 (amended): for every authorized request to `healthcheck` whose command
wrote valid UTF-8 to stdout and stderr, decoding the JSON body yields the
envelope whose `data` holds exactly the stdout, stderr and exit code the
runner produced, on the 200 and on the 500 path. -/
theorem C8_healthcheck_roundtrip (lib : StdLib) (cfg : Config) (world : World) (req : Request)
    (hkey : authorizeRequestKey cfg.AuthenticationToken req = true)
    (hip : authorizeRequestIP lib cfg.AllowedOrigins req = true)
    (hout : ValidUTF8 (runCommand world cfg.HealthCheckCommand).1)
    (herr : ValidUTF8 (runCommand world cfg.HealthCheckCommand).2.1) :
    parseJSON (healthcheck lib cfg world .fresh req).w.body
      = some (healthJSON
          { Success := decide ((runCommand world cfg.HealthCheckCommand).2.1 = [] ∧
              (runCommand world cfg.HealthCheckCommand).2.2 = 0)
            Data :=
              { Stdout := (runCommand world cfg.HealthCheckCommand).1
                Stderr := (runCommand world cfg.HealthCheckCommand).2.1
                Status := (runCommand world cfg.HealthCheckCommand).2.2 } }) := by
  rw [healthcheck_decoded lib cfg world req hkey hip]
  simp only [coerceUTF8_of_valid _ hout, coerceUTF8_of_valid _ herr]

/-- C8 on the health command `echo oops >&2` (500 path, stderr `oops\n`). -/
theorem C8_healthcheck_roundtrip_witness :
    (ValidUTF8 (runCommand sampleWorld (str "echo oops >&2")).1 ∧
      ValidUTF8 (runCommand sampleWorld (str "echo oops >&2")).2.1) ∧
    parseJSON (healthcheck sampleLib ⟨[anyIPv4], [], str "owner.txt", str "echo oops >&2", []⟩
        sampleWorld .fresh (sampleRequest [])).w.body
      = some (healthJSON
          { Success := false, Data := { Stdout := [], Stderr := str "oops\n", Status := 0 } }) :=
  ⟨⟨by decide, by decide⟩,
    C8_healthcheck_roundtrip sampleLib
      ⟨[anyIPv4], [], str "owner.txt", str "echo oops >&2", []⟩ sampleWorld (sampleRequest [])
      (by decide) (by decide) (by decide) (by decide)⟩

end Koth
